import Mathlib

/-
  Verification of the demand-capacity simulation core
  (src/demand-simulator/simulation-core.js).

  The engine is embedded shallowly: JavaScript numbers are modelled as an
  arbitrary linear ordered field `α`; the faithful instantiation
  `runFullSimulation` lives at `α = ℝ` (the Gaussian demand generator uses
  `Real.exp`).  The minute loop, queues, priority processing, timeout expiry
  and the final drain follow the source line by line; JS object maps keyed by
  curve id become functions `String → _` updated functionally, and JS arrays
  become lists.  Display-only string formatting (`toFixed`, the "HH:MM" time
  label) is not modelled; the corresponding numeric quantities are kept.
-/

set_option maxRecDepth 20000
set_option maxHeartbeats 4000000

namespace DemandSim

/-- A demand source configuration (a `curve` object in the source).
The `color` field of the source is display-only and omitted. -/
structure Curve (α : Type) where
  id : String
  type : String
  totalDemand : α
  peakHour : α
  curveWidth : α
  priority : ℤ
  deriving Repr, DecidableEq

/-- A queued unit of unserved demand
(`{arrivalTime, demand, curveId, priority}` in the source). -/
structure QItem (α : Type) where
  arrivalTime : ℕ
  demand : α
  curveId : String
  priority : ℤ
  deriving Repr, DecidableEq

/-- One entry of the per-minute `demandValues` trace. -/
structure DemandValue (α : Type) where
  minute : ℕ
  demand : α
  usage : α
  queueSize : α
  shed : α
  deriving Repr, DecidableEq

/-- One entry of `usageValuesByCurve` (`{minute, usage}`). -/
structure UsageValue (α : Type) where
  minute : ℕ
  usage : α
  deriving Repr, DecidableEq

/-- A sampled output point (every 5th minute).  The formatted `time` string is
display-only and omitted; the dynamic `demand_<id>` keys become the
association list `curveDemands`. -/
structure Point (α : Type) where
  hour : α
  inputDemand : α
  actualUtilization : α
  capacity : α
  queuedDemand : α
  shedDemand : α
  curveDemands : List (String × α)
  deriving Repr, DecidableEq

/-- The mutable simulation state threaded through the minute loop. -/
structure SimState (α : Type) where
  queuesByCurve : String → List (QItem α)
  utilizationByCurve : String → α
  shedByCurve : String → α
  usageValuesByCurve : String → List (UsageValue α)
  totalUtilization : α
  totalShedDemand : α
  demandValues : List (DemandValue α)
  points : List (Point α)

/-- Functional update of a JS-object-as-map keyed by curve id. -/
def updMap {β : Type} (m : String → β) (k : String) (v : β) : String → β :=
  fun k' => if k' = k then v else m k'

section Engine

variable {α : Type} [LinearOrderedField α]

/-- Per-minute demand arrays, keyed by curve id (`demandByCurve`). -/
def DemandMap (α : Type) : Type := String → List α

/-- `demandByCurve[curve.id][minute]` (present indices are always in range). -/
def demandAt (dm : DemandMap α) (id : String) (minute : ℕ) : α :=
  (dm id).getD minute 0

/-- Linear demand distribution: constant `totalDemand / 1440` per minute. -/
def generateLinearDemand (totalDemand : α) : List α :=
  List.replicate 1440 (totalDemand / 1440)

/-- Initial simulation state: empty queues, per-curve totals zero
(the source initialises exactly the configured curve ids to `[]`/`0`). -/
def initState (α : Type) [LinearOrderedField α] : SimState α :=
  { queuesByCurve := fun _ => []
    utilizationByCurve := fun _ => 0
    shedByCurve := fun _ => 0
    usageValuesByCurve := fun _ => []
    totalUtilization := 0
    totalShedDemand := 0
    demandValues := []
    points := [] }

/-- Step 1 of the minute loop, for one queue: remove every item with
`minute - arrivalTime > queueTimeout` (written addition-side to stay in `ℕ`);
returns the surviving queue and the total shed amount. -/
def expireQueue (minute queueTimeout : ℕ) (q : List (QItem α)) :
    List (QItem α) × α :=
  (q.filter fun it => ¬ queueTimeout + it.arrivalTime < minute,
   (q.filter fun it => queueTimeout + it.arrivalTime < minute).foldl
     (fun s it => s + it.demand) 0)

/-- Stable insertion of a queue item into a list sorted by arrival time. -/
def insertByArrival (it : QItem α) : List (QItem α) → List (QItem α)
  | [] => [it]
  | x :: xs =>
    if it.arrivalTime ≤ x.arrivalTime then it :: x :: xs
    else x :: insertByArrival it xs

/-- Stable sort of a queue by arrival time
(`queue.sort((a, b) => a.arrivalTime - b.arrivalTime)`). -/
def sortByArrival : List (QItem α) → List (QItem α)
  | [] => []
  | x :: xs => insertByArrival x (sortByArrival xs)

/-- Stable insertion of a curve into a list sorted by priority. -/
def insertByPrio (c : Curve α) : List (Curve α) → List (Curve α)
  | [] => [c]
  | x :: xs =>
    if c.priority ≤ x.priority then c :: x :: xs
    else x :: insertByPrio c xs

/-- Stable sort of the curve list by priority
(`[...curves].sort((a, b) => a.priority - b.priority)`). -/
def sortByPrio : List (Curve α) → List (Curve α)
  | [] => []
  | x :: xs => insertByPrio x (sortByPrio xs)

/-- Step 3 of the minute loop: serve queued items front to back while
`availableCapacity > 0`; each item is served `min(item.demand, available)`
and reduced in place.  Returns (updated items, remaining capacity,
total served from the queue). -/
def serveItems (avail : α) : List (QItem α) → List (QItem α) × α × α
  | [] => ([], avail, 0)
  | it :: rest =>
    if 0 < avail then
      let served := min it.demand avail
      let r := serveItems (avail - served) rest
      ({ it with demand := it.demand - served } :: r.1, r.2.1, served + r.2.2)
    else (it :: rest, avail, 0)

/-- Steps 2–3 for a single curve: serve its new demand immediately up to
capacity, queue the excess, sort the queue by arrival, serve the queue,
drop fully served items, and record the curve's usage for the minute.
The accumulator is `(availableCapacity, actualUsage, state)`. -/
def processCurve (dm : DemandMap α) (minute : ℕ)
    (acc : α × α × SimState α) (c : Curve α) : α × α × SimState α :=
  let avail := acc.1
  let usage := acc.2.1
  let st := acc.2.2
  let curveDemand := demandAt dm c.id minute
  let immediatelyServed := min curveDemand avail
  let avail1 := avail - immediatelyServed
  let excessDemand := curveDemand - immediatelyServed
  let q0 := st.queuesByCurve c.id
  let q1 := if 0 < excessDemand then
      q0 ++ [⟨minute, excessDemand, c.id, c.priority⟩] else q0
  let q2 := sortByArrival q1
  let r := serveItems avail1 q2
  let q3 := r.1.filter fun it => 0 < it.demand
  let curveUsage := immediatelyServed + r.2.2
  (r.2.1, usage + curveUsage,
   { st with
      queuesByCurve := updMap st.queuesByCurve c.id q3
      utilizationByCurve := updMap st.utilizationByCurve c.id
        (st.utilizationByCurve c.id + curveUsage)
      usageValuesByCurve := updMap st.usageValuesByCurve c.id
        (st.usageValuesByCurve c.id ++ [⟨minute, curveUsage⟩]) })

/-- Total remaining demand of a queue. -/
def queueMass (q : List (QItem α)) : α :=
  q.foldl (fun s it => s + it.demand) 0

/-- Expiry handling for one curve's queue inside step 1: replace the queue by
its unexpired part, add the removed mass to the curve's shed total, the
aggregate shed total, and the running `shedThisMinute` accumulator. -/
def expireOne (queueTimeout minute : ℕ) (p : SimState α × α) (c : Curve α) :
    SimState α × α :=
  let e := expireQueue minute queueTimeout (p.1.queuesByCurve c.id)
  ({ p.1 with
      queuesByCurve := updMap p.1.queuesByCurve c.id e.1
      shedByCurve := updMap p.1.shedByCurve c.id (p.1.shedByCurve c.id + e.2)
      totalShedDemand := p.1.totalShedDemand + e.2 },
   p.2 + e.2)

/-- Step 1 (expiry) across all curves, in configuration order; returns the
updated state and `shedThisMinute`. -/
def expireStep (curves : List (Curve α)) (queueTimeout minute : ℕ)
    (st : SimState α) : SimState α × α :=
  curves.foldl (expireOne queueTimeout minute) (st, 0)

/-- One minute of the simulation loop (steps 1–4 of the source). -/
def stepMinute (machines : α) (curves : List (Curve α)) (dm : DemandMap α)
    (queueTimeout : ℕ) (st : SimState α) (minute : ℕ) : SimState α :=
  let demand := curves.foldl (fun s c => s + demandAt dm c.id minute) 0
  let e := expireStep curves queueTimeout minute st
  let st1 := e.1
  let shedThisMinute := e.2
  let sortedCurves := sortByPrio curves
  let pr := sortedCurves.foldl (processCurve dm minute) (machines, 0, st1)
  let actualUsage := pr.2.1
  let st2 := pr.2.2
  let queueSize := curves.foldl
    (fun s c => s + queueMass (st2.queuesByCurve c.id)) 0
  let st3 :=
    { st2 with
        totalUtilization := st2.totalUtilization + actualUsage
        demandValues := st2.demandValues ++
          [⟨minute, demand, actualUsage, queueSize, shedThisMinute⟩] }
  if minute % 5 = 0 then
    { st3 with
        points := st3.points ++
          [⟨(minute : α) / 60, demand, actualUsage, machines, queueSize,
            shedThisMinute,
            curves.map fun c => (c.id, demandAt dm c.id minute)⟩] }
  else st3

/-- The first `n` minutes of the loop (minute `k` is processed at step `k`). -/
def stepsUpTo (machines : α) (curves : List (Curve α)) (dm : DemandMap α)
    (queueTimeout : ℕ) : ℕ → SimState α
  | 0 => initState α
  | n + 1 =>
    stepMinute machines curves dm queueTimeout
      (stepsUpTo machines curves dm queueTimeout n) n

/-- Step 5, inner body: shed one remaining queued item of curve `cid`. -/
def drainItem (cid : String) (st : SimState α) (it : QItem α) : SimState α :=
  { st with
      totalShedDemand := st.totalShedDemand + it.demand
      shedByCurve := updMap st.shedByCurve cid
        (st.shedByCurve cid + it.demand) }

/-- Step 5: at end of day, shed all remaining queued demand of every curve
(queues are not cleared by the source either). -/
def finalDrain (curves : List (Curve α)) (st : SimState α) : SimState α :=
  curves.foldl
    (fun st c => (st.queuesByCurve c.id).foldl (drainItem c.id) st)
    st

/-- The full 1440-minute simulation over given demand arrays, including the
end-of-day drain; returns the final state. -/
def simulate (machines : α) (curves : List (Curve α)) (dm : DemandMap α)
    (queueTimeout : ℕ) : SimState α :=
  finalDrain curves (stepsUpTo machines curves dm queueTimeout 1440)

/-- JS `Math.round`: round half toward positive infinity. -/
def jsRound [FloorRing α] (x : α) : ℤ := ⌊x + 1 / 2⌋

/-- Stable insertion of a `demandValues` entry into a list sorted by
descending usage. -/
def insertByUsageDesc (d : DemandValue α) :
    List (DemandValue α) → List (DemandValue α)
  | [] => [d]
  | x :: xs =>
    if x.usage ≤ d.usage then d :: x :: xs
    else x :: insertByUsageDesc d xs

/-- Stable descending sort (`sort((a, b) => b.usage - a.usage)`). -/
def sortByUsageDesc : List (DemandValue α) → List (DemandValue α)
  | [] => []
  | x :: xs => insertByUsageDesc x (sortByUsageDesc xs)

/-- Stable insertion of a per-curve usage entry, descending by usage. -/
def insertUsageValueDesc (d : UsageValue α) :
    List (UsageValue α) → List (UsageValue α)
  | [] => [d]
  | x :: xs =>
    if x.usage ≤ d.usage then d :: x :: xs
    else x :: insertUsageValueDesc d xs

/-- Stable descending sort of per-curve usage values. -/
def sortUsageValuesDesc : List (UsageValue α) → List (UsageValue α)
  | [] => []
  | x :: xs => insertUsageValueDesc x (sortUsageValuesDesc xs)

/-- Per-curve summary metrics.  The source formats `peakUtilization`,
`avgUtilization` and `shedPercent` with `toFixed(1)`; the unformatted numeric
values are modelled.  Division by zero (zero-volume source) is Lean's
`x / 0 = 0` rather than JS `Infinity`/`NaN`. -/
structure CurveMetrics (α : Type) where
  totalUtilization : ℤ
  peakUtilization : α
  avgUtilization : α
  shedDemand : ℤ
  shedPercent : α
  deriving Repr, DecidableEq

/-- Aggregate summary metrics (same `toFixed` caveat as `CurveMetrics`). -/
structure Metrics (α : Type) where
  totalUtilization : ℤ
  peakUtilization : α
  avgUtilization : α
  peakPercent : α
  avgPercent : α
  shedDemand : ℤ
  shedPercent : α
  byCurve : String → CurveMetrics α

/-- The value returned by `runFullSimulation`: the sampled time series and the
metrics record. -/
structure SimOutcome (α : Type) where
  data : List (Point α)
  metrics : Metrics α

/-- Metrics assembly from the final simulation state (the tail of
`runFullSimulation` after the minute loop and final drain). -/
def buildMetrics [FloorRing α] (machines : α) (curves : List (Curve α))
    (st : SimState α) : Metrics α :=
  let sortedDemand := sortByUsageDesc st.demandValues
  let top180 := sortedDemand.take 180
  let peakUtilization := (top180.foldl (fun s d => s + d.usage) 0) / 180
  let avgUtilization := st.totalUtilization / 1440
  let aggregateTotalDemand := curves.foldl (fun s c => s + c.totalDemand) 0
  let byCurve := curves.foldl
    (fun m c =>
      let curveUsageValues := st.usageValuesByCurve c.id
      let sortedCurveUsage := sortUsageValuesDesc curveUsageValues
      let top180Curve := sortedCurveUsage.take 180
      let peakCurveUtilization :=
        (top180Curve.foldl (fun s d => s + d.usage) 0) / 180
      let avgCurveUtilization := st.utilizationByCurve c.id / 1440
      updMap m c.id
        { totalUtilization := jsRound (st.utilizationByCurve c.id)
          peakUtilization := peakCurveUtilization
          avgUtilization := avgCurveUtilization
          shedDemand := jsRound (st.shedByCurve c.id)
          shedPercent := st.shedByCurve c.id / c.totalDemand * 100 })
    (fun _ => ⟨0, 0, 0, 0, 0⟩)
  { totalUtilization := jsRound st.totalUtilization
    peakUtilization := peakUtilization
    avgUtilization := avgUtilization
    peakPercent := peakUtilization / machines * 100
    avgPercent := avgUtilization / machines * 100
    shedDemand := jsRound st.totalShedDemand
    shedPercent := st.totalShedDemand / aggregateTotalDemand * 100
    byCurve := byCurve }

end Engine

/-- Gaussian kernel for the bell curve distribution
(`Math.exp(-0.5 * ((x - mean) / stdDev) ** 2)`). -/
noncomputable def gaussian (x mean stdDev : ℝ) : ℝ :=
  Real.exp (-(1 / 2) * ((x - mean) / stdDev) ^ 2)

/-- Gaussian demand distribution across the 1440 minutes, scaled by the
closed-form integral of the continuous Gaussian. -/
noncomputable def generateGaussianDemand (totalDemand peakHour curveWidth : ℝ) :
    List ℝ :=
  let stdDevMinutes := curveWidth * 60
  let peakMinute := peakHour * 60
  let gaussianIntegral := stdDevMinutes * Real.sqrt (2 * Real.pi)
  let scaleFactor := totalDemand / gaussianIntegral
  (List.range 1440).map fun minute : ℕ =>
    scaleFactor * gaussian (minute : ℝ) peakMinute stdDevMinutes

/-- The demand array of one curve: curves whose `type` is the string
`"linear"` get the linear distribution, every other curve the Gaussian one. -/
noncomputable def curveDemandArray (c : Curve ℝ) : List ℝ :=
  if c.type = "linear" then generateLinearDemand c.totalDemand
  else generateGaussianDemand c.totalDemand c.peakHour c.curveWidth

/-- `demandByCurve`: demand arrays keyed by curve id, built in configuration
order (later duplicate ids overwrite earlier ones, as JS assignment does). -/
noncomputable def buildDemandMap (curves : List (Curve ℝ)) : DemandMap ℝ :=
  curves.foldl (fun m c => updMap m c.id (curveDemandArray c)) fun _ => []

/-- The final simulation state of a full run of the source engine
(minute loop plus final drain, before metrics assembly). -/
noncomputable def simulateCurves (machines : ℝ) (curves : List (Curve ℝ))
    (queueTimeout : ℕ) : SimState ℝ :=
  simulate machines curves (buildDemandMap curves) queueTimeout

/-- The full 24-hour simulation with queue management and priority
processing: returns the sampled time series and the metrics. -/
noncomputable def runFullSimulation (machines : ℝ) (curves : List (Curve ℝ))
    (queueTimeout : ℕ) : SimOutcome ℝ :=
  let st := simulateCurves machines curves queueTimeout
  { data := st.points, metrics := buildMetrics machines curves st }

/-! ### Basic toolkit lemmas about the engine's building blocks -/

section Toolkit

variable {α : Type} [LinearOrderedField α]

theorem updMap_self {β : Type} (m : String → β) (k : String) (v : β) :
    updMap m k v k = v := by
  simp [updMap]

theorem updMap_ne {β : Type} (m : String → β) (k k' : String) (v : β)
    (h : k' ≠ k) : updMap m k v k' = m k' := by
  simp [updMap, h]

theorem queueMass_eq_sum (q : List (QItem α)) :
    queueMass q = (q.map QItem.demand).sum := by
  suffices h : ∀ s : α, q.foldl (fun s it => s + it.demand) s
      = s + (q.map QItem.demand).sum by
    simpa [queueMass] using h 0
  induction q with
  | nil => simp
  | cons it rest ih => intro s; simp [ih, add_assoc]

theorem queueMass_nil : queueMass ([] : List (QItem α)) = 0 := rfl

theorem queueMass_cons (it : QItem α) (q : List (QItem α)) :
    queueMass (it :: q) = it.demand + queueMass q := by
  simp [queueMass_eq_sum]

theorem queueMass_append (q r : List (QItem α)) :
    queueMass (q ++ r) = queueMass q + queueMass r := by
  simp [queueMass_eq_sum]

/-- Filtering out non-positive items preserves the mass of a queue whose
items are all non-negative (the dropped items carry zero demand). -/
theorem queueMass_filter_pos (q : List (QItem α))
    (h : ∀ it ∈ q, 0 ≤ it.demand) :
    queueMass (q.filter fun it => 0 < it.demand) = queueMass q := by
  induction q with
  | nil => rfl
  | cons it rest ih =>
    have hit := h it (List.mem_cons_self it rest)
    have hrest : ∀ x ∈ rest, 0 ≤ x.demand :=
      fun x hx => h x (List.mem_cons_of_mem it hx)
    by_cases hpos : 0 < it.demand
    · simp [List.filter_cons, hpos, queueMass_cons, ih hrest]
    · have : it.demand = 0 := le_antisymm (not_lt.mp hpos) hit
      simp [List.filter_cons, hpos, queueMass_cons, ih hrest, this]

/-- A mass splits into the expired part and the kept part. -/
theorem expireQueue_mass (minute queueTimeout : ℕ) (q : List (QItem α)) :
    queueMass (expireQueue minute queueTimeout q).1
      + (expireQueue minute queueTimeout q).2 = queueMass q := by
  induction q with
  | nil => simp [expireQueue, queueMass]
  | cons it rest ih =>
    by_cases hc : queueTimeout + it.arrivalTime < minute
    · have h2 : (expireQueue minute queueTimeout (it :: rest)).2
          = it.demand + (expireQueue minute queueTimeout rest).2 := by
        simp only [expireQueue, List.filter_cons, hc]
        have key : ∀ (l : List (QItem α)) (s : α),
            l.foldl (fun s it => s + it.demand) s
              = s + l.foldl (fun s it => s + it.demand) 0 := by
          intro l
          induction l with
          | nil => simp
          | cons x xs ihl =>
            intro s
            simp only [List.foldl_cons]
            rw [ihl (s + x.demand), ihl (0 + x.demand)]
            ring
        simpa [add_comm] using key (rest.filter fun it =>
          queueTimeout + it.arrivalTime < minute) it.demand
      have h1 : (expireQueue minute queueTimeout (it :: rest)).1
          = (expireQueue minute queueTimeout rest).1 := by
        simp [expireQueue, List.filter_cons, hc]
      rw [h1, h2, queueMass_cons]
      linarith [ih]
    · have h2 : (expireQueue minute queueTimeout (it :: rest)).2
          = (expireQueue minute queueTimeout rest).2 := by
        simp [expireQueue, List.filter_cons, hc]
      have h1 : (expireQueue minute queueTimeout (it :: rest)).1
          = it :: (expireQueue minute queueTimeout rest).1 := by
        simp [expireQueue, List.filter_cons, hc]
      rw [h1, h2, queueMass_cons, add_assoc, ih, queueMass_cons]

/-- Serving never changes which items (by arrival time) are in the queue,
only their remaining demand: partial service does not re-stamp arrivals. -/
theorem serveItems_arrival (avail : α) (q : List (QItem α)) :
    (serveItems avail q).1.map QItem.arrivalTime = q.map QItem.arrivalTime := by
  induction q generalizing avail with
  | nil => rfl
  | cons it rest ih =>
    by_cases h : 0 < avail
    · simp [serveItems, h, ih]
    · simp [serveItems, h]

/-- Serving accounts exactly: remaining capacity drops by the served total. -/
theorem serveItems_avail (avail : α) (q : List (QItem α)) :
    (serveItems avail q).2.1 = avail - (serveItems avail q).2.2 := by
  induction q generalizing avail with
  | nil => simp [serveItems]
  | cons it rest ih =>
    by_cases h : 0 < avail
    · simp only [serveItems, h, if_true]
      rw [ih]
      ring
    · simp [serveItems, h]

/-- Serving conserves mass: what leaves the queue is exactly what is served. -/
theorem serveItems_mass (avail : α) (q : List (QItem α)) :
    queueMass (serveItems avail q).1 + (serveItems avail q).2.2
      = queueMass q := by
  induction q generalizing avail with
  | nil => simp [serveItems]
  | cons it rest ih =>
    by_cases h : 0 < avail
    · simp only [serveItems, h, if_true, queueMass_cons]
      have := ih (avail - min it.demand avail)
      linarith [this]
    · simp [serveItems, h]

/-- Serving leaves every item's remaining demand non-negative, given the
items it does not reach were non-negative to begin with. -/
theorem serveItems_nonneg (avail : α) (q : List (QItem α))
    (h : ∀ it ∈ q, 0 ≤ it.demand) :
    ∀ it ∈ (serveItems avail q).1, 0 ≤ it.demand := by
  induction q generalizing avail with
  | nil => simp [serveItems]
  | cons it rest ih =>
    by_cases hp : 0 < avail
    · simp only [serveItems, hp, if_true]
      intro x hx
      rcases List.mem_cons.mp hx with hx | hx
      · subst hx
        simp only
        have : min it.demand avail ≤ it.demand := min_le_left _ _
        linarith
      · exact ih (avail - min it.demand avail)
          (fun y hy => h y (List.mem_cons_of_mem it hy)) x hx
    · simpa [serveItems, hp] using h

/-- With no capacity remaining, serving is a no-op. -/
theorem serveItems_nonpos (avail : α) (q : List (QItem α)) (h : ¬ 0 < avail) :
    serveItems avail q = (q, avail, 0) := by
  cases q with
  | nil => simp [serveItems]
  | cons it rest => simp [serveItems, h]

omit [LinearOrderedField α] in
theorem insertByArrival_perm (it : QItem α) (q : List (QItem α)) :
    List.Perm (insertByArrival it q) (it :: q) := by
  induction q with
  | nil => rfl
  | cons x xs ih =>
    by_cases h : it.arrivalTime ≤ x.arrivalTime
    · simp [insertByArrival, h]
    · simp only [insertByArrival, h, if_false]
      exact (ih.cons x).trans (List.Perm.swap it x xs)

omit [LinearOrderedField α] in
theorem sortByArrival_perm (q : List (QItem α)) :
    List.Perm (sortByArrival q) q := by
  induction q with
  | nil => rfl
  | cons x xs ih =>
    exact (insertByArrival_perm x (sortByArrival xs)).trans (ih.cons x)

theorem sortByArrival_mass (q : List (QItem α)) :
    queueMass (sortByArrival q) = queueMass q := by
  rw [queueMass_eq_sum, queueMass_eq_sum]
  exact ((sortByArrival_perm q).map QItem.demand).sum_eq

omit [LinearOrderedField α] in
theorem insertByPrio_perm (c : Curve α) (l : List (Curve α)) :
    List.Perm (insertByPrio c l) (c :: l) := by
  induction l with
  | nil => rfl
  | cons x xs ih =>
    by_cases h : c.priority ≤ x.priority
    · simp [insertByPrio, h]
    · simp only [insertByPrio, h, if_false]
      exact (ih.cons x).trans (List.Perm.swap c x xs)

omit [LinearOrderedField α] in
theorem sortByPrio_perm (l : List (Curve α)) :
    List.Perm (sortByPrio l) l := by
  induction l with
  | nil => rfl
  | cons x xs ih =>
    exact (insertByPrio_perm x (sortByPrio xs)).trans (ih.cons x)

/-! ### Characterisation of the expiry step -/

end Toolkit

section ExpiryLemmas

variable {α : Type} [LinearOrderedField α]

theorem expireQueue_fst (minute queueTimeout : ℕ) (q : List (QItem α)) :
    (expireQueue minute queueTimeout q).1
      = q.filter fun it => ¬ queueTimeout + it.arrivalTime < minute := rfl

theorem expireQueue_snd (minute queueTimeout : ℕ) (q : List (QItem α)) :
    (expireQueue minute queueTimeout q).2
      = queueMass (q.filter fun it => queueTimeout + it.arrivalTime < minute) :=
  rfl

omit [LinearOrderedField α] in
/-- Two complementary timeout filters in a row leave nothing. -/
theorem filter_expired_of_kept (t m : ℕ) (q : List (QItem α)) :
    ((q.filter fun it => ¬ t + it.arrivalTime < m).filter
      fun it => t + it.arrivalTime < m) = [] := by
  apply List.filter_eq_nil_iff.mpr
  intro it hit
  have := List.of_mem_filter hit
  simpa using this

omit [LinearOrderedField α] in
/-- The timeout filter is idempotent. -/
theorem filter_kept_idem (t m : ℕ) (q : List (QItem α)) :
    ((q.filter fun it => ¬ t + it.arrivalTime < m).filter
      fun it => ¬ t + it.arrivalTime < m)
      = q.filter fun it => ¬ t + it.arrivalTime < m := by
  apply List.filter_eq_self.mpr
  intro a ha
  exact (List.mem_filter.mp ha).2

/-- Fields other than queues, per-curve shed and aggregate shed are untouched
by the expiry fold. -/
theorem expireFold_fields (t m : ℕ) (l : List (Curve α))
    (acc : SimState α × α) :
    (l.foldl (expireOne t m) acc).1.utilizationByCurve
        = acc.1.utilizationByCurve
      ∧ (l.foldl (expireOne t m) acc).1.usageValuesByCurve
        = acc.1.usageValuesByCurve
      ∧ (l.foldl (expireOne t m) acc).1.totalUtilization
        = acc.1.totalUtilization
      ∧ (l.foldl (expireOne t m) acc).1.demandValues = acc.1.demandValues
      ∧ (l.foldl (expireOne t m) acc).1.points = acc.1.points := by
  induction l generalizing acc with
  | nil => exact ⟨rfl, rfl, rfl, rfl, rfl⟩
  | cons c l ih => simpa [expireOne] using ih (expireOne t m acc c)

/-- The expiry fold filters each configured curve's queue by the timeout
condition and leaves other queues alone. -/
theorem expireFold_queues (t m : ℕ) (l : List (Curve α))
    (acc : SimState α × α) (k : String) :
    (l.foldl (expireOne t m) acc).1.queuesByCurve k
      = if k ∈ l.map Curve.id
        then (acc.1.queuesByCurve k).filter fun it => ¬ t + it.arrivalTime < m
        else acc.1.queuesByCurve k := by
  induction l generalizing acc with
  | nil => simp
  | cons c l ih =>
    simp only [List.foldl_cons, List.map_cons, List.mem_cons]
    rw [ih]
    by_cases hc : k = c.id
    · have hq : (expireOne t m acc c).1.queuesByCurve k
          = (acc.1.queuesByCurve k).filter
            fun it => ¬ t + it.arrivalTime < m := by
        rw [hc]
        show updMap acc.1.queuesByCurve c.id
          (expireQueue m t (acc.1.queuesByCurve c.id)).1 c.id = _
        rw [updMap_self, expireQueue_fst]
      by_cases hmem : k ∈ l.map Curve.id
      · rw [if_pos hmem, hq, if_pos (Or.inr hmem), filter_kept_idem]
      · rw [if_neg hmem, hq, if_pos (Or.inl hc)]
    · have hq : (expireOne t m acc c).1.queuesByCurve k
          = acc.1.queuesByCurve k := by
        show updMap acc.1.queuesByCurve c.id
          (expireQueue m t (acc.1.queuesByCurve c.id)).1 k = _
        rw [updMap_ne _ _ _ _ hc]
      by_cases hmem : k ∈ l.map Curve.id
      · rw [if_pos hmem, hq, if_pos (Or.inr hmem)]
      · rw [if_neg hmem, hq, if_neg fun h => h.elim hc hmem]

/-- The expiry fold adds exactly the removed mass to each configured curve's
shed total. -/
theorem expireFold_shed (t m : ℕ) (l : List (Curve α))
    (acc : SimState α × α) (k : String) :
    (l.foldl (expireOne t m) acc).1.shedByCurve k
      = acc.1.shedByCurve k
        + (if k ∈ l.map Curve.id
          then queueMass ((acc.1.queuesByCurve k).filter
            fun it => t + it.arrivalTime < m)
          else 0) := by
  induction l generalizing acc with
  | nil => simp
  | cons c l ih =>
    simp only [List.foldl_cons, List.map_cons, List.mem_cons]
    rw [ih]
    by_cases hc : k = c.id
    · have hshed : (expireOne t m acc c).1.shedByCurve k
          = acc.1.shedByCurve k
            + queueMass ((acc.1.queuesByCurve k).filter
              fun it => t + it.arrivalTime < m) := by
        rw [hc]
        show updMap acc.1.shedByCurve c.id
          (acc.1.shedByCurve c.id
            + (expireQueue m t (acc.1.queuesByCurve c.id)).2) c.id = _
        rw [updMap_self, expireQueue_snd]
      have hq : (expireOne t m acc c).1.queuesByCurve k
          = (acc.1.queuesByCurve k).filter
            fun it => ¬ t + it.arrivalTime < m := by
        rw [hc]
        show updMap acc.1.queuesByCurve c.id
          (expireQueue m t (acc.1.queuesByCurve c.id)).1 c.id = _
        rw [updMap_self, expireQueue_fst]
      by_cases hmem : k ∈ l.map Curve.id
      · rw [if_pos hmem, hshed, hq, if_pos (Or.inl hc),
          filter_expired_of_kept, queueMass_nil, add_zero]
      · rw [if_neg hmem, hshed, if_pos (Or.inl hc), add_zero]
    · have hshed : (expireOne t m acc c).1.shedByCurve k
          = acc.1.shedByCurve k := by
        show updMap acc.1.shedByCurve c.id
          (acc.1.shedByCurve c.id
            + (expireQueue m t (acc.1.queuesByCurve c.id)).2) k = _
        rw [updMap_ne _ _ _ _ hc]
      have hq : (expireOne t m acc c).1.queuesByCurve k
          = acc.1.queuesByCurve k := by
        show updMap acc.1.queuesByCurve c.id
          (expireQueue m t (acc.1.queuesByCurve c.id)).1 k = _
        rw [updMap_ne _ _ _ _ hc]
      by_cases hmem : k ∈ l.map Curve.id
      · rw [if_pos hmem, hshed, hq, if_pos (Or.inr hmem)]
      · rw [if_neg hmem, hshed, if_neg fun h => h.elim hc hmem]

/-- The expiry fold's aggregate shed total moves in lockstep with the
`shedThisMinute` accumulator. -/
theorem expireFold_totalShed (t m : ℕ) (l : List (Curve α))
    (acc : SimState α × α) :
    (l.foldl (expireOne t m) acc).1.totalShedDemand
        - (l.foldl (expireOne t m) acc).2
      = acc.1.totalShedDemand - acc.2 := by
  induction l generalizing acc with
  | nil => rfl
  | cons c l ih =>
    rw [List.foldl_cons, ih]
    simp [expireOne]

/-- With pairwise distinct ids, `shedThisMinute` after the expiry fold is the
sum over curves of the expired mass of that curve's queue. -/
theorem expireFold_snd_nodup (t m : ℕ) (l : List (Curve α))
    (acc : SimState α × α) (hnd : (l.map Curve.id).Nodup) :
    (l.foldl (expireOne t m) acc).2
      = acc.2 + (l.map fun c =>
          queueMass ((acc.1.queuesByCurve c.id).filter
            fun it => t + it.arrivalTime < m)).sum := by
  induction l generalizing acc with
  | nil => simp
  | cons c l ih =>
    simp only [List.map_cons, List.nodup_cons] at hnd
    obtain ⟨hni, hnd⟩ := hnd
    rw [List.foldl_cons, ih _ hnd]
    have hsnd : (expireOne t m acc c).2
        = acc.2 + queueMass ((acc.1.queuesByCurve c.id).filter
          fun it => t + it.arrivalTime < m) := by
      simp [expireOne, expireQueue_snd]
    have hq : ∀ c' ∈ l, (expireOne t m acc c).1.queuesByCurve c'.id
        = acc.1.queuesByCurve c'.id := by
      intro c' hc'
      have hne : c'.id ≠ c.id := by
        intro h
        exact hni (h ▸ List.mem_map_of_mem Curve.id hc')
      simp [expireOne, updMap_ne _ _ _ _ hne]
    have hmap : (l.map fun c' =>
        queueMass (((expireOne t m acc c).1.queuesByCurve c'.id).filter
          fun it => t + it.arrivalTime < m))
        = l.map fun c' =>
          queueMass ((acc.1.queuesByCurve c'.id).filter
            fun it => t + it.arrivalTime < m) := by
      apply List.map_congr_left
      intro c' hc'
      rw [hq c' hc']
    rw [hmap, hsnd]
    simp [add_assoc, add_comm]

end ExpiryLemmas

/-! ### Characterisation of the per-curve processing step -/

section ProcessLemmas

variable {α : Type} [LinearOrderedField α]

/-- The conservation ledger of one curve id: served plus shed plus still
queued. -/
def account (st : SimState α) (k : String) : α :=
  st.utilizationByCurve k + st.shedByCurve k + queueMass (st.queuesByCurve k)

/-- The sum of a per-curve quantity over the configured curves. -/
def sumOver (curves : List (Curve α)) (m : String → α) : α :=
  (curves.map fun c => m c.id).sum

theorem sumOver_updMap_mem (curves : List (Curve α)) (m : String → α)
    (k : String) (v : α) (hnd : (curves.map Curve.id).Nodup)
    (hk : k ∈ curves.map Curve.id) :
    sumOver curves (updMap m k v) = sumOver curves m + v - m k := by
  induction curves with
  | nil => simp at hk
  | cons c l ih =>
    simp only [List.map_cons, List.nodup_cons] at hnd
    obtain ⟨hni, hnd⟩ := hnd
    rcases List.mem_cons.mp hk with hk | hk
    · have hrest : (l.map fun c' => updMap m k v c'.id)
          = l.map fun c' => m c'.id := by
        apply List.map_congr_left
        intro c' hc'
        have hne : c'.id ≠ k := by
          intro h
          exact hni (hk ▸ h ▸ List.mem_map_of_mem Curve.id hc')
        exact updMap_ne _ _ _ _ hne
      simp only [sumOver, List.map_cons, List.sum_cons, hrest]
      rw [hk, updMap_self]
      ring
    · have hcne : c.id ≠ k := by
        intro h
        exact hni (h ▸ hk)
      have hne : k ≠ c.id := fun h => hcne h.symm
      simp only [sumOver, List.map_cons, List.sum_cons,
        updMap_ne _ _ _ _ hcne]
      have := ih hnd hk
      simp only [sumOver] at this
      rw [this]
      ring

theorem sumOver_updMap_notmem (curves : List (Curve α)) (m : String → α)
    (k : String) (v : α) (hk : k ∉ curves.map Curve.id) :
    sumOver curves (updMap m k v) = sumOver curves m := by
  unfold sumOver
  apply congrArg
  apply List.map_congr_left
  intro c hc
  have hne : c.id ≠ k := by
    intro h
    exact hk (h ▸ List.mem_map_of_mem Curve.id hc)
  exact updMap_ne _ _ _ _ hne

/-- Mass accounting for the queue pipeline of `processCurve`: sort, serve,
drop the fully served items. -/
theorem servePipeline_mass (avail1 : α) (q1 : List (QItem α))
    (h : ∀ it ∈ q1, 0 ≤ it.demand) :
    queueMass ((serveItems avail1 (sortByArrival q1)).1.filter
        fun it => 0 < it.demand)
      = queueMass q1 - (serveItems avail1 (sortByArrival q1)).2.2 := by
  have hsorted : ∀ it ∈ sortByArrival q1, 0 ≤ it.demand := by
    intro it hit
    exact h it ((sortByArrival_perm q1).mem_iff.mp hit)
  rw [queueMass_filter_pos _ (serveItems_nonneg _ _ hsorted)]
  have := serveItems_mass avail1 (sortByArrival q1)
  rw [sortByArrival_mass] at this
  linarith

/-- `processCurve` leaves every queue item strictly positive. -/
theorem processCurve_pos (dm : DemandMap α) (minute : ℕ)
    (acc : α × α × SimState α) (c : Curve α)
    (h : ∀ k, ∀ it ∈ acc.2.2.queuesByCurve k, 0 < it.demand) :
    ∀ k, ∀ it ∈ (processCurve dm minute acc c).2.2.queuesByCurve k,
      0 < it.demand := by
  intro k it hit
  by_cases hk : k = c.id
  · subst hk
    simp only [processCurve, updMap_self] at hit
    exact of_decide_eq_true (List.mem_filter.mp hit).2
  · rw [show (processCurve dm minute acc c).2.2.queuesByCurve k
        = acc.2.2.queuesByCurve k from by
      simp [processCurve, updMap_ne _ _ _ _ hk]] at hit
    exact h k it hit

/-- `processCurve` does not touch the shed ledgers, the aggregate
utilisation, or the output traces. -/
theorem processCurve_fields (dm : DemandMap α) (minute : ℕ)
    (acc : α × α × SimState α) (c : Curve α) :
    (processCurve dm minute acc c).2.2.shedByCurve = acc.2.2.shedByCurve
      ∧ (processCurve dm minute acc c).2.2.totalShedDemand
        = acc.2.2.totalShedDemand
      ∧ (processCurve dm minute acc c).2.2.totalUtilization
        = acc.2.2.totalUtilization
      ∧ (processCurve dm minute acc c).2.2.demandValues = acc.2.2.demandValues
      ∧ (processCurve dm minute acc c).2.2.points = acc.2.2.points := by
  refine ⟨rfl, rfl, rfl, rfl, rfl⟩

/-- `processCurve` leaves queues of other ids alone. -/
theorem processCurve_queues_other (dm : DemandMap α) (minute : ℕ)
    (acc : α × α × SimState α) (c : Curve α) (k : String) (hk : k ≠ c.id) :
    (processCurve dm minute acc c).2.2.queuesByCurve k
      = acc.2.2.queuesByCurve k := by
  simp [processCurve, updMap_ne _ _ _ _ hk]

/-- `processCurve` leaves utilisation of other ids alone. -/
theorem processCurve_util_other (dm : DemandMap α) (minute : ℕ)
    (acc : α × α × SimState α) (c : Curve α) (k : String) (hk : k ≠ c.id) :
    (processCurve dm minute acc c).2.2.utilizationByCurve k
      = acc.2.2.utilizationByCurve k := by
  simp [processCurve, updMap_ne _ _ _ _ hk]

/-- The per-curve ledger of the processed curve grows by exactly that
curve's demand of the minute: what is not served immediately or from the
queue remains queued. -/
theorem processCurve_account_self (dm : DemandMap α) (minute : ℕ)
    (acc : α × α × SimState α) (c : Curve α)
    (h : ∀ it ∈ acc.2.2.queuesByCurve c.id, 0 ≤ it.demand) :
    account (processCurve dm minute acc c).2.2 c.id
      = account acc.2.2 c.id + demandAt dm c.id minute := by
  have hq1 : ∀ it ∈ (if 0 < demandAt dm c.id minute
        - min (demandAt dm c.id minute) acc.1 then
      acc.2.2.queuesByCurve c.id
        ++ [⟨minute, demandAt dm c.id minute
            - min (demandAt dm c.id minute) acc.1, c.id, c.priority⟩]
      else acc.2.2.queuesByCurve c.id), 0 ≤ it.demand := by
    by_cases hex : 0 < demandAt dm c.id minute
        - min (demandAt dm c.id minute) acc.1
    · rw [if_pos hex]
      intro it hit
      rcases List.mem_append.mp hit with hit | hit
      · exact h it hit
      · rcases List.mem_singleton.mp hit with rfl
        exact le_of_lt hex
    · rw [if_neg hex]
      exact h
  have hmass := servePipeline_mass (acc.1
    - min (demandAt dm c.id minute) acc.1) _ hq1
  simp only [account, processCurve, updMap_self]
  rw [hmass]
  by_cases hex : 0 < demandAt dm c.id minute
      - min (demandAt dm c.id minute) acc.1
  · rw [if_pos hex, queueMass_append, queueMass_cons, queueMass_nil]
    ring
  · have hiS : min (demandAt dm c.id minute) acc.1 = demandAt dm c.id minute :=
      by
      have hge : demandAt dm c.id minute
          - min (demandAt dm c.id minute) acc.1 ≥ 0 := by
        have : min (demandAt dm c.id minute) acc.1
            ≤ demandAt dm c.id minute := min_le_left _ _
        linarith
      have : demandAt dm c.id minute
          - min (demandAt dm c.id minute) acc.1 = 0 := le_antisymm
        (not_lt.mp hex) hge
      linarith
    rw [if_neg hex, hiS]
    ring

/-- Capacity bookkeeping of `processCurve`: the drop in available capacity is
exactly the curve's usage this minute, which is also what is added to the
curve's utilisation ledger and to the aggregate usage accumulator. -/
theorem processCurve_usage (dm : DemandMap α) (minute : ℕ)
    (acc : α × α × SimState α) (c : Curve α) :
    (processCurve dm minute acc c).1
        = acc.1 - ((processCurve dm minute acc c).2.1 - acc.2.1)
      ∧ (processCurve dm minute acc c).2.2.utilizationByCurve c.id
        = acc.2.2.utilizationByCurve c.id
          + ((processCurve dm minute acc c).2.1 - acc.2.1) := by
  constructor
  · simp only [processCurve, updMap_self]
    rw [serveItems_avail]
    ring
  · simp only [processCurve, updMap_self]
    ring

/-- `processCurve` leaves the ledgers of other ids alone. -/
theorem processCurve_account_other (dm : DemandMap α) (minute : ℕ)
    (acc : α × α × SimState α) (c : Curve α) (k : String) (hk : k ≠ c.id) :
    account (processCurve dm minute acc c).2.2 k = account acc.2.2 k := by
  unfold account
  rw [processCurve_queues_other dm minute acc c k hk,
    processCurve_util_other dm minute acc c k hk,
    (processCurve_fields dm minute acc c).1]

/-- The per-curve utilisation map after `processCurve`, as an update. -/
theorem processCurve_util_upd (dm : DemandMap α) (minute : ℕ)
    (acc : α × α × SimState α) (c : Curve α) :
    (processCurve dm minute acc c).2.2.utilizationByCurve
      = updMap acc.2.2.utilizationByCurve c.id
        (acc.2.2.utilizationByCurve c.id
          + ((processCurve dm minute acc c).2.1 - acc.2.1)) := by
  funext k
  by_cases hk : k = c.id
  · rw [hk, updMap_self]
    exact (processCurve_usage dm minute acc c).2
  · rw [updMap_ne _ _ _ _ hk, processCurve_util_other dm minute acc c k hk]

/-- The processing fold keeps every queue item strictly positive. -/
theorem processFold_pos (dm : DemandMap α) (minute : ℕ)
    (l : List (Curve α)) (acc : α × α × SimState α)
    (h : ∀ k, ∀ it ∈ acc.2.2.queuesByCurve k, 0 < it.demand) :
    ∀ k, ∀ it ∈ (l.foldl (processCurve dm minute) acc).2.2.queuesByCurve k,
      0 < it.demand := by
  induction l generalizing acc with
  | nil => exact h
  | cons c l ih =>
    exact ih (processCurve dm minute acc c) (processCurve_pos dm minute acc c h)

/-- The processing fold does not touch shed ledgers, the aggregate
utilisation, or the output traces. -/
theorem processFold_fields (dm : DemandMap α) (minute : ℕ)
    (l : List (Curve α)) (acc : α × α × SimState α) :
    (l.foldl (processCurve dm minute) acc).2.2.shedByCurve
        = acc.2.2.shedByCurve
      ∧ (l.foldl (processCurve dm minute) acc).2.2.totalShedDemand
        = acc.2.2.totalShedDemand
      ∧ (l.foldl (processCurve dm minute) acc).2.2.totalUtilization
        = acc.2.2.totalUtilization
      ∧ (l.foldl (processCurve dm minute) acc).2.2.demandValues
        = acc.2.2.demandValues
      ∧ (l.foldl (processCurve dm minute) acc).2.2.points = acc.2.2.points := by
  induction l generalizing acc with
  | nil => exact ⟨rfl, rfl, rfl, rfl, rfl⟩
  | cons c l ih => exact ih (processCurve dm minute acc c)

/-- Each processed curve adds exactly its demand of the minute to its own
ledger; ids processed several times (duplicates) add once per occurrence. -/
theorem processFold_account (dm : DemandMap α) (minute : ℕ)
    (l : List (Curve α)) (acc : α × α × SimState α) (k : String)
    (h : ∀ k', ∀ it ∈ acc.2.2.queuesByCurve k', 0 < it.demand) :
    account (l.foldl (processCurve dm minute) acc).2.2 k
      = account acc.2.2 k
        + (((l.map Curve.id).count k : ℕ) : α) * demandAt dm k minute := by
  induction l generalizing acc with
  | nil => simp
  | cons c l ih =>
    rw [List.foldl_cons,
      ih (processCurve dm minute acc c) (processCurve_pos dm minute acc c h)]
    by_cases hk : k = c.id
    · have hself := processCurve_account_self dm minute acc c
        (fun it hit => le_of_lt (h c.id it hit))
      rw [← hk] at hself
      rw [hself, List.map_cons, List.count_cons]
      simp [hk]
      ring
    · rw [processCurve_account_other dm minute acc c k hk, List.map_cons,
        List.count_cons]
      simp [hk]
      exact Or.inl fun h => hk h.symm

/-- Capacity bookkeeping across the processing fold: available capacity
drops by exactly the accumulated usage. -/
theorem processFold_avail (dm : DemandMap α) (minute : ℕ)
    (l : List (Curve α)) (acc : α × α × SimState α) :
    (l.foldl (processCurve dm minute) acc).1
      = acc.1 - ((l.foldl (processCurve dm minute) acc).2.1 - acc.2.1) := by
  induction l generalizing acc with
  | nil => simp
  | cons c l ih =>
    rw [List.foldl_cons]
    have h1 := (processCurve_usage dm minute acc c).1
    have h2 := ih (processCurve dm minute acc c)
    rw [h2, h1]
    ring

/-- With distinct ids, the accumulated usage of the fold is distributed into
the per-curve utilisation ledgers. -/
theorem processFold_util_sum (dm : DemandMap α) (minute : ℕ)
    (curves l : List (Curve α)) (acc : α × α × SimState α)
    (hnd : (curves.map Curve.id).Nodup) (hsub : ∀ c ∈ l, c ∈ curves) :
    sumOver curves
        (l.foldl (processCurve dm minute) acc).2.2.utilizationByCurve
      = sumOver curves acc.2.2.utilizationByCurve
        + ((l.foldl (processCurve dm minute) acc).2.1 - acc.2.1) := by
  induction l generalizing acc with
  | nil => simp
  | cons c l ih =>
    rw [List.foldl_cons]
    have hmem : c.id ∈ curves.map Curve.id :=
      List.mem_map_of_mem Curve.id (hsub c (List.mem_cons_self c l))
    have hupd := processCurve_util_upd dm minute acc c
    have hsum : sumOver curves
        (processCurve dm minute acc c).2.2.utilizationByCurve
        = sumOver curves acc.2.2.utilizationByCurve
          + ((processCurve dm minute acc c).2.1 - acc.2.1) := by
      rw [hupd, sumOver_updMap_mem curves _ _ _ hnd hmem]
      ring
    rw [ih (processCurve dm minute acc c)
      (fun c' hc' => hsub c' (List.mem_cons_of_mem c hc')), hsum]
    ring

end ProcessLemmas

/-! ### Characterisation of one minute of the loop -/

section StepLemmas

variable {α : Type} [LinearOrderedField α]

/-- Proof abbreviation: the `(availableCapacity, actualUsage, state)` triple
after the expiry step and the priority-ordered processing fold of a minute. -/
def afterProcess (machines : α) (curves : List (Curve α)) (dm : DemandMap α)
    (queueTimeout : ℕ) (st : SimState α) (minute : ℕ) : α × α × SimState α :=
  (sortByPrio curves).foldl (processCurve dm minute)
    (machines, 0, (expireStep curves queueTimeout minute st).1)

/-- `stepMinute` in terms of the expiry and processing phases: the queue,
utilisation and shed ledgers come from the processing fold, the aggregate
counters advance by the minute's usage and the expired shed. -/
theorem stepMinute_parts (machines : α) (curves : List (Curve α))
    (dm : DemandMap α) (t : ℕ) (st : SimState α) (n : ℕ) :
    (stepMinute machines curves dm t st n).queuesByCurve
        = (afterProcess machines curves dm t st n).2.2.queuesByCurve
      ∧ (stepMinute machines curves dm t st n).utilizationByCurve
        = (afterProcess machines curves dm t st n).2.2.utilizationByCurve
      ∧ (stepMinute machines curves dm t st n).shedByCurve
        = (afterProcess machines curves dm t st n).2.2.shedByCurve
      ∧ (stepMinute machines curves dm t st n).usageValuesByCurve
        = (afterProcess machines curves dm t st n).2.2.usageValuesByCurve
      ∧ (stepMinute machines curves dm t st n).totalUtilization
        = (afterProcess machines curves dm t st n).2.2.totalUtilization
          + (afterProcess machines curves dm t st n).2.1
      ∧ (stepMinute machines curves dm t st n).totalShedDemand
        = (afterProcess machines curves dm t st n).2.2.totalShedDemand := by
  by_cases hmod : n % 5 = 0 <;>
    simp [stepMinute, afterProcess, hmod]

/-- Expiry keeps only (a subset of) existing items, so strict positivity of
queue items survives it. -/
theorem expireStep_pos (curves : List (Curve α)) (t n : ℕ) (st : SimState α)
    (hpos : ∀ k, ∀ it ∈ st.queuesByCurve k, 0 < it.demand) :
    ∀ k, ∀ it ∈ (expireStep curves t n st).1.queuesByCurve k, 0 < it.demand :=
  by
  intro k it hit
  have hq : (expireStep curves t n st).1.queuesByCurve k
      = if k ∈ curves.map Curve.id
        then (st.queuesByCurve k).filter fun it => ¬ t + it.arrivalTime < n
        else st.queuesByCurve k := expireFold_queues t n curves (st, 0) k
  rw [hq] at hit
  by_cases hmem : k ∈ curves.map Curve.id
  · rw [if_pos hmem] at hit
    exact hpos k it (List.mem_of_mem_filter hit)
  · rw [if_neg hmem] at hit
    exact hpos k it hit

/-- Wrapper: queues after the expiry step. -/
theorem expireStep_queues (curves : List (Curve α)) (t n : ℕ)
    (st : SimState α) (k : String) :
    (expireStep curves t n st).1.queuesByCurve k
      = if k ∈ curves.map Curve.id
        then (st.queuesByCurve k).filter fun it => ¬ t + it.arrivalTime < n
        else st.queuesByCurve k := expireFold_queues t n curves (st, 0) k

/-- Wrapper: per-curve shed after the expiry step. -/
theorem expireStep_shed (curves : List (Curve α)) (t n : ℕ)
    (st : SimState α) (k : String) :
    (expireStep curves t n st).1.shedByCurve k
      = st.shedByCurve k
        + (if k ∈ curves.map Curve.id
          then queueMass ((st.queuesByCurve k).filter
            fun it => t + it.arrivalTime < n)
          else 0) := expireFold_shed t n curves (st, 0) k

/-- Wrapper: utilisation map is untouched by the expiry step. -/
theorem expireStep_util (curves : List (Curve α)) (t n : ℕ)
    (st : SimState α) :
    (expireStep curves t n st).1.utilizationByCurve = st.utilizationByCurve :=
  (expireFold_fields t n curves (st, 0)).1

/-- Wrapper: aggregate utilisation is untouched by the expiry step. -/
theorem expireStep_totalUtil (curves : List (Curve α)) (t n : ℕ)
    (st : SimState α) :
    (expireStep curves t n st).1.totalUtilization = st.totalUtilization :=
  (expireFold_fields t n curves (st, 0)).2.2.1

/-- Wrapper: the aggregate shed grows by the minute's expired shed. -/
theorem expireStep_totalShed (curves : List (Curve α)) (t n : ℕ)
    (st : SimState α) :
    (expireStep curves t n st).1.totalShedDemand
      = st.totalShedDemand + (expireStep curves t n st).2 := by
  have h : (expireStep curves t n st).1.totalShedDemand
      - (expireStep curves t n st).2 = st.totalShedDemand - 0 :=
    expireFold_totalShed t n curves (st, 0)
  linarith

/-- Wrapper: the minute's expired shed, summed per curve, distinct ids. -/
theorem expireStep_snd_nodup (curves : List (Curve α)) (t n : ℕ)
    (st : SimState α) (hnd : (curves.map Curve.id).Nodup) :
    (expireStep curves t n st).2
      = (curves.map fun c =>
          queueMass ((st.queuesByCurve c.id).filter
            fun it => t + it.arrivalTime < n)).sum := by
  have h : (expireStep curves t n st).2
      = (0 : α) + (curves.map fun c =>
          queueMass ((st.queuesByCurve c.id).filter
            fun it => t + it.arrivalTime < n)).sum :=
    expireFold_snd_nodup t n curves (st, 0) hnd
  rw [h, zero_add]

/-- Expiry does not change any per-curve ledger: removed mass moves from the
queue to the shed total. -/
theorem expireStep_account (curves : List (Curve α)) (t n : ℕ)
    (st : SimState α) (k : String) :
    account (expireStep curves t n st).1 k = account st k := by
  have hmass := expireQueue_mass n t (st.queuesByCurve k)
  rw [expireQueue_fst, expireQueue_snd] at hmass
  unfold account
  rw [expireStep_queues, expireStep_shed, congrFun (expireStep_util curves t n st) k]
  by_cases hmem : k ∈ curves.map Curve.id
  · rw [if_pos hmem, if_pos hmem]
    linarith
  · rw [if_neg hmem, if_neg hmem]
    ring

/-- Wrapper: per-curve shed map is untouched by the processing fold. -/
theorem afterProcess_shed (machines : α) (curves : List (Curve α))
    (dm : DemandMap α) (t : ℕ) (st : SimState α) (n : ℕ) :
    (afterProcess machines curves dm t st n).2.2.shedByCurve
      = (expireStep curves t n st).1.shedByCurve :=
  (processFold_fields dm n (sortByPrio curves)
    (machines, 0, (expireStep curves t n st).1)).1

/-- Wrapper: aggregate shed is untouched by the processing fold. -/
theorem afterProcess_totalShed (machines : α) (curves : List (Curve α))
    (dm : DemandMap α) (t : ℕ) (st : SimState α) (n : ℕ) :
    (afterProcess machines curves dm t st n).2.2.totalShedDemand
      = (expireStep curves t n st).1.totalShedDemand :=
  (processFold_fields dm n (sortByPrio curves)
    (machines, 0, (expireStep curves t n st).1)).2.1

/-- Wrapper: aggregate utilisation is untouched by the processing fold
(it is advanced separately by `stepMinute`). -/
theorem afterProcess_totalUtil (machines : α) (curves : List (Curve α))
    (dm : DemandMap α) (t : ℕ) (st : SimState α) (n : ℕ) :
    (afterProcess machines curves dm t st n).2.2.totalUtilization
      = (expireStep curves t n st).1.totalUtilization :=
  (processFold_fields dm n (sortByPrio curves)
    (machines, 0, (expireStep curves t n st).1)).2.2.1

/-- Wrapper: the utilisation ledgers absorb exactly the minute's usage,
distinct ids. -/
theorem afterProcess_util_sum (machines : α) (curves : List (Curve α))
    (dm : DemandMap α) (t : ℕ) (st : SimState α) (n : ℕ)
    (hnd : (curves.map Curve.id).Nodup) :
    sumOver curves (afterProcess machines curves dm t st n).2.2.utilizationByCurve
      = sumOver curves st.utilizationByCurve
        + (afterProcess machines curves dm t st n).2.1 := by
  have hsub : ∀ c ∈ sortByPrio curves, c ∈ curves :=
    fun c hc => (sortByPrio_perm curves).mem_iff.mp hc
  have h : sumOver curves
      (afterProcess machines curves dm t st n).2.2.utilizationByCurve
      = sumOver curves (expireStep curves t n st).1.utilizationByCurve
        + ((afterProcess machines curves dm t st n).2.1 - 0) :=
    processFold_util_sum dm n curves (sortByPrio curves)
      (machines, 0, (expireStep curves t n st).1) hnd hsub
  rw [h, expireStep_util, sub_zero]

/-- One minute of the loop advances each curve id's ledger by exactly that
id's demand of the minute (counted once per configured curve with that id). -/
theorem stepMinute_account (machines : α) (curves : List (Curve α))
    (dm : DemandMap α) (t : ℕ) (st : SimState α) (n : ℕ) (k : String)
    (hpos : ∀ k', ∀ it ∈ st.queuesByCurve k', 0 < it.demand) :
    account (stepMinute machines curves dm t st n) k
      = account st k
        + (((curves.map Curve.id).count k : ℕ) : α) * demandAt dm k n := by
  obtain ⟨h1, h2, h3, _, _, _⟩ := stepMinute_parts machines curves dm t st n
  have hacc : account (stepMinute machines curves dm t st n) k
      = account (afterProcess machines curves dm t st n).2.2 k := by
    unfold account
    rw [h1, h2, h3]
  have hfold : account (afterProcess machines curves dm t st n).2.2 k
      = account (expireStep curves t n st).1 k
        + ((((sortByPrio curves).map Curve.id).count k : ℕ) : α)
          * demandAt dm k n :=
    processFold_account dm n (sortByPrio curves)
      (machines, 0, (expireStep curves t n st).1) k
      (expireStep_pos curves t n st hpos)
  rw [hacc, hfold, expireStep_account curves t n st k,
    ((sortByPrio_perm curves).map Curve.id).count_eq k]

/-- One minute of the loop keeps every queued item strictly positive. -/
theorem stepMinute_pos (machines : α) (curves : List (Curve α))
    (dm : DemandMap α) (t : ℕ) (st : SimState α) (n : ℕ)
    (hpos : ∀ k, ∀ it ∈ st.queuesByCurve k, 0 < it.demand) :
    ∀ k, ∀ it ∈ (stepMinute machines curves dm t st n).queuesByCurve k,
      0 < it.demand := by
  obtain ⟨h1, _, _, _, _, _⟩ := stepMinute_parts machines curves dm t st n
  rw [h1]
  exact processFold_pos dm n (sortByPrio curves) _
    (expireStep_pos curves t n st hpos)

/-- One minute of the loop preserves the aggregate-equals-sum-of-per-curve
invariants for utilisation and shed, assuming distinct curve ids. -/
theorem stepMinute_sums (machines : α) (curves : List (Curve α))
    (dm : DemandMap α) (t : ℕ) (st : SimState α) (n : ℕ)
    (hnd : (curves.map Curve.id).Nodup)
    (hu : st.totalUtilization = sumOver curves st.utilizationByCurve)
    (hs : st.totalShedDemand = sumOver curves st.shedByCurve) :
    (stepMinute machines curves dm t st n).totalUtilization
        = sumOver curves
          (stepMinute machines curves dm t st n).utilizationByCurve
      ∧ (stepMinute machines curves dm t st n).totalShedDemand
        = sumOver curves (stepMinute machines curves dm t st n).shedByCurve :=
  by
  obtain ⟨_, h2, h3, _, h5, h6⟩ := stepMinute_parts machines curves dm t st n
  constructor
  · rw [h5, h2, afterProcess_util_sum machines curves dm t st n hnd,
      afterProcess_totalUtil, expireStep_totalUtil, hu]
  · rw [h6, h3, afterProcess_totalShed, expireStep_totalShed]
    have hshed : sumOver curves
        (afterProcess machines curves dm t st n).2.2.shedByCurve
        = sumOver curves st.shedByCurve
          + (curves.map fun c =>
            queueMass ((st.queuesByCurve c.id).filter
              fun it => t + it.arrivalTime < n)).sum := by
      rw [afterProcess_shed]
      unfold sumOver
      have hmap : (curves.map fun c =>
          (expireStep curves t n st).1.shedByCurve c.id)
          = curves.map fun c => st.shedByCurve c.id
            + queueMass ((st.queuesByCurve c.id).filter
              fun it => t + it.arrivalTime < n) := by
        apply List.map_congr_left
        intro c hc
        rw [expireStep_shed, if_pos (List.mem_map_of_mem Curve.id hc)]
      rw [hmap, List.sum_map_add]
    rw [hshed, ← hs, expireStep_snd_nodup curves t n st hnd]

end StepLemmas

/-! ### Whole-run lemmas: conservation over the minute loop and final drain -/

section RunLemmas

variable {α : Type} [LinearOrderedField α]

/-- The sum of a demand array over the first `n` minutes, as the loop reads
it. -/
def traceSum (dm : DemandMap α) (k : String) (n : ℕ) : α :=
  ((List.range n).map fun m => demandAt dm k m).sum

omit [LinearOrderedField α] in
theorem updMap_updMap {β : Type} (m : String → β) (k : String) (v w : β) :
    updMap (updMap m k v) k w = updMap m k w := by
  funext k'
  by_cases h : k' = k
  · rw [h, updMap_self, updMap_self]
  · rw [updMap_ne _ _ _ _ h, updMap_ne _ _ _ _ h, updMap_ne _ _ _ _ h]

/-- Queue items stay strictly positive throughout the minute loop. -/
theorem stepsUpTo_pos (machines : α) (curves : List (Curve α))
    (dm : DemandMap α) (t : ℕ) (n : ℕ) :
    ∀ k, ∀ it ∈ (stepsUpTo machines curves dm t n).queuesByCurve k,
      0 < it.demand := by
  induction n with
  | zero => intro k it hit; simp [stepsUpTo, initState] at hit
  | succ n ih => exact stepMinute_pos machines curves dm t _ n ih

/-- Conservation ledger after `n` minutes: each id's served + shed + queued
equals its demand read so far, once per configured curve with that id. -/
theorem stepsUpTo_account (machines : α) (curves : List (Curve α))
    (dm : DemandMap α) (t : ℕ) (n : ℕ) (k : String) :
    account (stepsUpTo machines curves dm t n) k
      = (((curves.map Curve.id).count k : ℕ) : α) * traceSum dm k n := by
  induction n with
  | zero => simp [stepsUpTo, initState, account, queueMass, traceSum]
  | succ n ih =>
    show account (stepMinute machines curves dm t
      (stepsUpTo machines curves dm t n) n) k = _
    rw [stepMinute_account machines curves dm t _ n k
      (stepsUpTo_pos machines curves dm t n), ih]
    unfold traceSum
    rw [List.range_succ, List.map_append, List.sum_append]
    simp
    ring

/-- The aggregate counters stay the sums of the per-curve ledgers. -/
theorem stepsUpTo_sums (machines : α) (curves : List (Curve α))
    (dm : DemandMap α) (t : ℕ) (n : ℕ)
    (hnd : (curves.map Curve.id).Nodup) :
    (stepsUpTo machines curves dm t n).totalUtilization
        = sumOver curves (stepsUpTo machines curves dm t n).utilizationByCurve
      ∧ (stepsUpTo machines curves dm t n).totalShedDemand
        = sumOver curves (stepsUpTo machines curves dm t n).shedByCurve := by
  induction n with
  | zero =>
    constructor <;> simp [stepsUpTo, initState, sumOver]
  | succ n ih =>
    exact stepMinute_sums machines curves dm t _ n hnd ih.1 ih.2

/-- The end-of-day drain of a single queue: adds its mass to the curve's shed
ledger and the aggregate shed; touches nothing else. -/
theorem drainQueue_parts (cid : String) (q : List (QItem α))
    (st : SimState α) :
    (q.foldl (drainItem cid) st).queuesByCurve = st.queuesByCurve
      ∧ (q.foldl (drainItem cid) st).utilizationByCurve
        = st.utilizationByCurve
      ∧ (q.foldl (drainItem cid) st).totalUtilization = st.totalUtilization
      ∧ (q.foldl (drainItem cid) st).demandValues = st.demandValues
      ∧ (q.foldl (drainItem cid) st).points = st.points
      ∧ (q.foldl (drainItem cid) st).usageValuesByCurve
        = st.usageValuesByCurve
      ∧ (q.foldl (drainItem cid) st).totalShedDemand
        = st.totalShedDemand + queueMass q
      ∧ (q.foldl (drainItem cid) st).shedByCurve
        = updMap st.shedByCurve cid (st.shedByCurve cid + queueMass q) := by
  induction q generalizing st with
  | nil =>
    refine ⟨rfl, rfl, rfl, rfl, rfl, rfl, ?_, ?_⟩
    · show st.totalShedDemand
        = st.totalShedDemand + queueMass ([] : List (QItem α))
      rw [queueMass_nil, add_zero]
    · show st.shedByCurve = updMap st.shedByCurve cid
        (st.shedByCurve cid + queueMass ([] : List (QItem α)))
      rw [queueMass_nil, add_zero]
      funext k'
      by_cases h : k' = cid
      · rw [h, updMap_self]
      · rw [updMap_ne _ _ _ _ h]
  | cons it rest ih =>
    obtain ⟨g1, g2, g3, g4, g5, g6, g7, g8⟩ := ih (drainItem cid st it)
    refine ⟨?_, ?_, ?_, ?_, ?_, ?_, ?_, ?_⟩
    · rw [List.foldl_cons, g1]; rfl
    · rw [List.foldl_cons, g2]; rfl
    · rw [List.foldl_cons, g3]; rfl
    · rw [List.foldl_cons, g4]; rfl
    · rw [List.foldl_cons, g5]; rfl
    · rw [List.foldl_cons, g6]; rfl
    · rw [List.foldl_cons, g7]
      show st.totalShedDemand + it.demand + queueMass rest = _
      rw [queueMass_cons]
      ring
    · rw [List.foldl_cons, g8]
      show updMap (updMap st.shedByCurve cid (st.shedByCurve cid + it.demand))
        cid ((drainItem cid st it).shedByCurve cid + queueMass rest) = _
      rw [updMap_updMap, queueMass_cons]
      have : (drainItem cid st it).shedByCurve cid
          = st.shedByCurve cid + it.demand := by
        show updMap st.shedByCurve cid (st.shedByCurve cid + it.demand) cid = _
        rw [updMap_self]
      rw [this, add_assoc]

/-- The end-of-day drain across all curves, distinct ids: every curve's
remaining queue mass moves into its shed ledger and the aggregate shed. -/
theorem finalDrain_parts (curves : List (Curve α)) (st : SimState α)
    (hnd : (curves.map Curve.id).Nodup) :
    (finalDrain curves st).queuesByCurve = st.queuesByCurve
      ∧ (finalDrain curves st).utilizationByCurve = st.utilizationByCurve
      ∧ (finalDrain curves st).totalUtilization = st.totalUtilization
      ∧ (∀ k, (finalDrain curves st).shedByCurve k
          = st.shedByCurve k
            + (if k ∈ curves.map Curve.id
              then queueMass (st.queuesByCurve k) else 0))
      ∧ (finalDrain curves st).totalShedDemand
        = st.totalShedDemand
          + (curves.map fun c => queueMass (st.queuesByCurve c.id)).sum := by
  induction curves generalizing st with
  | nil =>
    exact ⟨rfl, rfl, rfl, fun k => by simp [finalDrain], by simp [finalDrain]⟩
  | cons c l ih =>
    simp only [List.map_cons, List.nodup_cons] at hnd
    obtain ⟨hni, hnd⟩ := hnd
    obtain ⟨d1, d2, d3, d4, d5, d6, d7, d8⟩ :=
      drainQueue_parts c.id (st.queuesByCurve c.id) st
    set st1 := (st.queuesByCurve c.id).foldl (drainItem c.id) st with hst1
    obtain ⟨e1, e2, e3, e4, e5⟩ := ih st1 hnd
    have hdrain : finalDrain (c :: l) st = finalDrain l st1 := rfl
    refine ⟨?_, ?_, ?_, ?_, ?_⟩
    · rw [hdrain, e1, d1]
    · rw [hdrain, e2, d2]
    · rw [hdrain, e3, d3]
    · intro k
      simp only [List.map_cons]
      rw [hdrain, e4 k]
      by_cases hk : k = c.id
      · have hknl : k ∉ l.map Curve.id := by
          rw [hk]; exact hni
        rw [if_neg hknl, hk, d8, updMap_self,
          if_pos (List.mem_cons_self c.id (l.map Curve.id)), add_zero]
      · have hshed1 : st1.shedByCurve k = st.shedByCurve k := by
          rw [d8, updMap_ne _ _ _ _ hk]
        rw [hshed1, d1]
        by_cases hmem : k ∈ l.map Curve.id
        · rw [if_pos hmem, if_pos (List.mem_cons_of_mem c.id hmem)]
        · rw [if_neg hmem, if_neg (by
            intro h
            rcases List.mem_cons.mp h with h | h
            · exact hk h
            · exact hmem h)]
    · simp only [List.map_cons, List.sum_cons]
      rw [hdrain, e5, d7, d1]
      ring

/-- Conservation of the full run (minute loop plus drain), per curve id:
served plus shed equals the total demand read from the curve's array. -/
theorem simulate_conservation (machines : α) (curves : List (Curve α))
    (dm : DemandMap α) (t : ℕ) (hnd : (curves.map Curve.id).Nodup) :
    (∀ c ∈ curves,
      (simulate machines curves dm t).utilizationByCurve c.id
        + (simulate machines curves dm t).shedByCurve c.id
        = traceSum dm c.id 1440)
    ∧ (simulate machines curves dm t).totalUtilization
        + (simulate machines curves dm t).totalShedDemand
        = (curves.map fun c => traceSum dm c.id 1440).sum := by
  obtain ⟨f1, f2, f3, f4, f5⟩ :=
    finalDrain_parts curves (stepsUpTo machines curves dm t 1440) hnd
  constructor
  · intro c hc
    have hcount : (curves.map Curve.id).count c.id = 1 :=
      List.count_eq_one_of_mem hnd (List.mem_map_of_mem Curve.id hc)
    have hacct := stepsUpTo_account machines curves dm t 1440 c.id
    rw [hcount] at hacct
    show (finalDrain curves (stepsUpTo machines curves dm t 1440)).utilizationByCurve c.id
      + (finalDrain curves (stepsUpTo machines curves dm t 1440)).shedByCurve c.id = _
    rw [f2, f4 c.id, if_pos (List.mem_map_of_mem Curve.id hc)]
    unfold account at hacct
    push_cast at hacct
    linarith
  · have hsums := stepsUpTo_sums machines curves dm t 1440 hnd
    show (finalDrain curves (stepsUpTo machines curves dm t 1440)).totalUtilization
      + (finalDrain curves (stepsUpTo machines curves dm t 1440)).totalShedDemand = _
    rw [f3, f5, hsums.1, hsums.2]
    unfold sumOver
    rw [← List.sum_map_add, ← List.sum_map_add]
    apply congrArg
    apply List.map_congr_left
    intro c hc
    have hcount : (curves.map Curve.id).count c.id = 1 :=
      List.count_eq_one_of_mem hnd (List.mem_map_of_mem Curve.id hc)
    have hacct := stepsUpTo_account machines curves dm t 1440 c.id
    rw [hcount] at hacct
    unfold account at hacct
    push_cast at hacct
    linarith

end RunLemmas

/-! ### Demand arrays of the real instantiation -/

section BuildLemmas

theorem buildFold_notmem (l : List (Curve ℝ)) (m0 : DemandMap ℝ) (k : String)
    (hk : k ∉ l.map Curve.id) :
    (l.foldl (fun m c => updMap m c.id (curveDemandArray c)) m0) k = m0 k := by
  induction l generalizing m0 with
  | nil => rfl
  | cons c l ih =>
    have hkc : k ≠ c.id := by
      intro h
      exact hk (h ▸ List.mem_cons_self c.id (l.map Curve.id))
    have hkl : k ∉ l.map Curve.id := by
      intro h
      exact hk (List.mem_cons_of_mem c.id h)
    rw [List.foldl_cons, ih _ hkl, updMap_ne _ _ _ _ hkc]

theorem buildFold_mem (l : List (Curve ℝ)) (m0 : DemandMap ℝ) (c : Curve ℝ)
    (hnd : (l.map Curve.id).Nodup) (hc : c ∈ l) :
    (l.foldl (fun m c => updMap m c.id (curveDemandArray c)) m0) c.id
      = curveDemandArray c := by
  induction l generalizing m0 with
  | nil => simp at hc
  | cons c' l ih =>
    simp only [List.map_cons, List.nodup_cons] at hnd
    obtain ⟨hni, hnd⟩ := hnd
    rcases List.mem_cons.mp hc with hc | hc
    · subst hc
      rw [List.foldl_cons, buildFold_notmem l _ c.id hni, updMap_self]
    · rw [List.foldl_cons]
      exact ih _ hnd hc

/-- With distinct ids, `demandByCurve` maps each configured curve's id to its
generated demand array. -/
theorem buildDemandMap_mem (curves : List (Curve ℝ)) (c : Curve ℝ)
    (hnd : (curves.map Curve.id).Nodup) (hc : c ∈ curves) :
    buildDemandMap curves c.id = curveDemandArray c :=
  buildFold_mem curves _ c hnd hc

theorem sum_getD_length {α : Type} [LinearOrderedField α] (l : List α) :
    ((List.range l.length).map fun m => l.getD m 0).sum = l.sum := by
  induction l with
  | nil => simp
  | cons x xs ih =>
    rw [List.length_cons, List.range_succ_eq_map, List.map_cons,
      List.map_map, List.sum_cons]
    have hcomp : ((fun m => (x :: xs).getD m 0) ∘ Nat.succ)
        = fun m => xs.getD m 0 := by
      funext m
      simp
    rw [hcomp, ih]
    simp

theorem curveDemandArray_length (c : Curve ℝ) :
    (curveDemandArray c).length = 1440 := by
  unfold curveDemandArray
  by_cases h : c.type = "linear"
  · rw [if_pos h]
    exact List.length_replicate 1440 _
  · rw [if_neg h]
    show ((List.range 1440).map fun minute : ℕ =>
        c.totalDemand / (c.curveWidth * 60 * Real.sqrt (2 * Real.pi))
          * gaussian (minute : ℝ) (c.peakHour * 60)
            (c.curveWidth * 60)).length = 1440
    rw [List.length_map, List.length_range]

/-- The total demand the loop reads for a curve is the sum of its generated
array. -/
theorem traceSum_eq_array_sum (curves : List (Curve ℝ)) (c : Curve ℝ)
    (hnd : (curves.map Curve.id).Nodup) (hc : c ∈ curves) :
    traceSum (buildDemandMap curves) c.id 1440 = (curveDemandArray c).sum := by
  unfold traceSum demandAt
  rw [buildDemandMap_mem curves c hnd hc, ← curveDemandArray_length c,
    sum_getD_length]

/-- A linear curve's generated array sums to exactly its configured volume. -/
theorem generateLinearDemand_sum (d : ℝ) :
    (generateLinearDemand (α := ℝ) d).sum = d := by
  unfold generateLinearDemand
  rw [List.sum_replicate, nsmul_eq_mul, mul_comm]
  push_cast
  rw [div_mul_cancel₀ d (by norm_num : (1440 : ℝ) ≠ 0)]

end BuildLemmas

/-! ### Claim C1 — conservation -/

/-- C1 (amended): in every run with distinct source ids, each source's served
total plus shed total equals exactly the sum of its generated per-minute
demand array (and the aggregates agree likewise); for a `linear` source that
sum is exactly the configured `totalDemand`, so served + shed = totalDemand
holds with zero tolerance.  (The unqualified 0.2% bound of the original claim
fails for Gaussian sources with extreme parameters; see the counterexample.) -/
theorem C1_conservation (machines : ℝ) (curves : List (Curve ℝ)) (t : ℕ)
    (hnd : (curves.map Curve.id).Nodup) :
    (∀ c ∈ curves,
      (simulateCurves machines curves t).utilizationByCurve c.id
        + (simulateCurves machines curves t).shedByCurve c.id
        = (curveDemandArray c).sum)
    ∧ (simulateCurves machines curves t).totalUtilization
        + (simulateCurves machines curves t).totalShedDemand
        = (curves.map fun c => (curveDemandArray c).sum).sum
    ∧ ∀ c : Curve ℝ, c.type = "linear"
        → (curveDemandArray c).sum = c.totalDemand := by
  obtain ⟨h1, h2⟩ :=
    simulate_conservation machines curves (buildDemandMap curves) t hnd
  refine ⟨?_, ?_, ?_⟩
  · intro c hc
    rw [← traceSum_eq_array_sum curves c hnd hc]
    exact h1 c hc
  · have hmap : (curves.map fun c => traceSum (buildDemandMap curves) c.id 1440)
        = curves.map fun c => (curveDemandArray c).sum := by
      apply List.map_congr_left
      intro c hc
      exact traceSum_eq_array_sum curves c hnd hc
    rw [← hmap]
    exact h2
  · intro c hlin
    unfold curveDemandArray
    rw [if_pos hlin]
    exact generateLinearDemand_sum c.totalDemand

/-- Witness for C1: the conservation theorem applied to a concrete
configuration (one linear source, capacity 100, timeout 30). -/
theorem C1_conservation_witness :
    (((([⟨"a", "linear", (144000 : ℝ), 0, 0, 1⟩] : List (Curve ℝ)).map
        Curve.id).Nodup)
    ∧ ((∀ c ∈ ([⟨"a", "linear", (144000 : ℝ), 0, 0, 1⟩] : List (Curve ℝ)),
        (simulateCurves 100 [⟨"a", "linear", 144000, 0, 0, 1⟩] 30).utilizationByCurve c.id
          + (simulateCurves 100 [⟨"a", "linear", 144000, 0, 0, 1⟩] 30).shedByCurve c.id
          = (curveDemandArray c).sum)
      ∧ (simulateCurves 100 [⟨"a", "linear", 144000, 0, 0, 1⟩] 30).totalUtilization
          + (simulateCurves 100 [⟨"a", "linear", 144000, 0, 0, 1⟩] 30).totalShedDemand
          = (([⟨"a", "linear", (144000 : ℝ), 0, 0, 1⟩] : List (Curve ℝ)).map
            fun c => (curveDemandArray c).sum).sum
      ∧ ∀ c : Curve ℝ, c.type = "linear"
          → (curveDemandArray c).sum = c.totalDemand)) :=
  ⟨by decide, C1_conservation 100 [⟨"a", "linear", 144000, 0, 0, 1⟩] 30
    (by decide)⟩

/-! ### Gaussian bounds for the counterexamples -/

section GaussianBounds

theorem gaussian_nonneg (x mean s : ℝ) : 0 ≤ gaussian x mean s :=
  le_of_lt (Real.exp_pos _)

theorem gaussian_le_one (x mean s : ℝ) : gaussian x mean s ≤ 1 := by
  unfold gaussian
  apply Real.exp_le_one_iff.mpr
  nlinarith [sq_nonneg ((x - mean) / s)]

theorem sqrt_two_pi_ge_two : (2 : ℝ) ≤ Real.sqrt (2 * Real.pi) := by
  rw [Real.le_sqrt' (by norm_num : (0 : ℝ) < 2)]
  nlinarith [Real.pi_gt_three]

/-- The per-minute demand of the extreme-width Gaussian source is tiny. -/
theorem extremeGaussian_pointwise :
    ∀ x ∈ generateGaussianDemand 100000 15 1000000,
      0 ≤ x ∧ x ≤ 1 / 1200 := by
  intro x hx
  unfold generateGaussianDemand at hx
  simp only [List.mem_map, List.mem_range] at hx
  obtain ⟨m, _, rfl⟩ := hx
  have hsqrt := sqrt_two_pi_ge_two
  have hden : (120000000 : ℝ) ≤ 1000000 * 60 * Real.sqrt (2 * Real.pi) := by
    nlinarith
  have hdenpos : (0 : ℝ) < 1000000 * 60 * Real.sqrt (2 * Real.pi) := by
    linarith
  have hscale : (100000 : ℝ) / (1000000 * 60 * Real.sqrt (2 * Real.pi))
      ≤ 1 / 1200 := by
    rw [div_le_div_iff₀ hdenpos (by norm_num : (0 : ℝ) < 1200)]
    nlinarith
  have hscale0 : (0 : ℝ)
      ≤ 100000 / (1000000 * 60 * Real.sqrt (2 * Real.pi)) :=
    le_of_lt (div_pos (by norm_num) hdenpos)
  constructor
  · exact mul_nonneg hscale0 (gaussian_nonneg _ _ _)
  · calc 100000 / (1000000 * 60 * Real.sqrt (2 * Real.pi))
        * gaussian (m : ℝ) (15 * 60) (1000000 * 60)
        ≤ 100000 / (1000000 * 60 * Real.sqrt (2 * Real.pi)) * 1 :=
          mul_le_mul_of_nonneg_left (gaussian_le_one _ _ _) hscale0
      _ = 100000 / (1000000 * 60 * Real.sqrt (2 * Real.pi)) := mul_one _
      _ ≤ 1 / 1200 := hscale

/-- The extreme-width Gaussian array sums to at most 1.2 — nowhere near the
configured volume of 100000. -/
theorem extremeGaussian_sum_bounds :
    0 ≤ (generateGaussianDemand 100000 15 1000000).sum
      ∧ (generateGaussianDemand 100000 15 1000000).sum ≤ 1.2 := by
  constructor
  · exact List.sum_nonneg fun x hx => (extremeGaussian_pointwise x hx).1
  · have hlen : (generateGaussianDemand 100000 15 1000000).length = 1440 := by
      unfold generateGaussianDemand
      rw [List.length_map, List.length_range]
    have hb := List.sum_le_card_nsmul
      (generateGaussianDemand 100000 15 1000000) (1 / 1200)
      (fun x hx => (extremeGaussian_pointwise x hx).2)
    rw [hlen, nsmul_eq_mul] at hb
    calc (generateGaussianDemand 100000 15 1000000).sum
        ≤ (1440 : ℕ) * (1 / 1200 : ℝ) := hb
      _ = 1.2 := by norm_num

/-- The extreme-width Gaussian curve's generated demand array. -/
theorem extremeGaussian_array (cid : String) (prio : ℤ) :
    curveDemandArray ⟨cid, "gaussian", 100000, 15, 1000000, prio⟩
      = generateGaussianDemand 100000 15 1000000 := by
  unfold curveDemandArray
  have ht : (⟨cid, "gaussian", 100000, 15, 1000000, prio⟩ : Curve ℝ).type
      = "gaussian" := rfl
  rw [ht, if_neg (by decide : ¬ ("gaussian" : String) = "linear")]

end GaussianBounds

/-- C1 counterexample: with a valid Gaussian source (positive spread, peak
hour 15) of extreme width, served + shed is nowhere within 0.2% of the
configured totalDemand, refuting the claim's unqualified tolerance. -/
theorem C1_counterexample :
    ¬ (|(simulateCurves 100
          [⟨"g", "gaussian", 100000, 15, 1000000, 1⟩] 30).utilizationByCurve
            "g"
        + (simulateCurves 100
          [⟨"g", "gaussian", 100000, 15, 1000000, 1⟩] 30).shedByCurve "g"
        - 100000|
      ≤ 0.002 * 100000) := by
  have hnd : (([⟨"g", "gaussian", (100000 : ℝ), 15, 1000000, 1⟩] :
      List (Curve ℝ)).map Curve.id).Nodup := by decide
  have hcons : (simulateCurves 100
        [⟨"g", "gaussian", 100000, 15, 1000000, 1⟩] 30).utilizationByCurve "g"
      + (simulateCurves 100
        [⟨"g", "gaussian", 100000, 15, 1000000, 1⟩] 30).shedByCurve "g"
      = (curveDemandArray
        (⟨"g", "gaussian", 100000, 15, 1000000, 1⟩ : Curve ℝ)).sum :=
    (C1_conservation 100 [⟨"g", "gaussian", 100000, 15, 1000000, 1⟩] 30
      hnd).1 ⟨"g", "gaussian", 100000, 15, 1000000, 1⟩
      (List.mem_singleton.mpr rfl)
  rw [hcons, extremeGaussian_array]
  obtain ⟨h0, h12⟩ := extremeGaussian_sum_bounds
  intro habs
  have hge : 100000 - (generateGaussianDemand 100000 15 1000000).sum
      ≤ |(generateGaussianDemand 100000 15 1000000).sum - 100000| := by
    rw [abs_sub_comm]
    exact le_abs_self _
  have : (0.002 : ℝ) * 100000 = 200 := by norm_num
  linarith

/-! ### Claim C5 — timeout expiry -/

/-- C5: at the start of every minute, the expiry step removes from each
configured source's queue exactly the items whose age `minute − arrivalTime`
exceeds the timeout (equivalently `queueTimeout + arrivalTime < minute`),
adds their full remaining magnitude to that source's shed total and to the
minute's shed amount (the aggregate shed grows by the same amount), after
which no surviving item's age exceeds the timeout; and serving never
re-stamps arrival times, so age is always measured from original arrival. -/
theorem C5_timeout_expiry (curves : List (Curve ℝ)) (t n : ℕ)
    (st : SimState ℝ) (c : Curve ℝ) (hc : c ∈ curves) :
    (expireStep curves t n st).1.queuesByCurve c.id
        = (st.queuesByCurve c.id).filter (fun it => ¬ t + it.arrivalTime < n)
      ∧ (expireStep curves t n st).1.shedByCurve c.id
        = st.shedByCurve c.id
          + queueMass ((st.queuesByCurve c.id).filter
            fun it => t + it.arrivalTime < n)
      ∧ (expireStep curves t n st).1.totalShedDemand
        = st.totalShedDemand + (expireStep curves t n st).2
      ∧ (∀ it ∈ (expireStep curves t n st).1.queuesByCurve c.id,
          n - it.arrivalTime ≤ t)
      ∧ ∀ (avail : ℝ) (q : List (QItem ℝ)),
          (serveItems avail q).1.map QItem.arrivalTime
            = q.map QItem.arrivalTime := by
  have hmem : c.id ∈ curves.map Curve.id := List.mem_map_of_mem Curve.id hc
  refine ⟨?_, ?_, expireStep_totalShed curves t n st, ?_, serveItems_arrival⟩
  · rw [expireStep_queues, if_pos hmem]
  · rw [expireStep_shed, if_pos hmem]
  · intro it hit
    rw [expireStep_queues, if_pos hmem] at hit
    have hkeep : ¬ t + it.arrivalTime < n := by
      simpa using (List.mem_filter.mp hit).2
    have : n ≤ t + it.arrivalTime := not_lt.mp hkeep
    exact Nat.sub_le_iff_le_add.mpr (by omega)

/-- Witness for C5: the expiry characterisation applied to a concrete state
with one queue holding a fresh and a stale item at minute 40, timeout 30. -/
theorem C5_timeout_expiry_witness :
    ((⟨"a", "linear", (1 : ℝ), 0, 0, 1⟩ : Curve ℝ)
        ∈ ([⟨"a", "linear", (1 : ℝ), 0, 0, 1⟩] : List (Curve ℝ)))
    ∧ ((expireStep [⟨"a", "linear", (1 : ℝ), 0, 0, 1⟩] 30 40
          { initState ℝ with
              queuesByCurve := updMap (fun _ => []) "a"
                [⟨5, 7, "a", 1⟩, ⟨20, 3, "a", 1⟩] }).1.queuesByCurve "a"
        = ((updMap (fun _ => []) "a"
            [⟨5, (7 : ℝ), "a", 1⟩, ⟨20, 3, "a", 1⟩]) "a").filter
          (fun it => ¬ 30 + it.arrivalTime < 40)
      ∧ (expireStep [⟨"a", "linear", (1 : ℝ), 0, 0, 1⟩] 30 40
          { initState ℝ with
              queuesByCurve := updMap (fun _ => []) "a"
                [⟨5, 7, "a", 1⟩, ⟨20, 3, "a", 1⟩] }).1.shedByCurve "a"
        = ({ initState ℝ with
              queuesByCurve := updMap (fun _ => []) "a"
                [⟨5, 7, "a", 1⟩, ⟨20, 3, "a", 1⟩] } :
            SimState ℝ).shedByCurve "a"
          + queueMass (((updMap (fun _ => []) "a"
              [⟨5, (7 : ℝ), "a", 1⟩, ⟨20, 3, "a", 1⟩]) "a").filter
            fun it => 30 + it.arrivalTime < 40)
      ∧ (expireStep [⟨"a", "linear", (1 : ℝ), 0, 0, 1⟩] 30 40
          { initState ℝ with
              queuesByCurve := updMap (fun _ => []) "a"
                [⟨5, 7, "a", 1⟩, ⟨20, 3, "a", 1⟩] }).1.totalShedDemand
        = ({ initState ℝ with
              queuesByCurve := updMap (fun _ => []) "a"
                [⟨5, 7, "a", 1⟩, ⟨20, 3, "a", 1⟩] } :
            SimState ℝ).totalShedDemand
          + (expireStep [⟨"a", "linear", (1 : ℝ), 0, 0, 1⟩] 30 40
            { initState ℝ with
                queuesByCurve := updMap (fun _ => []) "a"
                  [⟨5, 7, "a", 1⟩, ⟨20, 3, "a", 1⟩] }).2
      ∧ (∀ it ∈ (expireStep [⟨"a", "linear", (1 : ℝ), 0, 0, 1⟩] 30 40
            { initState ℝ with
                queuesByCurve := updMap (fun _ => []) "a"
                  [⟨5, 7, "a", 1⟩, ⟨20, 3, "a", 1⟩] }).1.queuesByCurve "a",
          40 - it.arrivalTime ≤ 30)
      ∧ ∀ (avail : ℝ) (q : List (QItem ℝ)),
          (serveItems avail q).1.map QItem.arrivalTime
            = q.map QItem.arrivalTime) :=
  ⟨List.mem_singleton.mpr rfl,
    C5_timeout_expiry [⟨"a", "linear", (1 : ℝ), 0, 0, 1⟩] 30 40
      { initState ℝ with
          queuesByCurve := updMap (fun _ => []) "a"
            [⟨5, 7, "a", 1⟩, ⟨20, 3, "a", 1⟩] }
      ⟨"a", "linear", (1 : ℝ), 0, 0, 1⟩ (List.mem_singleton.mpr rfl)⟩

/-! ### Claim C10 — shape dispatch congruence -/

section ShapeCongruence

/-- Replacing a curve by one with equal id and priority does not change the
per-curve processing step. -/
theorem processCurve_congr (dm : DemandMap ℝ) (n : ℕ)
    (acc : ℝ × ℝ × SimState ℝ) (c c' : Curve ℝ) (hid : c'.id = c.id)
    (hprio : c'.priority = c.priority) :
    processCurve dm n acc c' = processCurve dm n acc c := by
  unfold processCurve
  rw [hid, hprio]

/-- Replacing a curve by one with equal id does not change the expiry step. -/
theorem expireOne_congr (t n : ℕ) (p : SimState ℝ × ℝ) (c c' : Curve ℝ)
    (hid : c'.id = c.id) :
    expireOne t n p c' = expireOne t n p c := by
  unfold expireOne
  rw [hid]

/-- Priority-preserving maps commute with the stable priority sort. -/
theorem insertByPrio_map (f : Curve ℝ → Curve ℝ)
    (hprio : ∀ c, (f c).priority = c.priority) (c : Curve ℝ)
    (l : List (Curve ℝ)) :
    insertByPrio (f c) (l.map f) = (insertByPrio c l).map f := by
  induction l with
  | nil => rfl
  | cons x xs ih =>
    simp only [List.map_cons, insertByPrio, hprio]
    by_cases h : c.priority ≤ x.priority
    · rw [if_pos h, if_pos h]
      simp
    · rw [if_neg h, if_neg h, List.map_cons, ih]

theorem sortByPrio_map (f : Curve ℝ → Curve ℝ)
    (hprio : ∀ c, (f c).priority = c.priority) (l : List (Curve ℝ)) :
    sortByPrio (l.map f) = (sortByPrio l).map f := by
  induction l with
  | nil => rfl
  | cons x xs ih =>
    simp only [List.map_cons, sortByPrio, ih]
    exact insertByPrio_map f hprio x (sortByPrio xs)

/-- A map that preserves ids and priorities leaves each simulated minute
unchanged. -/
theorem stepMinute_map (f : Curve ℝ → Curve ℝ)
    (hid : ∀ c, (f c).id = c.id) (hprio : ∀ c, (f c).priority = c.priority)
    (machines : ℝ) (curves : List (Curve ℝ)) (dm : DemandMap ℝ) (t : ℕ)
    (st : SimState ℝ) (n : ℕ) :
    stepMinute machines (curves.map f) dm t st n
      = stepMinute machines curves dm t st n := by
  have hexpire : (curves.map f).foldl (expireOne t n) (st, 0)
      = curves.foldl (expireOne t n) (st, 0) := by
    rw [List.foldl_map]
    have h : (fun (p : SimState ℝ × ℝ) c => expireOne t n p (f c))
        = fun p c => expireOne t n p c := by
      funext p c
      exact expireOne_congr t n p c (f c) (hid c)
    rw [h]
  have hdemand : (curves.map f).foldl
      (fun s c => s + demandAt dm c.id n) (0 : ℝ)
      = curves.foldl (fun s c => s + demandAt dm c.id n) 0 := by
    rw [List.foldl_map]
    have h : (fun (s : ℝ) c => s + demandAt dm (f c).id n)
        = fun (s : ℝ) c => s + demandAt dm c.id n := by
      funext s c
      rw [hid]
    rw [h]
  have hprocess : ∀ acc : ℝ × ℝ × SimState ℝ,
      (sortByPrio (curves.map f)).foldl (processCurve dm n) acc
        = (sortByPrio curves).foldl (processCurve dm n) acc := by
    intro acc
    rw [sortByPrio_map f hprio, List.foldl_map]
    have h : (fun (a : ℝ × ℝ × SimState ℝ) c => processCurve dm n a (f c))
        = fun a c => processCurve dm n a c := by
      funext a c
      exact processCurve_congr dm n a c (f c) (hid c) (hprio c)
    rw [h]
  have hqs : ∀ (st2 : SimState ℝ),
      (curves.map f).foldl
        (fun s c => s + queueMass (st2.queuesByCurve c.id)) (0 : ℝ)
        = curves.foldl (fun s c => s + queueMass (st2.queuesByCurve c.id)) 0 :=
    by
    intro st2
    rw [List.foldl_map]
    have h : (fun (s : ℝ) c => s + queueMass (st2.queuesByCurve (f c).id))
        = fun (s : ℝ) c => s + queueMass (st2.queuesByCurve c.id) := by
      funext s c
      rw [hid]
    rw [h]
  have hpts : (curves.map f).map (fun c => (c.id, demandAt dm c.id n))
      = curves.map fun c => (c.id, demandAt dm c.id n) := by
    rw [List.map_map]
    apply List.map_congr_left
    intro c _
    simp [hid]
  simp only [stepMinute, expireStep]
  rw [hexpire, hdemand, hprocess, hpts]
  rw [hqs]

/-- A map that preserves ids and priorities leaves the whole minute loop
unchanged. -/
theorem stepsUpTo_map (f : Curve ℝ → Curve ℝ)
    (hid : ∀ c, (f c).id = c.id) (hprio : ∀ c, (f c).priority = c.priority)
    (machines : ℝ) (curves : List (Curve ℝ)) (dm : DemandMap ℝ) (t : ℕ)
    (n : ℕ) :
    stepsUpTo machines (curves.map f) dm t n
      = stepsUpTo machines curves dm t n := by
  induction n with
  | zero => rfl
  | succ n ih =>
    show stepMinute machines (curves.map f) dm t
        (stepsUpTo machines (curves.map f) dm t n) n = _
    rw [ih, stepMinute_map f hid hprio]
    rfl

/-- A map that preserves ids leaves the final drain unchanged. -/
theorem finalDrain_map (f : Curve ℝ → Curve ℝ)
    (hid : ∀ c, (f c).id = c.id) (curves : List (Curve ℝ))
    (st : SimState ℝ) :
    finalDrain (curves.map f) st = finalDrain curves st := by
  unfold finalDrain
  rw [List.foldl_map]
  have : (fun (st : SimState ℝ) c =>
      (st.queuesByCurve (f c).id).foldl (drainItem (f c).id) st)
      = fun st c => (st.queuesByCurve c.id).foldl (drainItem c.id) st := by
    funext st c
    rw [hid]
  rw [this]

/-- A map that preserves ids and demand arrays leaves `demandByCurve`
unchanged. -/
theorem buildDemandMap_map (f : Curve ℝ → Curve ℝ)
    (hid : ∀ c, (f c).id = c.id)
    (harr : ∀ c, curveDemandArray (f c) = curveDemandArray c)
    (curves : List (Curve ℝ)) :
    buildDemandMap (curves.map f) = buildDemandMap curves := by
  unfold buildDemandMap
  rw [List.foldl_map]
  have h : (fun (m : DemandMap ℝ) c =>
      updMap m (f c).id (curveDemandArray (f c)))
      = fun m c => updMap m c.id (curveDemandArray c) := by
    funext m c
    rw [hid, harr]
  rw [h]
  rfl

/-- A map that preserves ids and total volumes leaves the metrics
unchanged. -/
theorem buildMetrics_map (f : Curve ℝ → Curve ℝ)
    (hid : ∀ c, (f c).id = c.id)
    (htd : ∀ c, (f c).totalDemand = c.totalDemand)
    (machines : ℝ) (curves : List (Curve ℝ)) (st : SimState ℝ) :
    buildMetrics machines (curves.map f) st = buildMetrics machines curves st :=
  by
  unfold buildMetrics
  rw [List.foldl_map, List.foldl_map]
  have h1 : (fun (s : ℝ) c => s + (f c).totalDemand)
      = fun s c => s + c.totalDemand := by
    funext s c
    rw [htd]
  have h2 : (fun (m : String → CurveMetrics ℝ) (c : Curve ℝ) =>
      updMap m (f c).id
        { totalUtilization := jsRound (st.utilizationByCurve (f c).id)
          peakUtilization := ((sortUsageValuesDesc
            (st.usageValuesByCurve (f c).id)).take 180).foldl
              (fun s d => s + d.usage) 0 / 180
          avgUtilization := st.utilizationByCurve (f c).id / 1440
          shedDemand := jsRound (st.shedByCurve (f c).id)
          shedPercent := st.shedByCurve (f c).id / (f c).totalDemand * 100 })
      = fun m c =>
        updMap m c.id
          { totalUtilization := jsRound (st.utilizationByCurve c.id)
            peakUtilization := ((sortUsageValuesDesc
              (st.usageValuesByCurve c.id)).take 180).foldl
                (fun s d => s + d.usage) 0 / 180
            avgUtilization := st.utilizationByCurve c.id / 1440
            shedDemand := jsRound (st.shedByCurve c.id)
            shedPercent := st.shedByCurve c.id / c.totalDemand * 100 } := by
    funext m c
    rw [hid, htd]
  rw [h1, h2]

/-- The shape-normalising map used by the fallback claim: any curve whose
`type` is not the string `"linear"` is re-labelled `"gaussian"`. -/
def normalizeShape (c : Curve ℝ) : Curve ℝ :=
  if c.type = "linear" then c else { c with type := "gaussian" }

theorem normalizeShape_id (c : Curve ℝ) : (normalizeShape c).id = c.id := by
  unfold normalizeShape
  by_cases h : c.type = "linear" <;> simp [h]

theorem normalizeShape_priority (c : Curve ℝ) :
    (normalizeShape c).priority = c.priority := by
  unfold normalizeShape
  by_cases h : c.type = "linear" <;> simp [h]

theorem normalizeShape_totalDemand (c : Curve ℝ) :
    (normalizeShape c).totalDemand = c.totalDemand := by
  unfold normalizeShape
  by_cases h : c.type = "linear" <;> simp [h]

theorem normalizeShape_array (c : Curve ℝ) :
    curveDemandArray (normalizeShape c) = curveDemandArray c := by
  unfold normalizeShape curveDemandArray
  by_cases h : c.type = "linear"
  · rw [if_pos h]
  · rw [if_neg h]
    have ht : ({ c with type := "gaussian" } : Curve ℝ).type = "gaussian" :=
      rfl
    rw [ht, if_neg (by decide : ¬ ("gaussian" : String) = "linear"),
      if_neg h]

end ShapeCongruence

/-- C10: any source whose `type` is not the string `"linear"` is treated as
Gaussian: its demand array is generated from `peakHour` and `curveWidth` by
`generateGaussianDemand`, and re-labelling every such source `"gaussian"`
leaves the entire result of `runFullSimulation` unchanged — no error path
exists for unrecognised shapes. -/
theorem C10_shape_fallback :
    (∀ (machines : ℝ) (curves : List (Curve ℝ)) (t : ℕ),
      runFullSimulation machines (curves.map normalizeShape) t
        = runFullSimulation machines curves t)
    ∧ ∀ c : Curve ℝ, c.type ≠ "linear" →
        normalizeShape c = { c with type := "gaussian" }
        ∧ curveDemandArray c
          = generateGaussianDemand c.totalDemand c.peakHour c.curveWidth := by
  constructor
  · intro machines curves t
    simp only [runFullSimulation, simulateCurves, simulate]
    rw [buildDemandMap_map normalizeShape normalizeShape_id
        normalizeShape_array,
      stepsUpTo_map normalizeShape normalizeShape_id normalizeShape_priority,
      finalDrain_map normalizeShape normalizeShape_id,
      buildMetrics_map normalizeShape normalizeShape_id
        normalizeShape_totalDemand]
  · intro c hc
    constructor
    · unfold normalizeShape
      rw [if_neg hc]
    · unfold curveDemandArray
      rw [if_neg hc]

/-- Witness for C10: a source with the unrecognised shape string `"blob"`
falls back to the Gaussian generator. -/
theorem C10_shape_fallback_witness :
    ((⟨"x", "blob", (5 : ℝ), 1, 2, 3⟩ : Curve ℝ).type ≠ "linear")
    ∧ (normalizeShape ⟨"x", "blob", 5, 1, 2, 3⟩
        = { (⟨"x", "blob", (5 : ℝ), 1, 2, 3⟩ : Curve ℝ) with
            type := "gaussian" }
      ∧ curveDemandArray ⟨"x", "blob", 5, 1, 2, 3⟩
        = generateGaussianDemand
          (Curve.totalDemand (α := ℝ) ⟨"x", "blob", 5, 1, 2, 3⟩)
          (Curve.peakHour (α := ℝ) ⟨"x", "blob", 5, 1, 2, 3⟩)
          (Curve.curveWidth (α := ℝ) ⟨"x", "blob", 5, 1, 2, 3⟩)) :=
  ⟨by decide, C10_shape_fallback.2 ⟨"x", "blob", 5, 1, 2, 3⟩ (by decide)⟩

/-! ### Claim C6 — zero capacity -/

section ZeroCapacity

theorem updMap_same {β : Type} (m : String → β) (k : String) :
    updMap m k (m k) = m := by
  funext k'
  by_cases h : k' = k
  · rw [h, updMap_self]
  · rw [updMap_ne _ _ _ _ h]

theorem getD_nonneg (l : List ℝ) (h : ∀ x ∈ l, 0 ≤ x) (m : ℕ) :
    0 ≤ l.getD m 0 := by
  induction l generalizing m with
  | nil => simp
  | cons x xs ih =>
    cases m with
    | zero => simpa using h x (List.mem_cons_self x xs)
    | succ m =>
      simp only [List.getD_cons_succ]
      exact ih (fun y hy => h y (List.mem_cons_of_mem x hy)) m

/-- A validly parameterised curve's demand array is pointwise non-negative. -/
theorem curveDemandArray_nonneg (c : Curve ℝ) (htd : 0 ≤ c.totalDemand)
    (hw : c.type ≠ "linear" → 0 < c.curveWidth) :
    ∀ x ∈ curveDemandArray c, 0 ≤ x := by
  intro x hx
  unfold curveDemandArray at hx
  by_cases h : c.type = "linear"
  · rw [if_pos h] at hx
    unfold generateLinearDemand at hx
    have := List.eq_of_mem_replicate hx
    rw [this]
    positivity
  · rw [if_neg h] at hx
    unfold generateGaussianDemand at hx
    simp only [List.mem_map, List.mem_range] at hx
    obtain ⟨m, _, rfl⟩ := hx
    have hw' := hw h
    have hscale : 0 ≤ c.totalDemand
        / (c.curveWidth * 60 * Real.sqrt (2 * Real.pi)) := by
      apply div_nonneg htd
      have := Real.sqrt_nonneg (2 * Real.pi)
      nlinarith
    exact mul_nonneg hscale (gaussian_nonneg _ _ _)

/-- Each entry of `demandByCurve` is either absent (empty) or the array of
some configured curve. -/
theorem buildDemandMap_cases (curves : List (Curve ℝ)) (k : String) :
    buildDemandMap curves k = []
      ∨ ∃ c ∈ curves, buildDemandMap curves k = curveDemandArray c := by
  unfold buildDemandMap
  suffices h : ∀ (l : List (Curve ℝ)) (m0 : DemandMap ℝ),
      (∀ c ∈ l, c ∈ curves)
      → (m0 k = [] ∨ ∃ c ∈ curves, m0 k = curveDemandArray c)
      → ((l.foldl (fun m c => updMap m c.id (curveDemandArray c)) m0) k = []
        ∨ ∃ c ∈ curves,
          (l.foldl (fun m c => updMap m c.id (curveDemandArray c)) m0) k
            = curveDemandArray c) from
    h curves (fun _ => []) (fun _ hc => hc) (Or.inl rfl)
  intro l
  induction l with
  | nil => intro m0 _ h; simpa using h
  | cons c l ih =>
    intro m0 hsub h
    rw [List.foldl_cons]
    apply ih _ (fun c' hc' => hsub c' (List.mem_cons_of_mem c hc'))
    by_cases hk : k = c.id
    · rw [hk, updMap_self]
      exact Or.inr ⟨c, hsub c (List.mem_cons_self c l), rfl⟩
    · rw [updMap_ne _ _ _ _ hk]
      exact h

/-- With validly parameterised curves, every demand the loop reads is
non-negative. -/
theorem demandAt_nonneg (curves : List (Curve ℝ))
    (hvalid : ∀ c ∈ curves,
      0 ≤ c.totalDemand ∧ (c.type ≠ "linear" → 0 < c.curveWidth)) :
    ∀ (k : String) (m : ℕ), 0 ≤ demandAt (buildDemandMap curves) k m := by
  intro k m
  unfold demandAt
  rcases buildDemandMap_cases curves k with h | ⟨c, hc, h⟩
  · rw [h]
    simp
  · rw [h]
    exact getD_nonneg _ (curveDemandArray_nonneg c (hvalid c hc).1
      (hvalid c hc).2) m

end ZeroCapacity

section ZeroCapRun

variable {α : Type} [LinearOrderedField α]

/-- With no capacity and non-negative demand, a curve's processing step
serves nothing and leaves the utilisation ledgers untouched. -/
theorem processCurve_zero (dm : DemandMap α) (n : ℕ)
    (acc : α × α × SimState α) (c : Curve α)
    (hd : 0 ≤ demandAt dm c.id n) (h1 : acc.1 = 0) :
    (processCurve dm n acc c).1 = 0
      ∧ (processCurve dm n acc c).2.1 = acc.2.1
      ∧ (processCurve dm n acc c).2.2.utilizationByCurve
        = acc.2.2.utilizationByCurve := by
  have hmin : min (demandAt dm c.id n) acc.1 = 0 := by
    rw [h1]
    exact min_eq_right hd
  have havail1 : acc.1 - min (demandAt dm c.id n) acc.1 = 0 := by
    rw [hmin, h1, sub_zero]
  have hserve := serveItems_nonpos (α := α)
    (acc.1 - min (demandAt dm c.id n) acc.1)
    (sortByArrival (if 0 < demandAt dm c.id n
        - min (demandAt dm c.id n) acc.1 then
      acc.2.2.queuesByCurve c.id
        ++ [⟨n, demandAt dm c.id n - min (demandAt dm c.id n) acc.1, c.id,
          c.priority⟩]
      else acc.2.2.queuesByCurve c.id))
    (by rw [havail1]; exact lt_irrefl 0)
  refine ⟨?_, ?_, ?_⟩
  · show (serveItems _ _).2.1 = 0
    rw [hserve, havail1]
  · show acc.2.1 + (min (demandAt dm c.id n) acc.1 + (serveItems _ _).2.2) = _
    rw [hserve, hmin]
    simp
  · show updMap acc.2.2.utilizationByCurve c.id
      (acc.2.2.utilizationByCurve c.id
        + (min (demandAt dm c.id n) acc.1 + (serveItems _ _).2.2)) = _
    rw [hserve, hmin]
    simp only [add_zero]
    exact updMap_same _ _

/-- The zero-capacity property propagates through the processing fold. -/
theorem processFold_zero (dm : DemandMap α) (n : ℕ) (l : List (Curve α))
    (acc : α × α × SimState α) (hd : ∀ k, 0 ≤ demandAt dm k n)
    (h1 : acc.1 = 0) :
    (l.foldl (processCurve dm n) acc).1 = 0
      ∧ (l.foldl (processCurve dm n) acc).2.1 = acc.2.1
      ∧ (l.foldl (processCurve dm n) acc).2.2.utilizationByCurve
        = acc.2.2.utilizationByCurve := by
  induction l generalizing acc with
  | nil => exact ⟨h1, rfl, rfl⟩
  | cons c l ih =>
    obtain ⟨p1, p2, p3⟩ := processCurve_zero dm n acc c (hd c.id) h1
    obtain ⟨q1, q2, q3⟩ := ih (processCurve dm n acc c) p1
    refine ⟨?_, ?_, ?_⟩ <;> rw [List.foldl_cons]
    · exact q1
    · rw [q2, p2]
    · rw [q3, p3]

/-- With zero capacity and non-negative demands, the loop never serves:
the utilisation ledgers and aggregate utilisation stay zero. -/
theorem stepsUpTo_zeroCap (curves : List (Curve α)) (dm : DemandMap α)
    (t : ℕ) (n : ℕ) (hd : ∀ k m, 0 ≤ demandAt dm k m) :
    (stepsUpTo 0 curves dm t n).utilizationByCurve = (fun _ => 0)
      ∧ (stepsUpTo 0 curves dm t n).totalUtilization = 0 := by
  induction n with
  | zero => exact ⟨rfl, rfl⟩
  | succ n ih =>
    obtain ⟨ih1, ih2⟩ := ih
    obtain ⟨_, h2, _, _, h5, _⟩ := stepMinute_parts (0 : α) curves dm t
      (stepsUpTo 0 curves dm t n) n
    obtain ⟨f1, f2, f3⟩ := processFold_zero dm n (sortByPrio curves)
      (0, 0, (expireStep curves t n (stepsUpTo 0 curves dm t n)).1)
      (fun k => hd k n) rfl
    constructor
    · show (stepMinute 0 curves dm t (stepsUpTo 0 curves dm t n) n).utilizationByCurve = _
      rw [h2]
      show (afterProcess 0 curves dm t (stepsUpTo 0 curves dm t n) n).2.2.utilizationByCurve = _
      rw [show (afterProcess 0 curves dm t (stepsUpTo 0 curves dm t n) n)
          = (sortByPrio curves).foldl (processCurve dm n)
            (0, 0, (expireStep curves t n (stepsUpTo 0 curves dm t n)).1)
          from rfl, f3]
      rw [expireStep_util, ih1]
    · show (stepMinute 0 curves dm t (stepsUpTo 0 curves dm t n) n).totalUtilization = _
      rw [h5]
      have ht : (afterProcess 0 curves dm t
          (stepsUpTo 0 curves dm t n) n).2.2.totalUtilization = 0 := by
        rw [afterProcess_totalUtil, expireStep_totalUtil, ih2]
      have hu : (afterProcess 0 curves dm t
          (stepsUpTo 0 curves dm t n) n).2.1 = 0 := by
        show ((sortByPrio curves).foldl (processCurve dm n)
          (0, 0, (expireStep curves t n (stepsUpTo 0 curves dm t n)).1)).2.1 = _
        rw [f2]
      rw [ht, hu, add_zero]

end ZeroCapRun

/-- C6 (amended): with capacity 0 (and distinct ids, non-negative volumes,
positive Gaussian spreads), every source ends with served exactly 0 and shed
exactly the sum of its generated demand array — which equals the configured
totalDemand exactly for linear sources, but not in general for Gaussian
sources (see the counterexample). -/
theorem C6_zero_capacity (curves : List (Curve ℝ)) (t : ℕ)
    (hnd : (curves.map Curve.id).Nodup)
    (hvalid : ∀ c ∈ curves,
      0 ≤ c.totalDemand ∧ (c.type ≠ "linear" → 0 < c.curveWidth)) :
    (∀ c ∈ curves,
      (simulateCurves 0 curves t).utilizationByCurve c.id = 0
        ∧ (simulateCurves 0 curves t).shedByCurve c.id
          = (curveDemandArray c).sum)
      ∧ (simulateCurves 0 curves t).totalUtilization = 0
      ∧ ∀ c ∈ curves, c.type = "linear"
          → (simulateCurves 0 curves t).shedByCurve c.id = c.totalDemand := by
  have hd := demandAt_nonneg curves hvalid
  obtain ⟨hz1, hz2⟩ :=
    stepsUpTo_zeroCap curves (buildDemandMap curves) t 1440 hd
  obtain ⟨f1, f2, f3, f4, f5⟩ := finalDrain_parts curves
    (stepsUpTo 0 curves (buildDemandMap curves) t 1440) hnd
  have hutil : ∀ k, (simulateCurves 0 curves t).utilizationByCurve k = 0 := by
    intro k
    show (finalDrain curves
      (stepsUpTo 0 curves (buildDemandMap curves) t 1440)).utilizationByCurve
        k = 0
    rw [f2, hz1]
  have hshed : ∀ c ∈ curves,
      (simulateCurves 0 curves t).shedByCurve c.id
        = (curveDemandArray c).sum := by
    intro c hc
    have hcons := (C1_conservation 0 curves t hnd).1 c hc
    rw [hutil c.id, zero_add] at hcons
    exact hcons
  refine ⟨fun c hc => ⟨hutil c.id, hshed c hc⟩, ?_, ?_⟩
  · show (finalDrain curves
      (stepsUpTo 0 curves (buildDemandMap curves) t 1440)).totalUtilization = 0
    rw [f3, hz2]
  · intro c hc hlin
    rw [hshed c hc]
    exact (C1_conservation 0 curves t hnd).2.2 c hlin

/-- Witness for C6: zero capacity with one linear source of volume 100000
(the configuration of the repository's own zero-capacity test). -/
theorem C6_zero_capacity_witness :
    ((([⟨"s", "linear", (100000 : ℝ), 0, 0, 1⟩] : List (Curve ℝ)).map
        Curve.id).Nodup)
    ∧ (∀ c ∈ ([⟨"s", "linear", (100000 : ℝ), 0, 0, 1⟩] : List (Curve ℝ)),
        0 ≤ c.totalDemand ∧ (c.type ≠ "linear" → 0 < c.curveWidth))
    ∧ ((∀ c ∈ ([⟨"s", "linear", (100000 : ℝ), 0, 0, 1⟩] : List (Curve ℝ)),
        (simulateCurves 0 [⟨"s", "linear", 100000, 0, 0, 1⟩] 30).utilizationByCurve c.id = 0
          ∧ (simulateCurves 0 [⟨"s", "linear", 100000, 0, 0, 1⟩] 30).shedByCurve c.id
            = (curveDemandArray c).sum)
      ∧ (simulateCurves 0 [⟨"s", "linear", 100000, 0, 0, 1⟩] 30).totalUtilization = 0
      ∧ ∀ c ∈ ([⟨"s", "linear", (100000 : ℝ), 0, 0, 1⟩] : List (Curve ℝ)),
          c.type = "linear"
          → (simulateCurves 0 [⟨"s", "linear", 100000, 0, 0, 1⟩] 30).shedByCurve c.id
            = c.totalDemand) := by
  have hnd : (([⟨"s", "linear", (100000 : ℝ), 0, 0, 1⟩] :
      List (Curve ℝ)).map Curve.id).Nodup := by decide
  have hvalid : ∀ c ∈ ([⟨"s", "linear", (100000 : ℝ), 0, 0, 1⟩] :
      List (Curve ℝ)),
      0 ≤ c.totalDemand ∧ (c.type ≠ "linear" → 0 < c.curveWidth) := by
    intro c hc
    rw [List.mem_singleton.mp hc]
    exact ⟨by norm_num, fun h => absurd rfl h⟩
  exact ⟨hnd, hvalid,
    C6_zero_capacity [⟨"s", "linear", 100000, 0, 0, 1⟩] 30 hnd hvalid⟩

/-- C6 counterexample: with capacity 0 and a valid Gaussian source of extreme
width, the source's shed total is nowhere near its configured totalVolume, so
"shed == totalVolume exactly for every source" fails. -/
theorem C6_counterexample :
    ¬ ((simulateCurves 0 [⟨"g", "gaussian", 100000, 15, 1000000, 1⟩]
        30).shedByCurve "g" = 100000) := by
  have hnd : (([⟨"g", "gaussian", (100000 : ℝ), 15, 1000000, 1⟩] :
      List (Curve ℝ)).map Curve.id).Nodup := by decide
  have hvalid : ∀ c ∈ ([⟨"g", "gaussian", (100000 : ℝ), 15, 1000000, 1⟩] :
      List (Curve ℝ)),
      0 ≤ c.totalDemand ∧ (c.type ≠ "linear" → 0 < c.curveWidth) := by
    intro c hc
    rw [List.mem_singleton.mp hc]
    exact ⟨by norm_num, fun _ => by norm_num⟩
  have hshed : (simulateCurves 0 [⟨"g", "gaussian", 100000, 15, 1000000, 1⟩]
      30).shedByCurve "g"
      = (curveDemandArray
        (⟨"g", "gaussian", 100000, 15, 1000000, 1⟩ : Curve ℝ)).sum :=
    ((C6_zero_capacity [⟨"g", "gaussian", 100000, 15, 1000000, 1⟩] 30 hnd
      hvalid).1 ⟨"g", "gaussian", 100000, 15, 1000000, 1⟩
      (List.mem_singleton.mpr rfl)).2
  rw [hshed, extremeGaussian_array]
  obtain ⟨h0, h12⟩ := extremeGaussian_sum_bounds
  intro h
  rw [h] at h12
  norm_num at h12

/-! ### Claim C7 — capacity and non-negativity invariants -/

section CapacityInvariant

variable {α : Type} [LinearOrderedField α]

/-- Serving leaves the remaining capacity non-negative whenever it starts
non-negative. -/
theorem serveItems_avail_nonneg (avail : α) (q : List (QItem α))
    (h : 0 ≤ avail) : 0 ≤ (serveItems avail q).2.1 := by
  induction q generalizing avail with
  | nil => simpa [serveItems]
  | cons it rest ih =>
    by_cases hp : 0 < avail
    · simp only [serveItems, hp, if_true]
      exact ih (avail - min it.demand avail)
        (by
          have : min it.demand avail ≤ avail := min_le_right _ _
          linarith)
    · simpa [serveItems, hp]

/-- What the queue loop serves is non-negative when queue items are. -/
theorem serveItems_served_nonneg (avail : α) (q : List (QItem α))
    (h : ∀ it ∈ q, 0 ≤ it.demand) : 0 ≤ (serveItems avail q).2.2 := by
  induction q generalizing avail with
  | nil => simp [serveItems]
  | cons it rest ih =>
    by_cases hp : 0 < avail
    · simp only [serveItems, hp, if_true]
      have h1 : 0 ≤ min it.demand avail :=
        le_min (h it (List.mem_cons_self it rest)) (le_of_lt hp)
      have h2 := ih (avail - min it.demand avail)
        (fun x hx => h x (List.mem_cons_of_mem it hx))
      linarith
    · simp [serveItems, hp]

/-- One curve's processing step keeps the available capacity non-negative
and never decreases the accumulated usage (given non-negative demand and
non-negative queued items). -/
theorem processCurve_bounds (dm : DemandMap α) (n : ℕ)
    (acc : α × α × SimState α) (c : Curve α)
    (ha : 0 ≤ acc.1) (hd : 0 ≤ demandAt dm c.id n)
    (hq : ∀ it ∈ acc.2.2.queuesByCurve c.id, 0 ≤ it.demand) :
    0 ≤ (processCurve dm n acc c).1
      ∧ acc.2.1 ≤ (processCurve dm n acc c).2.1 := by
  have havail1 : 0 ≤ acc.1 - min (demandAt dm c.id n) acc.1 := by
    have : min (demandAt dm c.id n) acc.1 ≤ acc.1 := min_le_right _ _
    linarith
  have hq1 : ∀ it ∈ (if 0 < demandAt dm c.id n
        - min (demandAt dm c.id n) acc.1 then
      acc.2.2.queuesByCurve c.id
        ++ [⟨n, demandAt dm c.id n - min (demandAt dm c.id n) acc.1, c.id,
          c.priority⟩]
      else acc.2.2.queuesByCurve c.id), 0 ≤ it.demand := by
    by_cases hex : 0 < demandAt dm c.id n - min (demandAt dm c.id n) acc.1
    · rw [if_pos hex]
      intro it hit
      rcases List.mem_append.mp hit with hit | hit
      · exact hq it hit
      · rcases List.mem_singleton.mp hit with rfl
        exact le_of_lt hex
    · rw [if_neg hex]
      exact hq
  have hq2 : ∀ it ∈ sortByArrival (if 0 < demandAt dm c.id n
        - min (demandAt dm c.id n) acc.1 then
      acc.2.2.queuesByCurve c.id
        ++ [⟨n, demandAt dm c.id n - min (demandAt dm c.id n) acc.1, c.id,
          c.priority⟩]
      else acc.2.2.queuesByCurve c.id), 0 ≤ it.demand := by
    intro it hit
    exact hq1 it ((sortByArrival_perm _).mem_iff.mp hit)
  constructor
  · show 0 ≤ (serveItems _ _).2.1
    exact serveItems_avail_nonneg _ _ havail1
  · show acc.2.1
      ≤ acc.2.1 + (min (demandAt dm c.id n) acc.1 + (serveItems _ _).2.2)
    have h1 : 0 ≤ min (demandAt dm c.id n) acc.1 := le_min hd ha
    have h2 := serveItems_served_nonneg
      (acc.1 - min (demandAt dm c.id n) acc.1) _ hq2
    linarith

/-- The bounds propagate through any prefix of the processing fold. -/
theorem processFold_bounds (dm : DemandMap α) (n : ℕ) (l : List (Curve α))
    (acc : α × α × SimState α) (ha : 0 ≤ acc.1)
    (hd : ∀ k, 0 ≤ demandAt dm k n)
    (hq : ∀ k, ∀ it ∈ acc.2.2.queuesByCurve k, 0 < it.demand) :
    0 ≤ (l.foldl (processCurve dm n) acc).1
      ∧ acc.2.1 ≤ (l.foldl (processCurve dm n) acc).2.1 := by
  induction l generalizing acc with
  | nil => exact ⟨ha, le_refl _⟩
  | cons c l ih =>
    obtain ⟨p1, p2⟩ := processCurve_bounds dm n acc c ha (hd c.id)
      (fun it hit => le_of_lt (hq c.id it hit))
    obtain ⟨q1, q2⟩ := ih (processCurve dm n acc c) p1
      (processCurve_pos dm n acc c hq)
    refine ⟨?_, ?_⟩ <;> rw [List.foldl_cons]
    · exact q1
    · exact le_trans p2 q2

/-- Wrapper: demand trace entries are untouched by expiry. -/
theorem expireStep_demandValues (curves : List (Curve α)) (t n : ℕ)
    (st : SimState α) :
    (expireStep curves t n st).1.demandValues = st.demandValues :=
  (expireFold_fields t n curves (st, 0)).2.2.2.1

/-- Wrapper: demand trace entries are untouched by the processing fold. -/
theorem afterProcess_demandValues (machines : α) (curves : List (Curve α))
    (dm : DemandMap α) (t : ℕ) (st : SimState α) (n : ℕ) :
    (afterProcess machines curves dm t st n).2.2.demandValues
      = st.demandValues :=
  by
  have h := (processFold_fields dm n (sortByPrio curves)
    (machines, 0, (expireStep curves t n st).1)).2.2.2.1
  rw [show (afterProcess machines curves dm t st n).2.2.demandValues
      = ((sortByPrio curves).foldl (processCurve dm n)
        (machines, 0, (expireStep curves t n st).1)).2.2.demandValues from rfl,
    h, expireStep_demandValues]

/-- Each minute appends one trace entry whose usage is the minute's
accumulated usage. -/
theorem stepMinute_demandValues_mem (machines : α) (curves : List (Curve α))
    (dm : DemandMap α) (t : ℕ) (st : SimState α) (n : ℕ) :
    ∀ e ∈ (stepMinute machines curves dm t st n).demandValues,
      e ∈ st.demandValues
        ∨ e.usage = (afterProcess machines curves dm t st n).2.1 := by
  intro e he
  by_cases hmod : n % 5 = 0 <;>
    simp only [stepMinute, hmod, if_true, if_false] at he <;>
    rw [List.mem_append] at he <;>
    rcases he with he | he
  · left
    rwa [show ((sortByPrio curves).foldl (processCurve dm n)
        (machines, 0, (expireStep curves t n st).1)).2.2.demandValues
        = st.demandValues from afterProcess_demandValues
          machines curves dm t st n] at he
  · right
    rcases List.mem_singleton.mp he with rfl
    rfl
  · left
    rwa [show ((sortByPrio curves).foldl (processCurve dm n)
        (machines, 0, (expireStep curves t n st).1)).2.2.demandValues
        = st.demandValues from afterProcess_demandValues
          machines curves dm t st n] at he
  · right
    rcases List.mem_singleton.mp he with rfl
    rfl

/-- The minute's usage equals capacity minus the (non-negative) leftover. -/
theorem afterProcess_usage_eq (machines : α) (curves : List (Curve α))
    (dm : DemandMap α) (t : ℕ) (st : SimState α) (n : ℕ) :
    (afterProcess machines curves dm t st n).2.1
      = machines - (afterProcess machines curves dm t st n).1 := by
  have h := processFold_avail dm n (sortByPrio curves)
    (machines, 0, (expireStep curves t n st).1)
  have h' : (afterProcess machines curves dm t st n).1
      = machines - ((afterProcess machines curves dm t st n).2.1 - 0) := h
  linarith

end CapacityInvariant

/-- C7: in every run with non-negative capacity and validly parameterised
sources, (i) every per-minute trace entry's served amount lies between 0 and
the capacity, (ii) the available capacity is non-negative after processing
any prefix of the priority-ordered curves in any minute, and (iii) no queued
item's remaining magnitude ever drops to or below zero at any minute. -/
theorem C7_capacity_invariant (machines : ℝ) (curves : List (Curve ℝ))
    (t : ℕ) (hm : 0 ≤ machines)
    (hvalid : ∀ c ∈ curves,
      0 ≤ c.totalDemand ∧ (c.type ≠ "linear" → 0 < c.curveWidth)) :
    (∀ e ∈ (simulateCurves machines curves t).demandValues,
      0 ≤ e.usage ∧ e.usage ≤ machines)
    ∧ (∀ (n : ℕ) (l₁ l₂ : List (Curve ℝ)), sortByPrio curves = l₁ ++ l₂ →
        0 ≤ (l₁.foldl (processCurve (buildDemandMap curves) n)
          (machines, 0,
            (expireStep curves t n
              (stepsUpTo machines curves (buildDemandMap curves) t n)).1)).1)
    ∧ ∀ (n : ℕ) (k : String),
        ∀ it ∈ (stepsUpTo machines curves (buildDemandMap curves) t
          n).queuesByCurve k, 0 < it.demand := by
  have hd := demandAt_nonneg curves hvalid
  have hpos := stepsUpTo_pos machines curves (buildDemandMap curves) t
  refine ⟨?_, ?_, fun n => hpos n⟩
  · have hdv : ∀ n, ∀ e ∈ (stepsUpTo machines curves (buildDemandMap curves)
        t n).demandValues, 0 ≤ e.usage ∧ e.usage ≤ machines := by
      intro n
      induction n with
      | zero => intro e he; simp [stepsUpTo, initState] at he
      | succ n ih =>
        intro e he
        rcases stepMinute_demandValues_mem machines curves
          (buildDemandMap curves) t _ n e he with he' | he'
        · exact ih e he'
        · have hq := expireStep_pos curves t n _ (hpos n)
          obtain ⟨b1, b2⟩ := processFold_bounds (buildDemandMap curves) n
            (sortByPrio curves)
            (machines, 0, (expireStep curves t n
              (stepsUpTo machines curves (buildDemandMap curves) t n)).1)
            hm (fun k => hd k n) hq
          have husage := afterProcess_usage_eq machines curves
            (buildDemandMap curves) t
            (stepsUpTo machines curves (buildDemandMap curves) t n) n
          have hb2 : (0 : ℝ) ≤ (afterProcess machines curves
              (buildDemandMap curves) t
              (stepsUpTo machines curves (buildDemandMap curves) t n) n).2.1 :=
            b2
          have hb1 : (0 : ℝ) ≤ (afterProcess machines curves
              (buildDemandMap curves) t
              (stepsUpTo machines curves (buildDemandMap curves) t n) n).1 :=
            b1
          rw [he']
          constructor
          · exact hb2
          · linarith
    intro e he
    apply hdv 1440
    have hdrain : (simulateCurves machines curves t).demandValues
        = (stepsUpTo machines curves (buildDemandMap curves) t
          1440).demandValues := by
      show (finalDrain curves _).demandValues = _
      suffices hgen : ∀ (l : List (Curve ℝ)) (st : SimState ℝ),
          (finalDrain l st).demandValues = st.demandValues by
        exact hgen curves _
      intro l
      induction l with
      | nil => intro st; rfl
      | cons c l ihl =>
        intro st
        show (finalDrain l _).demandValues = _
        rw [ihl]
        exact (drainQueue_parts c.id (st.queuesByCurve c.id) st).2.2.2.1
    rwa [hdrain] at he
  · intro n l₁ l₂ hsplit
    have hq := expireStep_pos curves t n _ (hpos n)
    exact (processFold_bounds (buildDemandMap curves) n l₁
      (machines, 0, (expireStep curves t n
        (stepsUpTo machines curves (buildDemandMap curves) t n)).1)
      hm (fun k => hd k n) hq).1

/-- Witness for C7: the invariant theorem applied to one linear source with
capacity 100 and timeout 30. -/
theorem C7_capacity_invariant_witness :
    ((0 : ℝ) ≤ 100)
    ∧ (∀ c ∈ ([⟨"s", "linear", (144000 : ℝ), 0, 0, 1⟩] : List (Curve ℝ)),
        0 ≤ c.totalDemand ∧ (c.type ≠ "linear" → 0 < c.curveWidth))
    ∧ ((∀ e ∈ (simulateCurves 100 [⟨"s", "linear", 144000, 0, 0, 1⟩]
          30).demandValues, 0 ≤ e.usage ∧ e.usage ≤ 100)
      ∧ (∀ (n : ℕ) (l₁ l₂ : List (Curve ℝ)),
          sortByPrio [⟨"s", "linear", (144000 : ℝ), 0, 0, 1⟩] = l₁ ++ l₂ →
          0 ≤ (l₁.foldl (processCurve
            (buildDemandMap [⟨"s", "linear", 144000, 0, 0, 1⟩]) n)
            ((100 : ℝ), 0,
              (expireStep [⟨"s", "linear", 144000, 0, 0, 1⟩] 30 n
                (stepsUpTo 100 [⟨"s", "linear", 144000, 0, 0, 1⟩]
                  (buildDemandMap [⟨"s", "linear", 144000, 0, 0, 1⟩]) 30
                  n)).1)).1)
      ∧ ∀ (n : ℕ) (k : String),
          ∀ it ∈ (stepsUpTo 100 [⟨"s", "linear", 144000, 0, 0, 1⟩]
            (buildDemandMap [⟨"s", "linear", 144000, 0, 0, 1⟩]) 30
            n).queuesByCurve k, 0 < it.demand) := by
  have hm : (0 : ℝ) ≤ 100 := by norm_num
  have hvalid : ∀ c ∈ ([⟨"s", "linear", (144000 : ℝ), 0, 0, 1⟩] :
      List (Curve ℝ)),
      0 ≤ c.totalDemand ∧ (c.type ≠ "linear" → 0 < c.curveWidth) := by
    intro c hc
    rw [List.mem_singleton.mp hc]
    exact ⟨by norm_num, fun h => absurd rfl h⟩
  exact ⟨hm, hvalid,
    C7_capacity_invariant 100 [⟨"s", "linear", 144000, 0, 0, 1⟩] 30 hm hvalid⟩

/-! ### Claim C4 — admission order and FIFO -/

section FifoLemmas

variable {α : Type} [LinearOrderedField α]

/-- The remaining mass of the queue items that arrived at minute `θ` or
later. -/
def arrivalMassFrom (θ : ℕ) (q : List (QItem α)) : α :=
  queueMass (q.filter fun it => θ ≤ it.arrivalTime)

omit [LinearOrderedField α] in
theorem getD_replicate {β : Type} [Inhabited β] (v d : β) (n m : ℕ)
    (h : m < n) : (List.replicate n v).getD m d = v := by
  induction n generalizing m with
  | zero => omega
  | succ n ih =>
    cases m with
    | zero => rfl
    | succ m =>
      simp only [List.replicate_succ, List.getD_cons_succ]
      exact ih m (by omega)

theorem arrivalMassFrom_cons (θ : ℕ) (it : QItem α) (q : List (QItem α)) :
    arrivalMassFrom θ (it :: q)
      = (if θ ≤ it.arrivalTime then it.demand else 0)
        + arrivalMassFrom θ q := by
  unfold arrivalMassFrom
  by_cases h : θ ≤ it.arrivalTime
  · simp [List.filter_cons, h, queueMass_cons]
  · simp [List.filter_cons, h]

theorem arrivalMassFrom_nonneg (θ : ℕ) (q : List (QItem α))
    (h : ∀ it ∈ q, 0 ≤ it.demand) : 0 ≤ arrivalMassFrom θ q := by
  unfold arrivalMassFrom
  rw [queueMass_eq_sum]
  apply List.sum_nonneg
  intro x hx
  simp only [List.mem_map] at hx
  obtain ⟨it, hit, rfl⟩ := hx
  exact h it (List.mem_of_mem_filter hit)

theorem arrivalMassFrom_le (θ : ℕ) (q : List (QItem α))
    (h : ∀ it ∈ q, 0 ≤ it.demand) : arrivalMassFrom θ q ≤ queueMass q := by
  induction q with
  | nil => simp [arrivalMassFrom, queueMass]
  | cons it rest ih =>
    have hit := h it (List.mem_cons_self it rest)
    have hrest := ih fun x hx => h x (List.mem_cons_of_mem it hx)
    rw [arrivalMassFrom_cons, queueMass_cons]
    by_cases hc : θ ≤ it.arrivalTime
    · rw [if_pos hc]
      linarith
    · rw [if_neg hc]
      linarith

theorem arrivalMassFrom_all (θ : ℕ) (q : List (QItem α))
    (h : ∀ it ∈ q, θ ≤ it.arrivalTime) :
    arrivalMassFrom θ q = queueMass q := by
  unfold arrivalMassFrom
  rw [List.filter_eq_self.mpr]
  intro it hit
  simpa using h it hit

omit [LinearOrderedField α] in
theorem insertByArrival_sorted (it : QItem α) (q : List (QItem α))
    (h : q.Pairwise fun a b => a.arrivalTime ≤ b.arrivalTime) :
    (insertByArrival it q).Pairwise
      fun a b => a.arrivalTime ≤ b.arrivalTime := by
  induction q with
  | nil => simp [insertByArrival]
  | cons x xs ih =>
    rw [List.pairwise_cons] at h
    obtain ⟨hx, hxs⟩ := h
    by_cases hle : it.arrivalTime ≤ x.arrivalTime
    · rw [insertByArrival, if_pos hle]
      rw [List.pairwise_cons]
      constructor
      · intro y hy
        rcases List.mem_cons.mp hy with rfl | hy
        · exact hle
        · exact le_trans hle (hx y hy)
      · rw [List.pairwise_cons]
        exact ⟨hx, hxs⟩
    · rw [insertByArrival, if_neg hle]
      rw [List.pairwise_cons]
      constructor
      · intro y hy
        rcases List.mem_cons.mp
            ((insertByArrival_perm it xs).mem_iff.mp hy) with rfl | hy
        · exact le_of_lt (lt_of_not_le hle)
        · exact hx y hy
      · exact ih hxs

omit [LinearOrderedField α] in
/-- The queue sort indeed sorts by arrival time. -/
theorem sortByArrival_sorted (q : List (QItem α)) :
    (sortByArrival q).Pairwise fun a b => a.arrivalTime ≤ b.arrivalTime := by
  induction q with
  | nil => simp [sortByArrival]
  | cons x xs ih => exact insertByArrival_sorted x (sortByArrival xs) ih

/-- FIFO characterisation of the queue-serving loop: on a queue sorted by
arrival time with non-negative items, the remaining mass of every
"arrived at `θ` or later" suffix is what is left after the older prefix has
absorbed the capacity first. -/
theorem serveItems_fifo (avail : α) (q : List (QItem α)) (θ : ℕ)
    (hs : q.Pairwise fun a b => a.arrivalTime ≤ b.arrivalTime)
    (hnn : ∀ it ∈ q, 0 ≤ it.demand) :
    arrivalMassFrom θ (serveItems avail q).1
      = max (min (arrivalMassFrom θ q) (queueMass q - avail)) 0 := by
  induction q generalizing avail with
  | nil =>
    simp [serveItems, arrivalMassFrom, queueMass]
  | cons it rest ih =>
    rw [List.pairwise_cons] at hs
    obtain ⟨hhead, hrest⟩ := hs
    have hitnn := hnn it (List.mem_cons_self it rest)
    have hrestnn : ∀ x ∈ rest, 0 ≤ x.demand :=
      fun x hx => hnn x (List.mem_cons_of_mem it hx)
    have hMθr0 := arrivalMassFrom_nonneg θ rest hrestnn
    have hMθr_le := arrivalMassFrom_le θ rest hrestnn
    have hMr0 : 0 ≤ queueMass rest := by
      rw [queueMass_eq_sum]
      apply List.sum_nonneg
      intro x hx
      simp only [List.mem_map] at hx
      obtain ⟨y, hy, rfl⟩ := hx
      exact hrestnn y hy
    by_cases hp : 0 < avail
    · simp only [serveItems, hp, if_true]
      rw [arrivalMassFrom_cons, arrivalMassFrom_cons, queueMass_cons,
        ih (avail - min it.demand avail) hrest hrestnn]
      by_cases hθ : θ ≤ it.arrivalTime
      · rw [if_pos hθ, if_pos hθ]
        have hall : arrivalMassFrom θ rest = queueMass rest :=
          arrivalMassFrom_all θ rest
            fun x hx => le_trans hθ (hhead x hx)
        rw [hall]
        rcases le_total it.demand avail with hda | had
        · rw [min_eq_left hda, sub_self, zero_add]
          rw [min_eq_right (by linarith :
            queueMass rest - (avail - it.demand) ≤ queueMass rest)]
          rw [min_eq_right (by linarith : it.demand + queueMass rest - avail
            ≤ it.demand + queueMass rest)]
          rw [show queueMass rest - (avail - it.demand)
            = it.demand + queueMass rest - avail by ring]
        · rw [min_eq_right had, sub_self, sub_zero, min_self,
            max_eq_left hMr0]
          rw [min_eq_right (by linarith : it.demand + queueMass rest - avail
            ≤ it.demand + queueMass rest)]
          rw [max_eq_left (by linarith :
            (0 : α) ≤ it.demand + queueMass rest - avail)]
          ring
      · rw [if_neg hθ, if_neg hθ]
        simp only [zero_add]
        rcases le_total it.demand avail with hda | had
        · rw [min_eq_left hda]
          rw [show queueMass rest - (avail - it.demand)
            = it.demand + queueMass rest - avail by ring]
        · rw [min_eq_right had, sub_self, sub_zero]
          rw [min_eq_left hMθr_le]
          rw [min_eq_left (by linarith : arrivalMassFrom θ rest
            ≤ it.demand + queueMass rest - avail)]
    · rw [serveItems_nonpos avail (it :: rest) hp]
      have hM : arrivalMassFrom θ (it :: rest)
          ≤ queueMass (it :: rest) - avail := by
        have h1 := arrivalMassFrom_le θ (it :: rest) hnn
        have h2 : ¬ 0 < avail := hp
        push_neg at h2
        linarith
      rw [min_eq_left hM,
        max_eq_left (arrivalMassFrom_nonneg θ (it :: rest) hnn)]

end FifoLemmas

/-- C4 counterexample: at a minute where a source has an older queued item
(arrival 5, remaining 100) and new demand 100 with available capacity 100,
the engine serves the NEW demand in full and leaves the older queued item
completely unserved — the new demand is not inserted-then-served on equal
FIFO footing, contradicting the claim that older arrivals are served
first. -/
theorem C4_counterexample :
    (processCurve
        (updMap (fun _ => ([] : List ℝ)) "a" (List.replicate 1440 (100 : ℝ)))
        10
        ((100 : ℝ), (0 : ℝ),
          { initState ℝ with
              queuesByCurve := updMap (fun _ => []) "a"
                [⟨5, 100, "a", 1⟩] })
        ⟨"a", "linear", 144000, 0, 0, 1⟩).2.2.queuesByCurve "a"
        = [⟨5, 100, "a", 1⟩]
      ∧ (processCurve
        (updMap (fun _ => ([] : List ℝ)) "a" (List.replicate 1440 (100 : ℝ)))
        10
        ((100 : ℝ), (0 : ℝ),
          { initState ℝ with
              queuesByCurve := updMap (fun _ => []) "a"
                [⟨5, 100, "a", 1⟩] })
        ⟨"a", "linear", 144000, 0, 0, 1⟩).2.1 = 100 := by
  have hdm : demandAt
      (updMap (fun _ => ([] : List ℝ)) "a" (List.replicate 1440 (100 : ℝ)))
      "a" 10 = 100 := by
    unfold demandAt
    rw [updMap_self]
    exact getD_replicate 100 0 1440 10 (by norm_num)
  have hmin : min (demandAt
      (updMap (fun _ => ([] : List ℝ)) "a" (List.replicate 1440 (100 : ℝ)))
      "a" 10) (100 : ℝ) = 100 := by
    rw [hdm, min_self]
  have hex : ¬ (0 : ℝ) < demandAt
      (updMap (fun _ => ([] : List ℝ)) "a" (List.replicate 1440 (100 : ℝ)))
      "a" 10 - min (demandAt
      (updMap (fun _ => ([] : List ℝ)) "a" (List.replicate 1440 (100 : ℝ)))
      "a" 10) 100 := by
    rw [hdm]
    norm_num
  have h100 : (0 : ℝ) < 100 := by norm_num
  constructor
  · simp only [processCurve]
    rw [updMap_self, if_neg hex, updMap_self, hmin]
    rw [show sortByArrival [(⟨5, 100, "a", 1⟩ : QItem ℝ)]
        = [⟨5, 100, "a", 1⟩] from rfl]
    rw [show (100 : ℝ) - 100 = 0 by norm_num,
      serveItems_nonpos 0 [(⟨5, (100 : ℝ), "a", 1⟩ : QItem ℝ)] (lt_irrefl 0)]
    simp [List.filter_cons, h100]
  · simp only [processCurve]
    rw [if_neg hex, updMap_self, hmin]
    rw [show sortByArrival [(⟨5, 100, "a", 1⟩ : QItem ℝ)]
        = [⟨5, 100, "a", 1⟩] from rfl]
    rw [show (100 : ℝ) - 100 = 0 by norm_num,
      serveItems_nonpos 0 [(⟨5, (100 : ℝ), "a", 1⟩ : QItem ℝ)] (lt_irrefl 0)]
    norm_num

/-- C4 (amended): each minute a source's NEW demand is admitted first —
when the available capacity does not exceed the minute's demand, all of it
goes to the new demand and every positive older queued item of the source
survives untouched; the queue (old items plus the freshly queued excess) is
kept sorted by arrival time and is then served strictly oldest-arrival-first
with the remaining capacity, in the sense that for every threshold θ the
remaining mass of the "arrived at θ or later" items equals the total queue
mass minus capacity, clipped to that suffix mass and to 0. -/
theorem C4_admission_order :
    (∀ (dm : DemandMap ℝ) (n : ℕ) (acc : ℝ × ℝ × SimState ℝ) (c : Curve ℝ),
      acc.1 ≤ demandAt dm c.id n →
        ∀ it ∈ acc.2.2.queuesByCurve c.id, 0 < it.demand →
          it ∈ (processCurve dm n acc c).2.2.queuesByCurve c.id)
    ∧ (∀ q : List (QItem ℝ), (sortByArrival q).Pairwise
        fun a b => a.arrivalTime ≤ b.arrivalTime)
    ∧ (∀ (avail : ℝ) (q : List (QItem ℝ)) (θ : ℕ),
        q.Pairwise (fun a b => a.arrivalTime ≤ b.arrivalTime) →
        (∀ it ∈ q, 0 ≤ it.demand) →
        arrivalMassFrom θ (serveItems avail q).1
          = max (min (arrivalMassFrom θ q) (queueMass q - avail)) 0) := by
  refine ⟨?_, sortByArrival_sorted, serveItems_fifo⟩
  intro dm n acc c hle it hit hpos
  have hmin : min (demandAt dm c.id n) acc.1 = acc.1 := min_eq_right hle
  simp only [processCurve]
  rw [updMap_self, hmin, sub_self, serveItems_nonpos 0 _ (lt_irrefl 0)]
  apply List.mem_filter.mpr
  refine ⟨(sortByArrival_perm _).mem_iff.mpr ?_, decide_eq_true hpos⟩
  by_cases hex : 0 < demandAt dm c.id n - acc.1
  · rw [if_pos hex]
    exact List.mem_append_left _ hit
  · rw [if_neg hex]
    exact hit

/-- Witness for C4_admission_order at concrete inputs. -/
theorem C4_admission_order_witness :
    ((⟨5, (100 : ℝ), "a", 1⟩ : QItem ℝ) ∈
      (processCurve
        (updMap (fun _ => ([] : List ℝ)) "a" (List.replicate 1440 (100 : ℝ)))
        10
        ((100 : ℝ), (0 : ℝ),
          { initState ℝ with
              queuesByCurve := updMap (fun _ => []) "a"
                [⟨5, 100, "a", 1⟩] })
        ⟨"a", "linear", 144000, 0, 0, 1⟩).2.2.queuesByCurve "a")
    ∧ arrivalMassFrom 5 (serveItems (30 : ℝ)
        [⟨3, (20 : ℝ), "a", 1⟩, ⟨5, (40 : ℝ), "a", 1⟩]).1
      = max (min
          (arrivalMassFrom 5 [⟨3, (20 : ℝ), "a", 1⟩, ⟨5, (40 : ℝ), "a", 1⟩])
          (queueMass [(⟨3, (20 : ℝ), "a", 1⟩ : QItem ℝ), ⟨5, 40, "a", 1⟩]
            - 30)) 0 := by
  constructor
  · apply C4_admission_order.1
    · show (100 : ℝ) ≤ demandAt
        (updMap (fun _ => ([] : List ℝ)) "a" (List.replicate 1440 (100 : ℝ)))
        "a" 10
      unfold demandAt
      rw [updMap_self, getD_replicate 100 0 1440 10 (by norm_num)]
    · show (⟨5, (100 : ℝ), "a", 1⟩ : QItem ℝ)
        ∈ updMap (fun _ => []) "a" [⟨5, (100 : ℝ), "a", 1⟩] "a"
      rw [updMap_self]
      exact List.mem_singleton.mpr rfl
    · norm_num
  · apply C4_admission_order.2.2
    · refine List.Pairwise.cons ?_ (List.pairwise_singleton _ _)
      intro y hy
      rcases List.mem_singleton.mp hy with rfl
      show (3 : ℕ) ≤ 5
      norm_num
    · intro x hx
      rcases List.mem_cons.mp hx with rfl | hx
      · norm_num
      · rcases List.mem_singleton.mp hx with rfl
        norm_num

/-! ### Saturated runs: closed-form utilisation for constant-demand configs -/

section SaturatedRuns

variable {α : Type} [LinearOrderedField α]

/-- When a curve's demand is at least the available capacity, the whole
capacity goes to the immediate service and the queue-serving loop gets
nothing: the fold continues with 0 available and the usage accumulator grew
by exactly the old available capacity. -/
theorem processCurve_saturated (dm : DemandMap α) (n : ℕ)
    (acc : α × α × SimState α) (c : Curve α)
    (h : acc.1 ≤ demandAt dm c.id n) :
    (processCurve dm n acc c).1 = 0
      ∧ (processCurve dm n acc c).2.1 = acc.2.1 + acc.1 := by
  have hmin : min (demandAt dm c.id n) acc.1 = acc.1 := min_eq_right h
  constructor
  · simp only [processCurve]
    rw [hmin, sub_self, serveItems_nonpos 0 _ (lt_irrefl 0)]
  · simp only [processCurve]
    rw [hmin, sub_self, serveItems_nonpos 0 _ (lt_irrefl 0)]
    ring

/-- Two-curve configuration in which the first processed curve saturates the
capacity every minute: it absorbs the full capacity each minute and the
second curve is never served at all. -/
theorem twoCurve_util (machines : α) (A B : Curve α) (dm : DemandMap α)
    (t : ℕ) (hAB : A.id ≠ B.id)
    (hsort : sortByPrio [A, B] = [A, B])
    (hA : ∀ n, n < 1440 → machines ≤ demandAt dm A.id n)
    (hB : ∀ n, n < 1440 → 0 ≤ demandAt dm B.id n) :
    ∀ n, n ≤ 1440 →
      (stepsUpTo machines [A, B] dm t n).utilizationByCurve A.id
          = machines * n
        ∧ (stepsUpTo machines [A, B] dm t n).utilizationByCurve B.id = 0 := by
  intro n
  induction n with
  | zero =>
    intro _
    constructor
    · show (0 : α) = machines * ((0 : ℕ) : α)
      push_cast
      ring
    · rfl
  | succ n ih =>
    intro hn
    have hlt : n < 1440 := by omega
    obtain ⟨ihA, ihB⟩ := ih (by omega)
    obtain ⟨_, h2, _, _, _, _⟩ :=
      stepMinute_parts machines [A, B] dm t
        (stepsUpTo machines [A, B] dm t n) n
    have hafter : afterProcess machines [A, B] dm t
        (stepsUpTo machines [A, B] dm t n) n
        = processCurve dm n
            (processCurve dm n
              (machines, 0,
                (expireStep [A, B] t n
                  (stepsUpTo machines [A, B] dm t n)).1) A) B := by
      unfold afterProcess
      rw [hsort]
      rfl
    have hsat1 := processCurve_saturated dm n
      (machines, (0 : α),
        (expireStep [A, B] t n (stepsUpTo machines [A, B] dm t n)).1) A
      (hA n hlt)
    have hsat2 := processCurve_saturated dm n
      (processCurve dm n
        (machines, (0 : α),
          (expireStep [A, B] t n (stepsUpTo machines [A, B] dm t n)).1) A) B
      (by rw [hsat1.1]; exact hB n hlt)
    have hu1 := processCurve_util_upd dm n
      (machines, (0 : α),
        (expireStep [A, B] t n (stepsUpTo machines [A, B] dm t n)).1) A
    have hu2 := processCurve_util_upd dm n
      (processCurve dm n
        (machines, (0 : α),
          (expireStep [A, B] t n (stepsUpTo machines [A, B] dm t n)).1) A) B
    have hexp := congrFun (expireStep_util [A, B] t n
      (stepsUpTo machines [A, B] dm t n))
    constructor
    · show (stepMinute machines [A, B] dm t
          (stepsUpTo machines [A, B] dm t n) n).utilizationByCurve A.id = _
      rw [congrFun h2 A.id, hafter, hu2, updMap_ne _ _ _ _ hAB, hu1,
        updMap_self, hsat1.2, hexp A.id, ihA]
      push_cast
      ring
    · show (stepMinute machines [A, B] dm t
          (stepsUpTo machines [A, B] dm t n) n).utilizationByCurve B.id = _
      rw [congrFun h2 B.id, hafter, hu2, updMap_self, hu1,
        updMap_ne _ _ _ _ (Ne.symm hAB), hsat2.2, hsat1.1, hexp B.id, ihB]
      ring

/-- Single-curve configuration whose demand is at least the capacity every
minute: the curve absorbs the full capacity each minute (also when the
"capacity" is negative, in which case the negative amount is recorded). -/
theorem oneCurve_util (machines : α) (A : Curve α) (dm : DemandMap α)
    (t : ℕ)
    (hA : ∀ n, n < 1440 → machines ≤ demandAt dm A.id n) :
    ∀ n, n ≤ 1440 →
      (stepsUpTo machines [A] dm t n).utilizationByCurve A.id
        = machines * n := by
  intro n
  induction n with
  | zero =>
    intro _
    show (0 : α) = machines * ((0 : ℕ) : α)
    push_cast
    ring
  | succ n ih =>
    intro hn
    have hlt : n < 1440 := by omega
    obtain ⟨_, h2, _, _, _, _⟩ :=
      stepMinute_parts machines [A] dm t (stepsUpTo machines [A] dm t n) n
    have hafter : afterProcess machines [A] dm t
        (stepsUpTo machines [A] dm t n) n
        = processCurve dm n
            (machines, 0,
              (expireStep [A] t n (stepsUpTo machines [A] dm t n)).1) A := by
      unfold afterProcess
      rfl
    have hsat1 := processCurve_saturated dm n
      (machines, (0 : α),
        (expireStep [A] t n (stepsUpTo machines [A] dm t n)).1) A
      (hA n hlt)
    have hu1 := processCurve_util_upd dm n
      (machines, (0 : α),
        (expireStep [A] t n (stepsUpTo machines [A] dm t n)).1) A
    have hexp := congrFun (expireStep_util [A] t n
      (stepsUpTo machines [A] dm t n))
    show (stepMinute machines [A] dm t
        (stepsUpTo machines [A] dm t n) n).utilizationByCurve A.id = _
    rw [congrFun h2 A.id, hafter, hu1, updMap_self, hsat1.2, hexp A.id,
      ih (by omega)]
    push_cast
    ring

end SaturatedRuns

/-- The per-minute demand the engine reads for a configured linear curve. -/
theorem demandAt_linear (curves : List (Curve ℝ)) (c : Curve ℝ)
    (hnd : (curves.map Curve.id).Nodup) (hc : c ∈ curves)
    (hlin : c.type = "linear") (n : ℕ) (hn : n < 1440) :
    demandAt (buildDemandMap curves) c.id n = c.totalDemand / 1440 := by
  unfold demandAt
  rw [buildDemandMap_mem curves c hnd hc]
  unfold curveDemandArray
  rw [if_pos hlin]
  exact getD_replicate _ _ _ _ hn

/-! ### Priority dominance machinery -/

section Dominance

variable {α : Type} [LinearOrderedField α]

omit [LinearOrderedField α] in
theorem insertByPrio_sorted (c : Curve α) (l : List (Curve α))
    (h : l.Pairwise fun a b => a.priority ≤ b.priority) :
    (insertByPrio c l).Pairwise fun a b => a.priority ≤ b.priority := by
  induction l with
  | nil => simp [insertByPrio]
  | cons x xs ih =>
    rw [List.pairwise_cons] at h
    obtain ⟨hx, hxs⟩ := h
    by_cases hle : c.priority ≤ x.priority
    · rw [insertByPrio, if_pos hle]
      rw [List.pairwise_cons]
      constructor
      · intro y hy
        rcases List.mem_cons.mp hy with rfl | hy
        · exact hle
        · exact le_trans hle (hx y hy)
      · rw [List.pairwise_cons]
        exact ⟨hx, hxs⟩
    · rw [insertByPrio, if_neg hle]
      rw [List.pairwise_cons]
      constructor
      · intro y hy
        rcases List.mem_cons.mp
            ((insertByPrio_perm c xs).mem_iff.mp hy) with rfl | hy
        · exact le_of_lt (lt_of_not_le hle)
        · exact hx y hy
      · exact ih hxs

omit [LinearOrderedField α] in
/-- The priority sort indeed sorts ascending by priority. -/
theorem sortByPrio_sorted (l : List (Curve α)) :
    (sortByPrio l).Pairwise fun a b => a.priority ≤ b.priority := by
  induction l with
  | nil => simp [sortByPrio]
  | cons x xs ih => exact insertByPrio_sorted x (sortByPrio xs) ih

omit [LinearOrderedField α] in
/-- A strictly highest-priority (numerically smallest) curve is processed
first: the priority sort puts it at the head. -/
theorem sortByPrio_head_min (l : List (Curve α)) (c : Curve α)
    (hc : c ∈ l) (hndl : l.Nodup)
    (htop : ∀ c' ∈ l, c' ≠ c → c.priority < c'.priority) :
    ∃ rest, sortByPrio l = c :: rest
      ∧ ∀ c' ∈ rest, c' ∈ l ∧ c' ≠ c := by
  have hperm := sortByPrio_perm l
  have hsorted := sortByPrio_sorted l
  cases hs : sortByPrio l with
  | nil =>
    rw [hs] at hperm
    exact absurd (hperm.mem_iff.mpr hc) (List.not_mem_nil c)
  | cons x xs =>
    rw [hs] at hperm hsorted
    have hcx : c ∈ x :: xs := hperm.mem_iff.mpr hc
    have hx : x = c := by
      rcases eq_or_ne x c with h | hne
      · exact h
      · have hxl : x ∈ l := hperm.mem_iff.mp (List.mem_cons_self x xs)
        have hlt := htop x hxl hne
        have hcxs : c ∈ xs := by
          rcases List.mem_cons.mp hcx with h | h
          · exact absurd h.symm hne
          · exact h
        have hle := (List.pairwise_cons.mp hsorted).1 c hcxs
        exact absurd hle (not_le.mpr hlt)
    subst hx
    have hnodup : (x :: xs).Nodup := hperm.nodup_iff.mpr hndl
    refine ⟨xs, rfl, ?_⟩
    intro c' hc'
    refine ⟨hperm.mem_iff.mp (List.mem_cons_of_mem x hc'), ?_⟩
    intro heq
    rw [heq] at hc'
    exact (List.nodup_cons.mp hnodup).1 hc'

/-- A curve whose demand fits in the available capacity and whose queue is
empty gets served in full immediately and its queue stays empty. -/
theorem processCurve_underCap (dm : DemandMap α) (n : ℕ)
    (acc : α × α × SimState α) (c : Curve α)
    (h : demandAt dm c.id n ≤ acc.1)
    (hq : acc.2.2.queuesByCurve c.id = []) :
    (processCurve dm n acc c).2.2.queuesByCurve c.id = []
      ∧ (processCurve dm n acc c).2.2.utilizationByCurve c.id
        = acc.2.2.utilizationByCurve c.id + demandAt dm c.id n := by
  have hmin : min (demandAt dm c.id n) acc.1 = demandAt dm c.id n :=
    min_eq_left h
  have hex : ¬ 0 < demandAt dm c.id n
      - min (demandAt dm c.id n) acc.1 := by
    rw [hmin]
    simp
  constructor
  · simp only [processCurve]
    rw [updMap_self, if_neg hex, hq]
    rfl
  · simp only [processCurve]
    rw [updMap_self, if_neg hex, hq, hmin]
    show acc.2.2.utilizationByCurve c.id + (demandAt dm c.id n + 0) = _
    ring

/-- Curves with other ids do not touch a given id's queue or utilisation. -/
theorem processFold_other (dm : DemandMap α) (n : ℕ) (l : List (Curve α))
    (acc : α × α × SimState α) (k : String)
    (hl : ∀ c' ∈ l, c'.id ≠ k) :
    (l.foldl (processCurve dm n) acc).2.2.queuesByCurve k
        = acc.2.2.queuesByCurve k
      ∧ (l.foldl (processCurve dm n) acc).2.2.utilizationByCurve k
        = acc.2.2.utilizationByCurve k := by
  induction l generalizing acc with
  | nil => exact ⟨rfl, rfl⟩
  | cons c' l ih =>
    rw [List.foldl_cons]
    have hk : k ≠ c'.id :=
      Ne.symm (hl c' (List.mem_cons_self c' l))
    obtain ⟨ih1, ih2⟩ := ih (processCurve dm n acc c')
      fun x hx => hl x (List.mem_cons_of_mem c' hx)
    rw [ih1, ih2, processCurve_queues_other dm n acc c' k hk,
      processCurve_util_other dm n acc c' k hk]
    exact ⟨rfl, rfl⟩

theorem traceSum_zero (dm : DemandMap α) (k : String) :
    traceSum dm k 0 = 0 := by
  simp [traceSum]

theorem traceSum_succ (dm : DemandMap α) (k : String) (n : ℕ) :
    traceSum dm k (n + 1) = traceSum dm k n + demandAt dm k n := by
  unfold traceSum
  rw [List.range_succ, List.map_append, List.sum_append]
  simp

/-- Invariant of a dominant curve (processed first, fitting the capacity
every minute): its queue stays empty and its utilisation ledger carries the
full demand read so far. -/
theorem dominant_invariant (machines : α) (curves : List (Curve α))
    (dm : DemandMap α) (t : ℕ) (c : Curve α) (rest : List (Curve α))
    (hsort : sortByPrio curves = c :: rest)
    (hrest : ∀ c' ∈ rest, c'.id ≠ c.id)
    (hfit : ∀ n, n < 1440 → demandAt dm c.id n ≤ machines) :
    ∀ n, n ≤ 1440 →
      (stepsUpTo machines curves dm t n).queuesByCurve c.id = []
        ∧ (stepsUpTo machines curves dm t n).utilizationByCurve c.id
          = traceSum dm c.id n := by
  intro n
  induction n with
  | zero =>
    intro _
    exact ⟨rfl, (traceSum_zero dm c.id).symm⟩
  | succ n ih =>
    intro hn
    have hlt : n < 1440 := by omega
    obtain ⟨ihq, ihu⟩ := ih (by omega)
    obtain ⟨h1, h2, _, _, _, _⟩ :=
      stepMinute_parts machines curves dm t
        (stepsUpTo machines curves dm t n) n
    have hq1 : (expireStep curves t n
        (stepsUpTo machines curves dm t n)).1.queuesByCurve c.id = [] := by
      rw [expireStep_queues, ihq]
      by_cases hm : c.id ∈ curves.map Curve.id
      · rw [if_pos hm]
        rfl
      · rw [if_neg hm]
    have hafter : afterProcess machines curves dm t
        (stepsUpTo machines curves dm t n) n
        = rest.foldl (processCurve dm n)
            (processCurve dm n
              (machines, 0,
                (expireStep curves t n
                  (stepsUpTo machines curves dm t n)).1) c) := by
      unfold afterProcess
      rw [hsort, List.foldl_cons]
    have hunder := processCurve_underCap dm n
      (machines, (0 : α),
        (expireStep curves t n (stepsUpTo machines curves dm t n)).1) c
      (hfit n hlt) hq1
    obtain ⟨hf1, hf2⟩ := processFold_other dm n rest
      (processCurve dm n
        (machines, (0 : α),
          (expireStep curves t n (stepsUpTo machines curves dm t n)).1) c)
      c.id hrest
    constructor
    · show (stepMinute machines curves dm t
          (stepsUpTo machines curves dm t n) n).queuesByCurve c.id = []
      rw [congrFun h1 c.id, hafter, hf1, hunder.1]
    · show (stepMinute machines curves dm t
          (stepsUpTo machines curves dm t n) n).utilizationByCurve c.id = _
      rw [congrFun h2 c.id, hafter, hf2, hunder.2, traceSum_succ,
        congrFun (expireStep_util curves t n
          (stepsUpTo machines curves dm t n)) c.id, ihu]

/-- Queue masses of non-negative queues are non-negative. -/
theorem queueMass_nonneg (q : List (QItem α))
    (h : ∀ it ∈ q, 0 ≤ it.demand) : 0 ≤ queueMass q := by
  rw [queueMass_eq_sum]
  apply List.sum_nonneg
  intro x hx
  simp only [List.mem_map] at hx
  obtain ⟨it, hit, rfl⟩ := hx
  exact h it hit

/-- Shed ledgers never go negative during the minute loop. -/
theorem stepsUpTo_shed_nonneg (machines : α) (curves : List (Curve α))
    (dm : DemandMap α) (t : ℕ) :
    ∀ (n : ℕ) (k : String),
      0 ≤ (stepsUpTo machines curves dm t n).shedByCurve k := by
  intro n
  induction n with
  | zero =>
    intro k
    exact le_refl 0
  | succ n ih =>
    intro k
    obtain ⟨_, _, h3, _, _, _⟩ :=
      stepMinute_parts machines curves dm t
        (stepsUpTo machines curves dm t n) n
    show 0 ≤ (stepMinute machines curves dm t
      (stepsUpTo machines curves dm t n) n).shedByCurve k
    rw [congrFun h3 k, congrFun (afterProcess_shed machines curves dm t
      (stepsUpTo machines curves dm t n) n) k, expireStep_shed]
    have hmass : 0 ≤ (if k ∈ curves.map Curve.id
        then queueMass (((stepsUpTo machines curves dm t n).queuesByCurve
          k).filter fun it => t + it.arrivalTime < n)
        else 0) := by
      by_cases hm : k ∈ curves.map Curve.id
      · rw [if_pos hm]
        apply queueMass_nonneg
        intro it hit
        exact le_of_lt (stepsUpTo_pos machines curves dm t n k it
          (List.mem_of_mem_filter hit))
      · rw [if_neg hm]
    have := ih k
    linarith

/-- Shed ledgers of a full run are non-negative. -/
theorem simulate_shed_nonneg (machines : α) (curves : List (Curve α))
    (dm : DemandMap α) (t : ℕ) (hnd : (curves.map Curve.id).Nodup)
    (k : String) :
    0 ≤ (simulate machines curves dm t).shedByCurve k := by
  obtain ⟨_, _, _, f4, _⟩ :=
    finalDrain_parts curves (stepsUpTo machines curves dm t 1440) hnd
  show 0 ≤ (finalDrain curves (stepsUpTo machines curves dm t 1440)).shedByCurve k
  rw [f4 k]
  have h1 := stepsUpTo_shed_nonneg machines curves dm t 1440 k
  have h2 : 0 ≤ (if k ∈ curves.map Curve.id
      then queueMass ((stepsUpTo machines curves dm t 1440).queuesByCurve k)
      else 0) := by
    by_cases hm : k ∈ curves.map Curve.id
    · rw [if_pos hm]
      apply queueMass_nonneg
      intro it hit
      exact le_of_lt (stepsUpTo_pos machines curves dm t 1440 k it hit)
    · rw [if_neg hm]
  linarith

end Dominance

/-- Entrywise upper bound for the demand the loop reads. -/
theorem getD_le (l : List ℝ) (b : ℝ) (hb : 0 ≤ b) (h : ∀ x ∈ l, x ≤ b)
    (m : ℕ) : l.getD m 0 ≤ b := by
  induction l generalizing m with
  | nil => simpa using hb
  | cons x xs ih =>
    cases m with
    | zero => simpa using h x (List.mem_cons_self x xs)
    | succ m =>
      simp only [List.getD_cons_succ]
      exact ih (fun y hy => h y (List.mem_cons_of_mem x hy)) m

/-! ### Claim C3 — priority dominance -/

/-- The spec's example scenario, priority-1 source. -/
def c3p1 : Curve ℝ := ⟨"p1", "linear", 216000, 0, 0, 1⟩

/-- The spec's example scenario, priority-2 source. -/
def c3p2 : Curve ℝ := ⟨"p2", "linear", 144000, 0, 0, 2⟩

/-- Extreme-width Gaussian source of highest priority. -/
def gWide : Curve ℝ := ⟨"g", "gaussian", 100000, 15, 1000000, 1⟩

/-- Lower-priority linear source competing for the same capacity. -/
def linLow : Curve ℝ := ⟨"l", "linear", 100000, 0, 0, 2⟩

theorem c3_sort : sortByPrio [c3p1, c3p2] = [c3p1, c3p2] := rfl

theorem c3_util_final :
    (simulateCurves 100 [c3p1, c3p2] 30).utilizationByCurve "p1" = 144000
      ∧ (simulateCurves 100 [c3p1, c3p2] 30).utilizationByCurve "p2" = 0 := by
  have hnd : ([c3p1, c3p2].map Curve.id).Nodup := by decide
  have hA : ∀ n, n < 1440 →
      (100 : ℝ) ≤ demandAt (buildDemandMap [c3p1, c3p2]) c3p1.id n := by
    intro n hn
    rw [demandAt_linear [c3p1, c3p2] c3p1 hnd (List.mem_cons_self _ _)
      rfl n hn]
    norm_num [c3p1]
  have hB : ∀ n, n < 1440 →
      (0 : ℝ) ≤ demandAt (buildDemandMap [c3p1, c3p2]) c3p2.id n := by
    intro n hn
    rw [demandAt_linear [c3p1, c3p2] c3p2 hnd (by simp) rfl n hn]
    norm_num [c3p2]
  have hAB : c3p1.id ≠ c3p2.id := by decide
  obtain ⟨h1, h2⟩ := twoCurve_util 100 c3p1 c3p2
    (buildDemandMap [c3p1, c3p2]) 30 hAB c3_sort hA hB 1440 (le_refl 1440)
  obtain ⟨_, f2, _, _, _⟩ :=
    finalDrain_parts [c3p1, c3p2]
      (stepsUpTo 100 [c3p1, c3p2] (buildDemandMap [c3p1, c3p2]) 30 1440) hnd
  have h1' : (stepsUpTo 100 [c3p1, c3p2] (buildDemandMap [c3p1, c3p2]) 30
      1440).utilizationByCurve "p1" = 100 * ((1440 : ℕ) : ℝ) := h1
  have h2' : (stepsUpTo 100 [c3p1, c3p2] (buildDemandMap [c3p1, c3p2]) 30
      1440).utilizationByCurve "p2" = 0 := h2
  constructor
  · show (finalDrain [c3p1, c3p2] (stepsUpTo 100 [c3p1, c3p2]
        (buildDemandMap [c3p1, c3p2]) 30 1440)).utilizationByCurve "p1"
      = 144000
    rw [congrFun f2 "p1", h1']
    norm_num
  · show (finalDrain [c3p1, c3p2] (stepsUpTo 100 [c3p1, c3p2]
        (buildDemandMap [c3p1, c3p2]) 30 1440)).utilizationByCurve "p2" = 0
    rw [congrFun f2 "p2", h2']

theorem c3_shed_final :
    (simulateCurves 100 [c3p1, c3p2] 30).shedByCurve "p1" = 72000
      ∧ (simulateCurves 100 [c3p1, c3p2] 30).shedByCurve "p2" = 144000 := by
  have hnd : ([c3p1, c3p2].map Curve.id).Nodup := by decide
  have hcons := simulate_conservation 100 [c3p1, c3p2]
    (buildDemandMap [c3p1, c3p2]) 30 hnd
  have h1 := hcons.1 c3p1 (List.mem_cons_self _ _)
  have h2 := hcons.1 c3p2 (by simp)
  have ht1 : traceSum (buildDemandMap [c3p1, c3p2]) c3p1.id 1440
      = 216000 := by
    rw [traceSum_eq_array_sum [c3p1, c3p2] c3p1 hnd (List.mem_cons_self _ _)]
    show (curveDemandArray c3p1).sum = 216000
    unfold curveDemandArray
    have hl1 : c3p1.type = "linear" := by rfl
    rw [if_pos hl1]
    exact generateLinearDemand_sum c3p1.totalDemand
  have ht2 : traceSum (buildDemandMap [c3p1, c3p2]) c3p2.id 1440
      = 144000 := by
    rw [traceSum_eq_array_sum [c3p1, c3p2] c3p2 hnd (by simp)]
    show (curveDemandArray c3p2).sum = 144000
    unfold curveDemandArray
    have hl2 : c3p2.type = "linear" := by rfl
    rw [if_pos hl2]
    exact generateLinearDemand_sum c3p2.totalDemand
  rw [ht1] at h1
  rw [ht2] at h2
  obtain ⟨hu1, hu2⟩ := c3_util_final
  have e1 : (simulateCurves 100 [c3p1, c3p2] 30).utilizationByCurve "p1"
      + (simulateCurves 100 [c3p1, c3p2] 30).shedByCurve "p1" = 216000 := h1
  have e2 : (simulateCurves 100 [c3p1, c3p2] 30).utilizationByCurve "p2"
      + (simulateCurves 100 [c3p1, c3p2] 30).shedByCurve "p2" = 144000 := h2
  constructor
  · linarith
  · linarith

/-- C3 counterexample: the extreme-width Gaussian source is the strictly
highest-priority source and its demand fits within capacity at every minute
(it never exceeds 100), yet its served total ends nowhere within 0.2% of its
configured totalVolume of 100000 — the "within tolerance" part of the claim
fails for valid Gaussian parameters. -/
theorem C3_counterexample :
    (∀ n, n < 1440 →
      demandAt (buildDemandMap [gWide, linLow]) "g" n ≤ 100)
    ∧ ¬ (|(simulateCurves 100 [gWide, linLow] 30).utilizationByCurve "g"
          - 100000| ≤ 0.002 * 100000) := by
  have hnd : ([gWide, linLow].map Curve.id).Nodup := by decide
  have harr : curveDemandArray gWide
      = generateGaussianDemand 100000 15 1000000 :=
    extremeGaussian_array "g" 1
  have hmap : buildDemandMap [gWide, linLow] "g"
      = generateGaussianDemand 100000 15 1000000 := by
    have h := buildDemandMap_mem [gWide, linLow] gWide hnd
      (List.mem_cons_self _ _)
    have h2 : buildDemandMap [gWide, linLow] "g"
        = curveDemandArray gWide := h
    rw [h2, harr]
  constructor
  · intro n hn
    unfold demandAt
    rw [hmap]
    apply getD_le _ _ (by norm_num)
    intro x hx
    have := (extremeGaussian_pointwise x hx).2
    linarith
  · have hcons := (simulate_conservation 100 [gWide, linLow]
      (buildDemandMap [gWide, linLow]) 30 hnd).1 gWide
      (List.mem_cons_self _ _)
    have htr := traceSum_eq_array_sum [gWide, linLow] gWide hnd
      (List.mem_cons_self _ _)
    have harrsum : (curveDemandArray gWide).sum ≤ 1.2 := by
      rw [harr]
      exact extremeGaussian_sum_bounds.2
    have hc2 : (simulateCurves 100 [gWide, linLow] 30).utilizationByCurve "g"
        + (simulateCurves 100 [gWide, linLow] 30).shedByCurve "g"
        = (curveDemandArray gWide).sum := by
      rw [← htr]
      exact hcons
    have hsh2 : 0 ≤ (simulateCurves 100 [gWide, linLow] 30).shedByCurve "g" :=
      simulate_shed_nonneg 100 [gWide, linLow]
        (buildDemandMap [gWide, linLow]) 30 hnd "g"
    intro habs
    have h3 : (100000 : ℝ)
        - (simulateCurves 100 [gWide, linLow] 30).utilizationByCurve "g"
        ≤ |(simulateCurves 100 [gWide, linLow] 30).utilizationByCurve "g"
          - 100000| := by
      rw [abs_sub_comm]
      exact le_abs_self _
    linarith

/-- C3 (amended): a strictly highest-priority source whose generated demand
fits within capacity at every minute is served in full immediately every
minute: it ends the run with served equal to the SUM OF ITS GENERATED
DEMAND ARRAY exactly (equal to totalVolume exactly for linear sources, but
not within any fixed tolerance of totalVolume for extreme Gaussian
parameters) and shed exactly 0.  The spec's example scenario holds exactly:
capacity 100, linear 216000 at priority 1 and linear 144000 at priority 2,
timeout 30 end with served 144000 / shed 72000 and served 0 / shed 144000
respectively. -/
theorem C3_priority_dominance :
    (∀ (machines : ℝ) (curves : List (Curve ℝ)) (t : ℕ) (c : Curve ℝ),
      c ∈ curves →
      (curves.map Curve.id).Nodup →
      (∀ c' ∈ curves, c' ≠ c → c.priority < c'.priority) →
      (∀ n, n < 1440 → demandAt (buildDemandMap curves) c.id n ≤ machines) →
      (simulateCurves machines curves t).utilizationByCurve c.id
          = (curveDemandArray c).sum
        ∧ (simulateCurves machines curves t).shedByCurve c.id = 0)
    ∧ ((simulateCurves 100 [c3p1, c3p2] 30).utilizationByCurve "p1" = 144000
      ∧ (simulateCurves 100 [c3p1, c3p2] 30).shedByCurve "p1" = 72000
      ∧ (simulateCurves 100 [c3p1, c3p2] 30).utilizationByCurve "p2" = 0
      ∧ (simulateCurves 100 [c3p1, c3p2] 30).shedByCurve "p2" = 144000) := by
  constructor
  · intro machines curves t c hc hnd htop hfit
    have hndl : curves.Nodup := List.Nodup.of_map Curve.id hnd
    obtain ⟨rest, hsort, hrest0⟩ := sortByPrio_head_min curves c hc hndl htop
    have hrest : ∀ c' ∈ rest, c'.id ≠ c.id := by
      intro c' hc' heq
      obtain ⟨hcl, hne⟩ := hrest0 c' hc'
      exact hne (List.inj_on_of_nodup_map hnd hcl hc heq)
    obtain ⟨_, hu⟩ := dominant_invariant machines curves
      (buildDemandMap curves) t c rest hsort hrest hfit 1440 (le_refl 1440)
    obtain ⟨_, f2, _, _, _⟩ := finalDrain_parts curves
      (stepsUpTo machines curves (buildDemandMap curves) t 1440) hnd
    have hcons := (simulate_conservation machines curves
      (buildDemandMap curves) t hnd).1 c hc
    have htr := traceSum_eq_array_sum curves c hnd hc
    have huS : (simulateCurves machines curves t).utilizationByCurve c.id
        = (curveDemandArray c).sum := by
      show (finalDrain curves (stepsUpTo machines curves
        (buildDemandMap curves) t 1440)).utilizationByCurve c.id = _
      rw [congrFun f2 c.id, hu, htr]
    have hc2 : (simulateCurves machines curves t).utilizationByCurve c.id
        + (simulateCurves machines curves t).shedByCurve c.id
        = (curveDemandArray c).sum := by
      rw [← htr]
      exact hcons
    exact ⟨huS, by linarith⟩
  · exact ⟨c3_util_final.1, c3_shed_final.1, c3_util_final.2,
      c3_shed_final.2⟩

/-- Witness configuration for the dominance theorem: linear 72000 at
priority 1 (50/min, fits capacity 100) against linear 144000 at
priority 2. -/
def w3a : Curve ℝ := ⟨"w1", "linear", 72000, 0, 0, 1⟩

/-- Witness configuration, the lower-priority source. -/
def w3b : Curve ℝ := ⟨"w2", "linear", 144000, 0, 0, 2⟩

/-- Witness for C3_priority_dominance at a concrete configuration. -/
theorem C3_priority_dominance_witness :
    (simulateCurves 100 [w3a, w3b] 30).utilizationByCurve "w1"
        = (curveDemandArray w3a).sum
      ∧ (simulateCurves 100 [w3a, w3b] 30).shedByCurve "w1" = 0 := by
  have h := C3_priority_dominance.1 100 [w3a, w3b] 30 w3a
    (List.mem_cons_self _ _)
    (by decide)
    (by
      intro c' hc' hne
      rcases List.mem_cons.mp hc' with rfl | hc'
      · exact absurd rfl hne
      · rcases List.mem_singleton.mp hc' with rfl
        show (1 : ℤ) < 2
        norm_num)
    (by
      intro n hn
      rw [demandAt_linear [w3a, w3b] w3a (by decide)
        (List.mem_cons_self _ _) rfl n hn]
      norm_num [w3a])
  exact h

/-! ### Claim C2 — fair sharing (refuted: strictly sequential service) -/

/-- Twin source 1 of the fair-sharing property. -/
def cc1 : Curve ℝ := ⟨"curve-1", "linear", 144000, 0, 0, 1⟩

/-- Twin source 2: identical shape, volume and priority. -/
def cc2 : Curve ℝ := ⟨"curve-2", "linear", 144000, 0, 0, 1⟩

/-- C2: two sources of identical shape (linear 144000 = 100/min), identical
priority 1, sharing capacity 100 with timeout 30: the engine serves the
first-listed source completely (served 144000, shed 0) and starves the
second completely (served 0, shed 144000).  There is no proportional
sharing within an equal-priority cohort — equal-priority sources are
processed strictly sequentially in configuration order — and the claimed
1% closeness of the shed totals fails maximally. -/
theorem C2_unfair_split :
    (simulateCurves 100 [cc1, cc2] 30).utilizationByCurve "curve-1" = 144000
    ∧ (simulateCurves 100 [cc1, cc2] 30).shedByCurve "curve-1" = 0
    ∧ (simulateCurves 100 [cc1, cc2] 30).utilizationByCurve "curve-2" = 0
    ∧ (simulateCurves 100 [cc1, cc2] 30).shedByCurve "curve-2" = 144000
    ∧ ¬ (|(simulateCurves 100 [cc1, cc2] 30).shedByCurve "curve-1"
          - (simulateCurves 100 [cc1, cc2] 30).shedByCurve "curve-2"|
        ≤ 0.01 * 144000) := by
  have hnd : ([cc1, cc2].map Curve.id).Nodup := by decide
  have hA : ∀ n, n < 1440 →
      (100 : ℝ) ≤ demandAt (buildDemandMap [cc1, cc2]) cc1.id n := by
    intro n hn
    rw [demandAt_linear [cc1, cc2] cc1 hnd (List.mem_cons_self _ _) rfl n hn]
    norm_num [cc1]
  have hB : ∀ n, n < 1440 →
      (0 : ℝ) ≤ demandAt (buildDemandMap [cc1, cc2]) cc2.id n := by
    intro n hn
    rw [demandAt_linear [cc1, cc2] cc2 hnd (by simp) rfl n hn]
    norm_num [cc2]
  have hAB : cc1.id ≠ cc2.id := by decide
  obtain ⟨h1, h2⟩ := twoCurve_util 100 cc1 cc2 (buildDemandMap [cc1, cc2])
    30 hAB rfl hA hB 1440 (le_refl 1440)
  obtain ⟨_, f2, _, _, _⟩ :=
    finalDrain_parts [cc1, cc2]
      (stepsUpTo 100 [cc1, cc2] (buildDemandMap [cc1, cc2]) 30 1440) hnd
  have h1' : (stepsUpTo 100 [cc1, cc2] (buildDemandMap [cc1, cc2]) 30
      1440).utilizationByCurve "curve-1" = 100 * ((1440 : ℕ) : ℝ) := h1
  have h2' : (stepsUpTo 100 [cc1, cc2] (buildDemandMap [cc1, cc2]) 30
      1440).utilizationByCurve "curve-2" = 0 := h2
  have hu1 : (simulateCurves 100 [cc1, cc2] 30).utilizationByCurve "curve-1"
      = 144000 := by
    show (finalDrain [cc1, cc2] (stepsUpTo 100 [cc1, cc2]
        (buildDemandMap [cc1, cc2]) 30 1440)).utilizationByCurve "curve-1"
      = 144000
    rw [congrFun f2 "curve-1", h1']
    norm_num
  have hu2 : (simulateCurves 100 [cc1, cc2] 30).utilizationByCurve "curve-2"
      = 0 := by
    show (finalDrain [cc1, cc2] (stepsUpTo 100 [cc1, cc2]
        (buildDemandMap [cc1, cc2]) 30 1440)).utilizationByCurve "curve-2"
      = 0
    rw [congrFun f2 "curve-2", h2']
  have hcons := simulate_conservation 100 [cc1, cc2]
    (buildDemandMap [cc1, cc2]) 30 hnd
  have ht1 : traceSum (buildDemandMap [cc1, cc2]) cc1.id 1440 = 144000 := by
    rw [traceSum_eq_array_sum [cc1, cc2] cc1 hnd (List.mem_cons_self _ _)]
    show (curveDemandArray cc1).sum = 144000
    unfold curveDemandArray
    have hl : cc1.type = "linear" := by rfl
    rw [if_pos hl]
    exact generateLinearDemand_sum cc1.totalDemand
  have ht2 : traceSum (buildDemandMap [cc1, cc2]) cc2.id 1440 = 144000 := by
    rw [traceSum_eq_array_sum [cc1, cc2] cc2 hnd (by simp)]
    show (curveDemandArray cc2).sum = 144000
    unfold curveDemandArray
    have hl : cc2.type = "linear" := by rfl
    rw [if_pos hl]
    exact generateLinearDemand_sum cc2.totalDemand
  have e1 := hcons.1 cc1 (List.mem_cons_self _ _)
  have e2 := hcons.1 cc2 (by simp)
  rw [ht1] at e1
  rw [ht2] at e2
  have e1' : (simulateCurves 100 [cc1, cc2] 30).utilizationByCurve "curve-1"
      + (simulateCurves 100 [cc1, cc2] 30).shedByCurve "curve-1"
      = 144000 := e1
  have e2' : (simulateCurves 100 [cc1, cc2] 30).utilizationByCurve "curve-2"
      + (simulateCurves 100 [cc1, cc2] 30).shedByCurve "curve-2"
      = 144000 := e2
  have hs1 : (simulateCurves 100 [cc1, cc2] 30).shedByCurve "curve-1"
      = 0 := by linarith
  have hs2 : (simulateCurves 100 [cc1, cc2] 30).shedByCurve "curve-2"
      = 144000 := by linarith
  refine ⟨hu1, hs1, hu2, hs2, ?_⟩
  intro habs
  rw [hs1, hs2] at habs
  have h144 : |(0 : ℝ) - 144000| = 144000 := by
    rw [show (0 : ℝ) - 144000 = -144000 by norm_num, abs_neg,
      abs_of_nonneg (by norm_num : (0 : ℝ) ≤ 144000)]
  rw [h144] at habs
  linarith

/-! ### Claim C9 — no input validation -/

/-- A well-formed linear source, used against a negative capacity. -/
def s9 : Curve ℝ := ⟨"s", "linear", 144000, 0, 0, 1⟩

theorem c9_util :
    (simulateCurves (-100) [s9] 0).utilizationByCurve "s" = -144000 := by
  have hnd : ([s9].map Curve.id).Nodup := by decide
  have hA : ∀ n, n < 1440 →
      (-100 : ℝ) ≤ demandAt (buildDemandMap [s9]) s9.id n := by
    intro n hn
    rw [demandAt_linear [s9] s9 hnd (List.mem_cons_self _ _) rfl n hn]
    norm_num [s9]
  have h := oneCurve_util (-100) s9 (buildDemandMap [s9]) 0 hA 1440
    (le_refl 1440)
  obtain ⟨_, f2, _, _, _⟩ :=
    finalDrain_parts [s9]
      (stepsUpTo (-100) [s9] (buildDemandMap [s9]) 0 1440) hnd
  have h' : (stepsUpTo (-100) [s9] (buildDemandMap [s9]) 0
      1440).utilizationByCurve "s" = -100 * ((1440 : ℕ) : ℝ) := h
  show (finalDrain [s9] (stepsUpTo (-100) [s9]
      (buildDemandMap [s9]) 0 1440)).utilizationByCurve "s" = -144000
  rw [congrFun f2 "s", h']
  norm_num

/-- C9 counterexample: the engine does not reject the malformed
configuration (negative capacity −100): it runs to completion and computes
a NEGATIVE served total for a well-formed source — garbage instead of an
error. -/
theorem C9_counterexample :
    (simulateCurves (-100) [s9] 0).utilizationByCurve "s" = -144000
      ∧ (simulateCurves (-100) [s9] 0).utilizationByCurve "s" < 0 := by
  refine ⟨c9_util, ?_⟩
  rw [c9_util]
  norm_num

/-- C9 (amended): the engine performs NO input validation whatsoever; a
malformed configuration is processed by the same arithmetic as a valid one.
With capacity −100 (and a single well-formed linear source of volume 144000
and timeout 0), every minute "serves" −100, ending with shed 288000 — twice
the configured volume — and aggregate counters to match. -/
theorem C9_no_validation :
    (simulateCurves (-100) [s9] 0).shedByCurve "s" = 288000
      ∧ (simulateCurves (-100) [s9] 0).totalUtilization = -144000
      ∧ (simulateCurves (-100) [s9] 0).totalShedDemand = 288000 := by
  have hnd : ([s9].map Curve.id).Nodup := by decide
  have hcons := simulate_conservation (-100) [s9] (buildDemandMap [s9]) 0 hnd
  have ht : traceSum (buildDemandMap [s9]) s9.id 1440 = 144000 := by
    rw [traceSum_eq_array_sum [s9] s9 hnd (List.mem_cons_self _ _)]
    show (curveDemandArray s9).sum = 144000
    unfold curveDemandArray
    have hl : s9.type = "linear" := by rfl
    rw [if_pos hl]
    exact generateLinearDemand_sum s9.totalDemand
  have e1 := hcons.1 s9 (List.mem_cons_self _ _)
  rw [ht] at e1
  have e1' : (simulateCurves (-100) [s9] 0).utilizationByCurve "s"
      + (simulateCurves (-100) [s9] 0).shedByCurve "s" = 144000 := e1
  have hu := c9_util
  have hshed : (simulateCurves (-100) [s9] 0).shedByCurve "s" = 288000 := by
    linarith
  have hsum : (List.map (fun c => traceSum (buildDemandMap [s9]) c.id 1440)
      [s9]).sum = 144000 := by
    rw [List.map_cons, List.map_nil, List.sum_cons, List.sum_nil, add_zero,
      ht]
  have e2 := hcons.2
  rw [hsum] at e2
  obtain ⟨hsu, hss⟩ := stepsUpTo_sums (-100) [s9] (buildDemandMap [s9]) 0
    1440 hnd
  obtain ⟨_, f2, f3, _, _⟩ :=
    finalDrain_parts [s9]
      (stepsUpTo (-100) [s9] (buildDemandMap [s9]) 0 1440) hnd
  have h' : (stepsUpTo (-100) [s9] (buildDemandMap [s9]) 0
      1440).utilizationByCurve "s" = -100 * ((1440 : ℕ) : ℝ) := by
    have hA : ∀ n, n < 1440 →
        (-100 : ℝ) ≤ demandAt (buildDemandMap [s9]) s9.id n := by
      intro n hn
      rw [demandAt_linear [s9] s9 hnd (List.mem_cons_self _ _) rfl n hn]
      norm_num [s9]
    exact oneCurve_util (-100) s9 (buildDemandMap [s9]) 0 hA 1440
      (le_refl 1440)
  have htotu : (simulateCurves (-100) [s9] 0).totalUtilization
      = -144000 := by
    show (finalDrain [s9] (stepsUpTo (-100) [s9]
        (buildDemandMap [s9]) 0 1440)).totalUtilization = -144000
    rw [f3, hsu]
    show (List.map (fun c => (stepsUpTo (-100) [s9] (buildDemandMap [s9]) 0
        1440).utilizationByCurve c.id) [s9]).sum = -144000
    rw [List.map_cons, List.map_nil, List.sum_cons, List.sum_nil, add_zero]
    have hh : (stepsUpTo (-100) [s9] (buildDemandMap [s9]) 0
        1440).utilizationByCurve s9.id = -100 * ((1440 : ℕ) : ℝ) := h'
    rw [hh]
    norm_num
  have e2' : (simulateCurves (-100) [s9] 0).totalUtilization
      + (simulateCurves (-100) [s9] 0).totalShedDemand = 144000 := e2
  refine ⟨hshed, htotu, ?_⟩
  linarith

/-! ### Claim C8 — timeout monotonicity: suffix-mass coupling machinery -/

section TimeoutCoupling

variable {α : Type} [LinearOrderedField α]

theorem arrivalMassFrom_zero (q : List (QItem α)) :
    arrivalMassFrom 0 q = queueMass q :=
  arrivalMassFrom_all 0 q fun it _ => Nat.zero_le it.arrivalTime

theorem arrivalMassFrom_antitone (q : List (QItem α))
    (h : ∀ it ∈ q, 0 ≤ it.demand) {θ θ2 : ℕ} (hθ : θ ≤ θ2) :
    arrivalMassFrom θ2 q ≤ arrivalMassFrom θ q := by
  induction q with
  | nil => exact le_refl _
  | cons it rest ih =>
    rw [arrivalMassFrom_cons, arrivalMassFrom_cons]
    have hd := h it (List.mem_cons_self it rest)
    have hr := ih fun x hx => h x (List.mem_cons_of_mem it hx)
    by_cases hc : θ2 ≤ it.arrivalTime
    · rw [if_pos hc, if_pos (le_trans hθ hc)]
      linarith
    · rw [if_neg hc]
      by_cases hc2 : θ ≤ it.arrivalTime
      · rw [if_pos hc2]
        linarith
      · rw [if_neg hc2]
        linarith

theorem arrivalMassFrom_perm {q r : List (QItem α)} (h : q.Perm r) (θ : ℕ) :
    arrivalMassFrom θ q = arrivalMassFrom θ r := by
  unfold arrivalMassFrom
  rw [queueMass_eq_sum, queueMass_eq_sum]
  exact ((h.filter _).map QItem.demand).sum_eq

theorem arrivalMassFrom_append (θ : ℕ) (q r : List (QItem α)) :
    arrivalMassFrom θ (q ++ r)
      = arrivalMassFrom θ q + arrivalMassFrom θ r := by
  unfold arrivalMassFrom
  rw [List.filter_append, queueMass_append]

theorem arrivalMassFrom_singleton (θ : ℕ) (x : QItem α) :
    arrivalMassFrom θ [x]
      = if θ ≤ x.arrivalTime then x.demand else 0 := by
  rw [show ([x] : List (QItem α)) = x :: [] from rfl, arrivalMassFrom_cons]
  show _ + arrivalMassFrom θ ([] : List (QItem α)) = _
  rw [show arrivalMassFrom θ ([] : List (QItem α)) = 0 from rfl, add_zero]

theorem arrivalMassFrom_filter_pos (θ : ℕ) (q : List (QItem α))
    (h : ∀ it ∈ q, 0 ≤ it.demand) :
    arrivalMassFrom θ (q.filter fun it => 0 < it.demand)
      = arrivalMassFrom θ q := by
  induction q with
  | nil => rfl
  | cons it rest ih =>
    have hd := h it (List.mem_cons_self it rest)
    have hr := ih fun x hx => h x (List.mem_cons_of_mem it hx)
    by_cases hp : 0 < it.demand
    · rw [List.filter_cons_of_pos (by simpa using hp), arrivalMassFrom_cons,
        arrivalMassFrom_cons, hr]
    · rw [List.filter_cons_of_neg (by simpa using hp), arrivalMassFrom_cons,
        hr]
      have h0 : it.demand = 0 := le_antisymm (not_lt.mp hp) hd
      rw [h0]
      simp

theorem sub_min_eq_max (x y : α) : x - min y x = max (x - y) 0 := by
  rcases le_total y x with h | h
  · rw [min_eq_left h, max_eq_left (by linarith : (0 : α) ≤ x - y)]
  · rw [min_eq_right h, sub_self,
      max_eq_right (by linarith : x - y ≤ (0 : α))]

/-- The queue loop serves exactly `min(mass, capacity)` in total. -/
theorem serveItems_served_total (avail : α) (q : List (QItem α))
    (hav : 0 ≤ avail) (h : ∀ it ∈ q, 0 ≤ it.demand) :
    (serveItems avail q).2.2 = min (queueMass q) avail := by
  induction q generalizing avail with
  | nil =>
    show (0 : α) = min (queueMass ([] : List (QItem α))) avail
    rw [queueMass_nil, min_eq_left hav]
  | cons it rest ih =>
    have hd := h it (List.mem_cons_self it rest)
    have hrest : ∀ x ∈ rest, 0 ≤ x.demand :=
      fun x hx => h x (List.mem_cons_of_mem it hx)
    have hMr : 0 ≤ queueMass rest := queueMass_nonneg rest hrest
    by_cases hp : 0 < avail
    · simp only [serveItems, hp, if_true]
      rw [queueMass_cons]
      rcases le_total it.demand avail with hda | had
      · rw [min_eq_left hda, ih (avail - it.demand) (by linarith) hrest]
        rcases le_total (queueMass rest) (avail - it.demand) with h1 | h1
        · rw [min_eq_left h1, min_eq_left (by linarith :
            it.demand + queueMass rest ≤ avail)]
        · rw [min_eq_right h1, min_eq_right (by linarith :
            avail ≤ it.demand + queueMass rest)]
          ring
      · rw [min_eq_right had, sub_self, ih 0 (le_refl 0) hrest,
          min_eq_right hMr, add_zero,
          min_eq_right (by linarith : avail ≤ it.demand + queueMass rest)]
    · have hz : avail = 0 := le_antisymm (not_lt.mp hp) hav
      rw [serveItems_nonpos avail _ hp]
      show (0 : α) = min (queueMass (it :: rest)) avail
      rw [hz, queueMass_cons]
      rw [min_eq_right (by linarith : (0 : α) ≤ it.demand + queueMass rest)]

theorem max_sub_helper (a d Q : α) :
    max (max (a - d) 0 - (Q + max (d - a) 0)) 0 = max (a - d - Q) 0 := by
  rcases le_total d a with h | h
  · rw [max_eq_left (by linarith : (0 : α) ≤ a - d),
      max_eq_right (by linarith : d - a ≤ (0 : α)), add_zero]
  · rw [max_eq_right (by linarith : a - d ≤ (0 : α)),
      max_eq_left (by linarith : (0 : α) ≤ d - a),
      show (0 : α) - (Q + (d - a)) = a - d - Q by ring]

/-- Non-negativity of queue items survives `processCurve` (the processed
queue is filtered to strictly positive items; others are untouched). -/
theorem processCurve_queues_nonneg (dm : DemandMap α) (n : ℕ)
    (acc : α × α × SimState α) (c : Curve α)
    (h : ∀ k, ∀ it ∈ acc.2.2.queuesByCurve k, 0 ≤ it.demand) :
    ∀ k, ∀ it ∈ (processCurve dm n acc c).2.2.queuesByCurve k,
      0 ≤ it.demand := by
  intro k it hit
  by_cases hk : k = c.id
  · subst hk
    simp only [processCurve, updMap_self] at hit
    exact le_of_lt (of_decide_eq_true (List.mem_filter.mp hit).2)
  · rw [processCurve_queues_other dm n acc c k hk] at hit
    exact h k it hit

/-- Closed form of one curve's processing step: the outgoing capacity and
the remaining suffix masses of the curve's queue, in terms of the incoming
capacity, the minute's demand and the incoming queue masses. -/
theorem processCurve_closed (dm : DemandMap α) (n : ℕ)
    (acc : α × α × SimState α) (c : Curve α)
    (hq : ∀ it ∈ acc.2.2.queuesByCurve c.id, 0 ≤ it.demand) :
    (processCurve dm n acc c).1
        = max (acc.1 - demandAt dm c.id n
            - queueMass (acc.2.2.queuesByCurve c.id)) 0
      ∧ ∀ θ, arrivalMassFrom θ
          ((processCurve dm n acc c).2.2.queuesByCurve c.id)
        = max (min (arrivalMassFrom θ (acc.2.2.queuesByCurve c.id)
              + (if θ ≤ n then max (demandAt dm c.id n - acc.1) 0 else 0))
            (queueMass (acc.2.2.queuesByCurve c.id)
              + max (demandAt dm c.id n - acc.1) 0
              - max (acc.1 - demandAt dm c.id n) 0)) 0 := by
  have he : demandAt dm c.id n - min (demandAt dm c.id n) acc.1
      = max (demandAt dm c.id n - acc.1) 0 := by
    rw [min_comm]
    exact sub_min_eq_max _ _
  have hv : acc.1 - min (demandAt dm c.id n) acc.1
      = max (acc.1 - demandAt dm c.id n) 0 := sub_min_eq_max _ _
  have hv0 : 0 ≤ acc.1 - min (demandAt dm c.id n) acc.1 := by
    rw [hv]
    exact le_max_right _ _
  have hq1 : ∀ it ∈ (if 0 < demandAt dm c.id n
        - min (demandAt dm c.id n) acc.1 then
      acc.2.2.queuesByCurve c.id
        ++ [⟨n, demandAt dm c.id n - min (demandAt dm c.id n) acc.1, c.id,
          c.priority⟩]
      else acc.2.2.queuesByCurve c.id), 0 ≤ it.demand := by
    by_cases hex : 0 < demandAt dm c.id n - min (demandAt dm c.id n) acc.1
    · rw [if_pos hex]
      intro it hit
      rcases List.mem_append.mp hit with hit | hit
      · exact hq it hit
      · rcases List.mem_singleton.mp hit with rfl
        exact le_of_lt hex
    · rw [if_neg hex]
      exact hq
  have hq2 : ∀ it ∈ sortByArrival (if 0 < demandAt dm c.id n
        - min (demandAt dm c.id n) acc.1 then
      acc.2.2.queuesByCurve c.id
        ++ [⟨n, demandAt dm c.id n - min (demandAt dm c.id n) acc.1, c.id,
          c.priority⟩]
      else acc.2.2.queuesByCurve c.id), 0 ≤ it.demand :=
    fun it hit => hq1 it ((sortByArrival_perm _).mem_iff.mp hit)
  have hmassq1 : ∀ θ, arrivalMassFrom θ (if 0 < demandAt dm c.id n
        - min (demandAt dm c.id n) acc.1 then
      acc.2.2.queuesByCurve c.id
        ++ [⟨n, demandAt dm c.id n - min (demandAt dm c.id n) acc.1, c.id,
          c.priority⟩]
      else acc.2.2.queuesByCurve c.id)
      = arrivalMassFrom θ (acc.2.2.queuesByCurve c.id)
        + (if θ ≤ n then max (demandAt dm c.id n - acc.1) 0 else 0) := by
    intro θ
    by_cases hex : 0 < demandAt dm c.id n - min (demandAt dm c.id n) acc.1
    · rw [if_pos hex, arrivalMassFrom_append, arrivalMassFrom_singleton]
      have hsh : (if θ ≤ (⟨n, demandAt dm c.id n
            - min (demandAt dm c.id n) acc.1, c.id, c.priority⟩
              : QItem α).arrivalTime
          then (⟨n, demandAt dm c.id n - min (demandAt dm c.id n) acc.1,
            c.id, c.priority⟩ : QItem α).demand else 0)
          = (if θ ≤ n then max (demandAt dm c.id n - acc.1) 0 else 0) := by
        by_cases hθ : θ ≤ n
        · rw [if_pos hθ, if_pos hθ]
          exact he
        · rw [if_neg hθ, if_neg hθ]
      rw [hsh]
    · rw [if_neg hex]
      have hz : max (demandAt dm c.id n - acc.1) 0 = 0 := by
        rw [← he]
        exact le_antisymm (not_lt.mp hex) (by rw [he]; exact le_max_right _ _)
      rw [hz]
      simp
  have hT : queueMass (sortByArrival (if 0 < demandAt dm c.id n
        - min (demandAt dm c.id n) acc.1 then
      acc.2.2.queuesByCurve c.id
        ++ [⟨n, demandAt dm c.id n - min (demandAt dm c.id n) acc.1, c.id,
          c.priority⟩]
      else acc.2.2.queuesByCurve c.id))
      = queueMass (acc.2.2.queuesByCurve c.id)
        + max (demandAt dm c.id n - acc.1) 0 := by
    rw [sortByArrival_mass, ← arrivalMassFrom_zero, hmassq1 0,
      arrivalMassFrom_zero]
    rw [if_pos (Nat.zero_le n)]
  constructor
  · show (serveItems (acc.1 - min (demandAt dm c.id n) acc.1)
        (sortByArrival _)).2.1 = _
    rw [serveItems_avail, serveItems_served_total _ _ hv0 hq2, hT,
      sub_min_eq_max]
    rw [hv, max_sub_helper]
  · intro θ
    show arrivalMassFrom θ ((updMap acc.2.2.queuesByCurve c.id
        ((serveItems (acc.1 - min (demandAt dm c.id n) acc.1)
          (sortByArrival _)).1.filter fun it => 0 < it.demand)) c.id) = _
    rw [updMap_self,
      arrivalMassFrom_filter_pos θ _ (serveItems_nonneg _ _ hq2),
      serveItems_fifo _ _ θ (sortByArrival_sorted _) hq2,
      arrivalMassFrom_perm (sortByArrival_perm _) θ, hmassq1 θ, hT, hv]

end TimeoutCoupling

section TimeoutDominance

variable {α : Type} [LinearOrderedField α]

/-- Coupling step for one curve: a run with less available capacity and
(suffix-)heavier queue keeps a heavier queue and ends with less available
capacity. -/
theorem processCurve_dominates (dm : DemandMap α) (n : ℕ)
    (acc1 acc2 : α × α × SimState α) (c : Curve α)
    (hav : acc2.1 ≤ acc1.1)
    (hq1 : ∀ it ∈ acc1.2.2.queuesByCurve c.id, 0 ≤ it.demand)
    (hq2 : ∀ it ∈ acc2.2.2.queuesByCurve c.id, 0 ≤ it.demand)
    (hdom : ∀ θ, arrivalMassFrom θ (acc1.2.2.queuesByCurve c.id)
      ≤ arrivalMassFrom θ (acc2.2.2.queuesByCurve c.id)) :
    (processCurve dm n acc2 c).1 ≤ (processCurve dm n acc1 c).1
      ∧ ∀ θ, arrivalMassFrom θ
          ((processCurve dm n acc1 c).2.2.queuesByCurve c.id)
        ≤ arrivalMassFrom θ
          ((processCurve dm n acc2 c).2.2.queuesByCurve c.id) := by
  obtain ⟨hc1a, hc1m⟩ := processCurve_closed dm n acc1 c hq1
  obtain ⟨hc2a, hc2m⟩ := processCurve_closed dm n acc2 c hq2
  have hQ : queueMass (acc1.2.2.queuesByCurve c.id)
      ≤ queueMass (acc2.2.2.queuesByCurve c.id) := by
    rw [← arrivalMassFrom_zero, ← arrivalMassFrom_zero]
    exact hdom 0
  have hE : max (demandAt dm c.id n - acc1.1) 0
      ≤ max (demandAt dm c.id n - acc2.1) 0 :=
    max_le_max (by linarith) (le_refl 0)
  have hV : max (acc2.1 - demandAt dm c.id n) 0
      ≤ max (acc1.1 - demandAt dm c.id n) 0 :=
    max_le_max (by linarith) (le_refl 0)
  constructor
  · rw [hc1a, hc2a]
    exact max_le_max (by linarith) (le_refl 0)
  · intro θ
    rw [hc1m θ, hc2m θ]
    apply max_le_max _ (le_refl 0)
    apply min_le_min
    · have hif : (if θ ≤ n then max (demandAt dm c.id n - acc1.1) 0 else 0)
          ≤ (if θ ≤ n then max (demandAt dm c.id n - acc2.1) 0 else 0) := by
        by_cases hθ : θ ≤ n
        · rw [if_pos hθ, if_pos hθ]
          exact hE
        · rw [if_neg hθ, if_neg hθ]
      have := hdom θ
      linarith
    · linarith

/-- The coupling propagates along the whole processing fold of a minute. -/
theorem processFold_dominates (dm : DemandMap α) (n : ℕ)
    (l : List (Curve α)) (acc1 acc2 : α × α × SimState α)
    (hq1 : ∀ k, ∀ it ∈ acc1.2.2.queuesByCurve k, 0 ≤ it.demand)
    (hq2 : ∀ k, ∀ it ∈ acc2.2.2.queuesByCurve k, 0 ≤ it.demand)
    (hav : acc2.1 ≤ acc1.1)
    (hdom : ∀ k θ, arrivalMassFrom θ (acc1.2.2.queuesByCurve k)
      ≤ arrivalMassFrom θ (acc2.2.2.queuesByCurve k)) :
    (l.foldl (processCurve dm n) acc2).1
        ≤ (l.foldl (processCurve dm n) acc1).1
      ∧ ∀ k θ, arrivalMassFrom θ
          ((l.foldl (processCurve dm n) acc1).2.2.queuesByCurve k)
        ≤ arrivalMassFrom θ
          ((l.foldl (processCurve dm n) acc2).2.2.queuesByCurve k) := by
  induction l generalizing acc1 acc2 with
  | nil => exact ⟨hav, hdom⟩
  | cons c l ih =>
    obtain ⟨hd1, hd2⟩ := processCurve_dominates dm n acc1 acc2 c hav
      (hq1 c.id) (hq2 c.id) (hdom c.id)
    have hdom2 : ∀ k θ, arrivalMassFrom θ
        ((processCurve dm n acc1 c).2.2.queuesByCurve k)
        ≤ arrivalMassFrom θ
          ((processCurve dm n acc2 c).2.2.queuesByCurve k) := by
      intro k θ
      by_cases hk : k = c.id
      · subst hk
        exact hd2 θ
      · rw [processCurve_queues_other dm n acc1 c k hk,
          processCurve_queues_other dm n acc2 c k hk]
        exact hdom k θ
    rw [List.foldl_cons, List.foldl_cons]
    exact ih (processCurve dm n acc1 c) (processCurve dm n acc2 c)
      (processCurve_queues_nonneg dm n acc1 c hq1)
      (processCurve_queues_nonneg dm n acc2 c hq2) hd1 hdom2

/-- Capacity plus accumulated usage is invariant across one processing
step. -/
theorem processCurve_sum (dm : DemandMap α) (n : ℕ)
    (acc : α × α × SimState α) (c : Curve α) :
    (processCurve dm n acc c).1 + (processCurve dm n acc c).2.1
      = acc.1 + acc.2.1 := by
  have h := (processCurve_usage dm n acc c).1
  linarith

/-- Capacity plus accumulated usage is invariant across the whole fold. -/
theorem processFold_sum (dm : DemandMap α) (n : ℕ) (l : List (Curve α))
    (acc : α × α × SimState α) :
    (l.foldl (processCurve dm n) acc).1
        + (l.foldl (processCurve dm n) acc).2.1
      = acc.1 + acc.2.1 := by
  induction l generalizing acc with
  | nil => rfl
  | cons c l ih =>
    rw [List.foldl_cons, ih (processCurve dm n acc c), processCurve_sum]

/-- The expiry filter keeps exactly the `arrival ≥ n − t` suffix. -/
theorem arrivalMassFrom_expire (θ t n : ℕ) (q : List (QItem α)) :
    arrivalMassFrom θ (q.filter fun it => ¬ t + it.arrivalTime < n)
      = arrivalMassFrom (max θ (n - t)) q := by
  induction q with
  | nil => rfl
  | cons it rest ih =>
    by_cases hk : t + it.arrivalTime < n
    · rw [List.filter_cons_of_neg (by simpa using hk), ih,
        arrivalMassFrom_cons,
        if_neg (fun h => absurd (le_of_max_le_right h)
          (by omega : ¬ n - t ≤ it.arrivalTime)), zero_add]
    · rw [List.filter_cons_of_pos (by simpa using hk), arrivalMassFrom_cons,
        arrivalMassFrom_cons, ih]
      congr 1
      by_cases hθ : θ ≤ it.arrivalTime
      · rw [if_pos hθ,
          if_pos (max_le hθ (by omega : n - t ≤ it.arrivalTime))]
      · rw [if_neg hθ, if_neg (fun h => hθ (le_of_max_le_left h))]

/-- Expiring with a longer timeout from a (suffix-)heavier queue leaves a
(suffix-)heavier queue. -/
theorem expire_dominates (t1 t2 n : ℕ) (ht : t1 ≤ t2)
    (q1 q2 : List (QItem α))
    (hn2 : ∀ it ∈ q2, 0 ≤ it.demand)
    (hdom : ∀ θ, arrivalMassFrom θ q1 ≤ arrivalMassFrom θ q2) :
    ∀ θ, arrivalMassFrom θ (q1.filter fun it => ¬ t1 + it.arrivalTime < n)
      ≤ arrivalMassFrom θ (q2.filter fun it => ¬ t2 + it.arrivalTime < n) := by
  intro θ
  rw [arrivalMassFrom_expire, arrivalMassFrom_expire]
  calc arrivalMassFrom (max θ (n - t1)) q1
      ≤ arrivalMassFrom (max θ (n - t1)) q2 := hdom _
    _ ≤ arrivalMassFrom (max θ (n - t2)) q2 :=
        arrivalMassFrom_antitone q2 hn2
          (max_le_max (le_refl θ) (Nat.sub_le_sub_left ht n))

/-- One minute of the loop preserves the coupling: suffix-heavier queues
and at-least-equal cumulative utilisation for the longer-timeout run. -/
theorem stepMinute_dominates (machines : α) (curves : List (Curve α))
    (dm : DemandMap α) (t1 t2 n : ℕ) (ht : t1 ≤ t2)
    (st1 st2 : SimState α)
    (hp1 : ∀ k, ∀ it ∈ st1.queuesByCurve k, 0 < it.demand)
    (hp2 : ∀ k, ∀ it ∈ st2.queuesByCurve k, 0 < it.demand)
    (hdom : ∀ k θ, arrivalMassFrom θ (st1.queuesByCurve k)
      ≤ arrivalMassFrom θ (st2.queuesByCurve k))
    (hutil : st1.totalUtilization ≤ st2.totalUtilization) :
    (∀ k θ, arrivalMassFrom θ
        ((stepMinute machines curves dm t1 st1 n).queuesByCurve k)
      ≤ arrivalMassFrom θ
        ((stepMinute machines curves dm t2 st2 n).queuesByCurve k))
    ∧ (stepMinute machines curves dm t1 st1 n).totalUtilization
      ≤ (stepMinute machines curves dm t2 st2 n).totalUtilization := by
  obtain ⟨h11, _, _, _, h15, _⟩ :=
    stepMinute_parts machines curves dm t1 st1 n
  obtain ⟨h21, _, _, _, h25, _⟩ :=
    stepMinute_parts machines curves dm t2 st2 n
  have hedom : ∀ k θ, arrivalMassFrom θ
      ((expireStep curves t1 n st1).1.queuesByCurve k)
      ≤ arrivalMassFrom θ
        ((expireStep curves t2 n st2).1.queuesByCurve k) := by
    intro k θ
    rw [expireStep_queues, expireStep_queues]
    by_cases hm : k ∈ curves.map Curve.id
    · rw [if_pos hm, if_pos hm]
      exact expire_dominates t1 t2 n ht _ _
        (fun it hit => le_of_lt (hp2 k it hit)) (hdom k) θ
    · rw [if_neg hm, if_neg hm]
      exact hdom k θ
  have hq1e : ∀ k, ∀ it ∈ (expireStep curves t1 n st1).1.queuesByCurve k,
      0 ≤ it.demand :=
    fun k it hit => le_of_lt (expireStep_pos curves t1 n st1 hp1 k it hit)
  have hq2e : ∀ k, ∀ it ∈ (expireStep curves t2 n st2).1.queuesByCurve k,
      0 ≤ it.demand :=
    fun k it hit => le_of_lt (expireStep_pos curves t2 n st2 hp2 k it hit)
  obtain ⟨hfa, hfm⟩ := processFold_dominates dm n (sortByPrio curves)
    (machines, 0, (expireStep curves t1 n st1).1)
    (machines, 0, (expireStep curves t2 n st2).1)
    hq1e hq2e (le_refl machines) hedom
  constructor
  · intro k θ
    rw [congrFun h11 k, congrFun h21 k]
    exact hfm k θ
  · rw [h15, h25]
    have hu1 : (afterProcess machines curves dm t1 st1 n).2.2.totalUtilization
        = st1.totalUtilization := by
      rw [afterProcess_totalUtil, expireStep_totalUtil]
    have hu2 : (afterProcess machines curves dm t2 st2 n).2.2.totalUtilization
        = st2.totalUtilization := by
      rw [afterProcess_totalUtil, expireStep_totalUtil]
    have hs1 : (afterProcess machines curves dm t1 st1 n).1
        + (afterProcess machines curves dm t1 st1 n).2.1
        = machines + 0 :=
      processFold_sum dm n (sortByPrio curves)
        (machines, 0, (expireStep curves t1 n st1).1)
    have hs2 : (afterProcess machines curves dm t2 st2 n).1
        + (afterProcess machines curves dm t2 st2 n).2.1
        = machines + 0 :=
      processFold_sum dm n (sortByPrio curves)
        (machines, 0, (expireStep curves t2 n st2).1)
    have hfa2 : (afterProcess machines curves dm t2 st2 n).1
        ≤ (afterProcess machines curves dm t1 st1 n).1 := hfa
    rw [hu1, hu2]
    linarith

/-- The coupling holds after every number of minutes. -/
theorem stepsUpTo_dominates (machines : α) (curves : List (Curve α))
    (dm : DemandMap α) (t1 t2 : ℕ) (ht : t1 ≤ t2) :
    ∀ n, (∀ k θ, arrivalMassFrom θ
        ((stepsUpTo machines curves dm t1 n).queuesByCurve k)
      ≤ arrivalMassFrom θ
        ((stepsUpTo machines curves dm t2 n).queuesByCurve k))
    ∧ (stepsUpTo machines curves dm t1 n).totalUtilization
      ≤ (stepsUpTo machines curves dm t2 n).totalUtilization := by
  intro n
  induction n with
  | zero => exact ⟨fun k θ => le_refl _, le_refl _⟩
  | succ n ih =>
    exact stepMinute_dominates machines curves dm t1 t2 n ht _ _
      (stepsUpTo_pos machines curves dm t1 n)
      (stepsUpTo_pos machines curves dm t2 n) ih.1 ih.2

end TimeoutDominance

/-- C8: timeout monotonicity.  For every capacity and source list (with
pairwise-distinct ids) and all timeouts t1 ≤ t2, the run with the longer
timeout ends with no more aggregate shed demand: minute by minute, the
longer-timeout run keeps suffix-heavier queues and therefore serves at
least as much, and exact conservation turns the utilisation comparison into
the shed comparison. -/
theorem C8_timeout_monotonicity (machines : ℝ) (curves : List (Curve ℝ))
    (t1 t2 : ℕ) (hnd : (curves.map Curve.id).Nodup) (ht : t1 ≤ t2) :
    (simulateCurves machines curves t2).totalShedDemand
      ≤ (simulateCurves machines curves t1).totalShedDemand := by
  have h1 : (simulateCurves machines curves t1).totalUtilization
      + (simulateCurves machines curves t1).totalShedDemand
      = (curves.map fun c =>
        traceSum (buildDemandMap curves) c.id 1440).sum :=
    (simulate_conservation machines curves (buildDemandMap curves) t1 hnd).2
  have h2 : (simulateCurves machines curves t2).totalUtilization
      + (simulateCurves machines curves t2).totalShedDemand
      = (curves.map fun c =>
        traceSum (buildDemandMap curves) c.id 1440).sum :=
    (simulate_conservation machines curves (buildDemandMap curves) t2 hnd).2
  have hu := (stepsUpTo_dominates machines curves (buildDemandMap curves)
    t1 t2 ht 1440).2
  have hU1 : (simulateCurves machines curves t1).totalUtilization
      = (stepsUpTo machines curves (buildDemandMap curves)
        t1 1440).totalUtilization :=
    (finalDrain_parts curves
      (stepsUpTo machines curves (buildDemandMap curves) t1 1440)
      hnd).2.2.1
  have hU2 : (simulateCurves machines curves t2).totalUtilization
      = (stepsUpTo machines curves (buildDemandMap curves)
        t2 1440).totalUtilization :=
    (finalDrain_parts curves
      (stepsUpTo machines curves (buildDemandMap curves) t2 1440)
      hnd).2.2.1
  linarith

/-- Witness for C8 at a concrete configuration. -/
theorem C8_timeout_monotonicity_witness :
    (simulateCurves 100 [⟨"a", "linear", (144000 : ℝ), 0, 0, 1⟩]
        20).totalShedDemand
      ≤ (simulateCurves 100 [⟨"a", "linear", (144000 : ℝ), 0, 0, 1⟩]
        10).totalShedDemand :=
  C8_timeout_monotonicity 100 [⟨"a", "linear", 144000, 0, 0, 1⟩] 10 20
    (by decide) (by norm_num)

end DemandSim
